import Mathlib

/-!
# Alderaan product catalogue

A shallow embedding of `internal/domain/product/repository/product_repository.go`
and of the product entity it stores, followed by the event dispatcher
(`internal/shared/domain/events/events_handler.go`) and the relational
repository (`internal/infra/persistence/postgres_product_repository.go`), each
in a part of its own.

Conventions of the embedding

* A Go `map[string]V` is a list of key/value entries with pairwise distinct keys.
  The order of the list is the order in which `range` visits the map; Go leaves
  that order unspecified, so every statement about it is made up to permutation
  or is shown not to depend on it.
* A Go `error` is an `Option String`: `none` is `nil`, `some msg` is an error
  whose `Error()` text is `msg`.
* Go `int` is the 64-bit two's-complement integer; additions of prices wrap.
  Lengths and occurrence counters are bounded by the number of values held in
  memory and cannot wrap, so they are left unwrapped.
* Every method of the repository holds the mutex for its whole body, so a method
  call is one atomic step on the state.
-/

namespace Alderaan

/-- Go errors: `none` is `nil`, `some msg` carries the message of `errors.New msg`. -/
abbrev GoError := Option String

/-! ## Product entity -/

/-- The struct `product_entity.Product`. A `nil` and an empty `[]string` are
both the empty list. -/
structure Product where
  Name : String
  Sku : Int
  Categories : List String
  Price : Int
deriving DecidableEq, Repr

/-- The zero value `product_entity.Product{}`. -/
def Product.zero : Product := ⟨"", 0, [], 0⟩

/-- The struct `ProductCreatedEvent` of `product_created_event.go`. -/
structure ProductCreatedEvent where
  Name : String
  Sku : Int
  Categories : List String
  Price : Int
deriving DecidableEq, Repr

/-- The constructor `NewProductCreatedEvent`. -/
def NewProductCreatedEvent (name : String) (sku : Int) (categories : List String)
    (price : Int) : ProductCreatedEvent :=
  { Name := name, Sku := sku, Categories := categories, Price := price }

/-- The method `EventName` of `ProductCreatedEvent`. -/
def ProductCreatedEvent.EventName (_e : ProductCreatedEvent) : String := "product.created"

/-- Modelled from the spec: `Validate` of `internal/domain/product/entity/product.go`,
a file that is not among the sources (only its test is). The checks run in the
fixed order name non-empty, sku > 0, categories non-empty, price > 0 and stop at
the first failure; the error texts are those asserted by `TestValidate`. -/
def Validate (name : String) (sku : Int) (categories : List String) (price : Int) :
    Bool × GoError :=
  if name = "" then (false, some "name is required")
  else if sku ≤ 0 then (false, some "sku is required")
  else if categories.length = 0 then (false, some "categories is required")
  else if price ≤ 0 then (false, some "price is required")
  else (true, none)

/-- Modelled from the spec: `NewProduct` of `internal/domain/product/entity/product.go`,
a file that is not among the sources (only its test is). Validation and
construction are atomic: on a validation failure no product and no event are
returned, with the validation error; otherwise both are returned with no error.
The optional dispatcher takes no part in the construction. -/
def NewProduct {D : Type} (name : String) (sku : Int) (categories : List String)
    (price : Int) (_dispatcher : Option D) :
    Option Product × Option ProductCreatedEvent × GoError :=
  if (Validate name sku categories price).1 then
    (some { Name := name, Sku := sku, Categories := categories, Price := price },
      some (NewProductCreatedEvent name sku categories price), none)
  else (none, none, (Validate name sku categories price).2)

/-! ## Go maps keyed by strings -/

/-- Value stored under `k` in a list of entries, `m[k]` with its `ok` flag. -/
def assocGet {V : Type} (k : String) : List (String × V) → Option V
  | [] => none
  | e :: es => if e.1 = k then some e.2 else assocGet k es

/-- The assignment `m[k] = v` on a list of entries: overwrite the entry of `k`
when there is one, otherwise add a new entry. -/
def assocSet {V : Type} (k : String) (v : V) : List (String × V) → List (String × V)
  | [] => [(k, v)]
  | e :: es => if e.1 = k then (k, v) :: es else e :: assocSet k v es

theorem assocSet_keys_mem {V : Type} (k : String) (v : V) :
    ∀ es : List (String × V), ∀ x, x ∈ (assocSet k v es).map Prod.fst ↔ x = k ∨ x ∈ es.map Prod.fst
  | [], x => by simp [assocSet]
  | e :: es, x => by
    by_cases hk : e.1 = k
    · simp only [assocSet, hk, if_true, List.map_cons, List.mem_cons]
      constructor
      · rintro (h | h)
        · exact Or.inl h
        · exact Or.inr (Or.inr h)
      · rintro (h | h | h)
        · exact Or.inl h
        · exact Or.inl h
        · exact Or.inr h
    · simp only [assocSet, hk, if_false, List.map_cons, List.mem_cons, assocSet_keys_mem k v es x]
      tauto

theorem assocSet_nodup {V : Type} (k : String) (v : V) :
    ∀ es : List (String × V), (es.map Prod.fst).Nodup → ((assocSet k v es).map Prod.fst).Nodup
  | [], _ => by simp [assocSet]
  | e :: es, h => by
    have h1 : e.1 ∉ es.map Prod.fst := (List.nodup_cons.mp h).1
    have h2 : (es.map Prod.fst).Nodup := (List.nodup_cons.mp h).2
    by_cases hk : e.1 = k
    · simp only [assocSet, hk, if_true, List.map_cons]
      exact List.nodup_cons.mpr ⟨hk ▸ h1, h2⟩
    · simp only [assocSet, hk, if_false, List.map_cons]
      refine List.nodup_cons.mpr ⟨?_, assocSet_nodup k v es h2⟩
      rw [assocSet_keys_mem]
      rintro (h | h)
      · exact hk h
      · exact h1 h

/-- A Go `map[string]V`: its entries in iteration order, with distinct keys. -/
structure GoMap (V : Type) where
  entries : List (String × V)
  nodup : (entries.map Prod.fst).Nodup

namespace GoMap

/-- The result of `make(map[string]V)`. -/
def empty {V : Type} : GoMap V := ⟨[], List.nodup_nil⟩

/-- The lookup `v, ok := m[k]`. -/
def get? {V : Type} (m : GoMap V) (k : String) : Option V := assocGet k m.entries

/-- The assignment `m[k] = v`. -/
def set {V : Type} (m : GoMap V) (k : String) (v : V) : GoMap V :=
  ⟨assocSet k v m.entries, assocSet_nodup k v m.entries m.nodup⟩

/-- The builtin `len(m)`. -/
def len {V : Type} (m : GoMap V) : Nat := m.entries.length

/-- The values met by `for _, v := range m`, in iteration order. -/
def values {V : Type} (m : GoMap V) : List V := m.entries.map Prod.snd

/-- The keys met by `for k := range m`, in iteration order. -/
def keys {V : Type} (m : GoMap V) : List String := m.entries.map Prod.fst

end GoMap

/-! ## Machine arithmetic used by `GetMetrics` -/

/-- Go `int` arithmetic: the 64-bit two's-complement value of an integer. -/
def wrapInt64 (x : Int) : Int :=
  (x + 9223372036854775808) % 18446744073709551616 - 9223372036854775808

/-- Nearest integer to a rational, ties to the even neighbour. -/
def roundHalfEven (q : ℚ) : ℤ :=
  if q - ⌊q⌋ < 1 / 2 then ⌊q⌋
  else if 1 / 2 < q - ⌊q⌋ then ⌊q⌋ + 1
  else if ⌊q⌋ % 2 = 0 then ⌊q⌋ else ⌊q⌋ + 1

/-- Rounding of a rational to a `float64` with a 53-bit significand, round to
nearest, ties to even. A finite `float64` is the rational it denotes. The
exponent is left unbounded: the values rounded by `GetMetrics` are 64-bit
integers and quotients of two of them, all of magnitude between `2^-63` and
`2^63` or zero, far inside the normal range of `float64`. -/
def roundFloat64 (q : ℚ) : ℚ :=
  if q = 0 then 0
  else (roundHalfEven (q / 2 ^ (Int.log 2 |q| - 52)) : ℚ) * 2 ^ (Int.log 2 |q| - 52)

/-- The conversion `float64(i)` of a Go `int`. -/
def float64OfInt (i : Int) : ℚ := roundFloat64 i

/-- The `float64` division `a / b` for a non-zero `b`. -/
def float64Div (a b : ℚ) : ℚ := roundFloat64 (a / b)

/-- The struct `RepositoryMetrics`. -/
structure RepositoryMetrics where
  TotalProducts : Int
  TotalValue : ℚ
  AveragePrice : ℚ
  ProductsByCategory : GoMap Int

/-- The read `m[k]` of a `map[string]int`: the zero value when `k` is absent. -/
def GoMap.index (m : GoMap Int) (k : String) : Int := (m.get? k).getD 0

/-- The statement `m[k]++` on a `map[string]int`. -/
def GoMap.incr (m : GoMap Int) (k : String) : GoMap Int := m.set k (m.index k + 1)

/-! ## In-memory repository -/

/-- The struct `ProductRepository`: the map `data`; the mutex `mu` is the
atomicity of each method below. -/
structure ProductRepository where
  data : GoMap Product

/-- The constructor `NewRepository()`. -/
def NewRepository : ProductRepository := ⟨GoMap.empty⟩

namespace ProductRepository

/-- The method `Add`: the state after the call and the returned error. -/
def Add (r : ProductRepository) (product : Product) : ProductRepository × GoError :=
  match r.data.get? product.Name with
  | some _ => (r, some "product already exists")
  | none => (⟨r.data.set product.Name product⟩, none)

/-- The method `Find`: the products appended while ranging over the map. -/
def Find (r : ProductRepository) : List Product × GoError :=
  (r.data.values, none)

/-- The method `FindOne`. -/
def FindOne (r : ProductRepository) (name : String) : Product × GoError :=
  match r.data.get? name with
  | none => (Product.zero, some "product not found")
  | some product => (product, none)

/-- One iteration of the loop of `GetMetrics` over the map: the running
`totalValue` and `ProductsByCategory` after visiting `product`. -/
def metricsStep (acc : Int × GoMap Int) (product : Product) : Int × GoMap Int :=
  (wrapInt64 (acc.1 + product.Price), product.Categories.foldl GoMap.incr acc.2)

/-- The method `GetMetrics`. -/
def GetMetrics (r : ProductRepository) : RepositoryMetrics :=
  let totalProducts : Int := r.data.len
  let loop := r.data.values.foldl metricsStep (0, GoMap.empty)
  let totalValue : ℚ := float64OfInt loop.1
  { TotalProducts := totalProducts
    TotalValue := totalValue
    AveragePrice :=
      if totalProducts > 0 then float64Div totalValue (float64OfInt totalProducts) else 0
    ProductsByCategory := loop.2 }

/-- A run of `Add` calls taking effect one after the other: the final state and
the error returned by each call, in order. -/
def addAll (r : ProductRepository) : List Product → ProductRepository × List GoError
  | [] => (r, [])
  | p :: ps => ((addAll (r.Add p).1 ps).1, (r.Add p).2 :: (addAll (r.Add p).1 ps).2)

end ProductRepository

/-! ## Sample data of the repository tests -/

/-- The product of `TestProductRepository_Add`, "add new product successfully". -/
def sampleNotebook : Product := ⟨"Notebook", 123, ["Electronics"], 3500⟩

/-- The product the "add duplicate product" test stores beforehand under the same name. -/
def sampleNotebookOld : Product := ⟨"Notebook", 456, ["Electronics"], 2500⟩

/-- The product of `TestProductRepository_FindOne`. -/
def sampleTestProduct : Product := ⟨"Test Product", 999, ["Test"], 500⟩

/-- The three products of `TestProductRepository_Find`. -/
def sampleFindProducts : List Product :=
  [⟨"Product1", 1, ["Cat1"], 100⟩, ⟨"Product2", 2, ["Cat2"], 200⟩, ⟨"Product3", 3, ["Cat3"], 300⟩]

/-- The first product of the metrics example of the specification. -/
def sampleA : Product := ⟨"A", 1, ["X", "Y"], 100⟩

/-- The second product of the metrics example of the specification. -/
def sampleB : Product := ⟨"B", 2, ["X"], 200⟩

/-- The repository after `Add sampleA` and `Add sampleB`, in this order. -/
def sampleMetricsRepo : ProductRepository := (NewRepository.addAll [sampleA, sampleB]).1

/-- A repository holding one product whose price is `2^53 + 1`. -/
def bigPriceRepo : ProductRepository :=
  (NewRepository.Add ⟨"A", 1, ["X"], 9007199254740993⟩).1

/-- A repository holding one product that lists the category "X" twice. -/
def dupCategoryRepo : ProductRepository :=
  (NewRepository.Add ⟨"A", 1, ["X", "X"], 100⟩).1

/-! # Lemmas -/

/-! ### Facts about lists of entries -/

theorem assocSet_of_get_none {V : Type} (k : String) (v : V) :
    ∀ es : List (String × V), assocGet k es = none → assocSet k v es = es ++ [(k, v)]
  | [], _ => rfl
  | e :: es, h => by
    by_cases hk : e.1 = k
    · simp [assocGet, hk] at h
    · simp only [assocGet, hk, if_false] at h
      simp [assocSet, hk, assocSet_of_get_none k v es h]

theorem assocGet_eq_none_iff {V : Type} (k : String) :
    ∀ es : List (String × V), assocGet k es = none ↔ k ∉ es.map Prod.fst
  | [] => by simp [assocGet]
  | e :: es => by
    by_cases hk : e.1 = k
    · simp [assocGet, hk]
    · have hk2 : ¬ k = e.1 := fun h => hk h.symm
      simp [assocGet, hk, hk2, assocGet_eq_none_iff k es]

theorem assocGet_assocSet_self {V : Type} (k : String) (v : V) :
    ∀ es : List (String × V), assocGet k (assocSet k v es) = some v
  | [] => by simp [assocSet, assocGet]
  | e :: es => by
    by_cases hk : e.1 = k
    · simp [assocSet, assocGet, hk]
    · simp [assocSet, assocGet, hk, assocGet_assocSet_self k v es]

theorem assocGet_assocSet_ne {V : Type} (k k' : String) (v : V) (hne : k' ≠ k) :
    ∀ es : List (String × V), assocGet k' (assocSet k v es) = assocGet k' es
  | [] => by
    have : ¬ k = k' := fun h => hne h.symm
    simp [assocSet, assocGet, this]
  | e :: es => by
    by_cases hk : e.1 = k
    · have h1 : ¬ k = k' := fun h => hne h.symm
      have h2 : ¬ e.1 = k' := fun h => hne (h.symm.trans hk)
      simp [assocSet, assocGet, hk, h1, h2]
    · by_cases hk' : e.1 = k'
      · simp [assocSet, assocGet, hk, hk', hne]
      · simp only [assocSet, hk, if_false, assocGet, hk', assocGet_assocSet_ne k k' v hne es]

theorem assocGet_mem_values {V : Type} (k : String) (v : V) :
    ∀ es : List (String × V), assocGet k es = some v → v ∈ es.map Prod.snd
  | [], h => by simp [assocGet] at h
  | e :: es, h => by
    by_cases hk : e.1 = k
    · simp only [assocGet, hk, if_true, Option.some.injEq] at h
      simp [h]
    · simp only [assocGet, hk, if_false] at h
      simp [assocGet_mem_values k v es h]

theorem assocGet_of_mem {V : Type} (k : String) (v : V) :
    ∀ es : List (String × V), (es.map Prod.fst).Nodup → (k, v) ∈ es → assocGet k es = some v
  | [], _, h => by simp at h
  | e :: es, hnd, h => by
    have h1 : e.1 ∉ es.map Prod.fst := (List.nodup_cons.mp hnd).1
    have h2 : (es.map Prod.fst).Nodup := (List.nodup_cons.mp hnd).2
    rcases List.mem_cons.mp h with h | h
    · simp [assocGet, ← h]
    · have hk : e.1 ≠ k := by
        intro hek
        exact h1 (hek ▸ List.mem_map_of_mem Prod.fst h)
      simp only [assocGet, hk, if_false]
      exact assocGet_of_mem k v es h2 h

/-- With distinct keys, looking up each key in turn yields the values in order. -/
theorem assocGet_map_keys {V : Type} (es : List (String × V)) (hnd : (es.map Prod.fst).Nodup) :
    es.map (some ∘ Prod.snd) = es.map ((fun k => assocGet k es) ∘ Prod.fst) := by
  apply List.map_congr_left
  intro e he
  simp only [Function.comp]
  exact (assocGet_of_mem e.1 e.2 es hnd he).symm

namespace ProductRepository

/-! ### Basic facts about `Add`, `FindOne` and runs of `Add` -/

theorem Add_error_eq_none_iff (r : ProductRepository) (p : Product) :
    (r.Add p).2 = none ↔ r.data.get? p.Name = none := by
  unfold Add
  cases h : r.data.get? p.Name <;> simp

theorem Add_error_eq_exists_iff (r : ProductRepository) (p : Product) :
    (r.Add p).2 = some "product already exists" ↔ r.data.get? p.Name ≠ none := by
  unfold Add
  cases h : r.data.get? p.Name <;> simp

theorem Add_state_of_stored (r : ProductRepository) (p : Product)
    (h : r.data.get? p.Name ≠ none) : (r.Add p).1 = r := by
  unfold Add
  cases h' : r.data.get? p.Name
  · exact absurd h' h
  · rfl

theorem Add_entries_of_fresh (r : ProductRepository) (p : Product)
    (h : r.data.get? p.Name = none) :
    (r.Add p).1.data.entries = r.data.entries ++ [(p.Name, p)] := by
  unfold Add
  rw [h]
  exact assocSet_of_get_none p.Name p r.data.entries h

theorem Add_get?_self_of_fresh (r : ProductRepository) (p : Product)
    (h : r.data.get? p.Name = none) : (r.Add p).1.data.get? p.Name = some p := by
  unfold Add
  rw [h]
  exact assocGet_assocSet_self p.Name p r.data.entries

theorem Add_get?_of_ne (r : ProductRepository) (p : Product) (k : String)
    (h : k ≠ p.Name) : (r.Add p).1.data.get? k = r.data.get? k := by
  unfold Add
  cases h' : r.data.get? p.Name
  · exact assocGet_assocSet_ne p.Name k p h r.data.entries
  · rfl

/-- A stored entry is never overwritten by `Add`. -/
theorem Add_get?_of_some (r : ProductRepository) (p : Product) (k : String) (v : Product)
    (h : r.data.get? k = some v) : (r.Add p).1.data.get? k = some v := by
  by_cases hk : k = p.Name
  · have hs : r.data.get? p.Name ≠ none := by rw [← hk, h]; simp
    rw [Add_state_of_stored r p hs]
    exact h
  · rw [Add_get?_of_ne r p k hk]
    exact h

theorem addAll_get?_of_some (k : String) (v : Product) :
    ∀ (ps : List Product) (r : ProductRepository), r.data.get? k = some v →
      (r.addAll ps).1.data.get? k = some v
  | [], _, h => h
  | p :: ps, r, h => addAll_get?_of_some k v ps (r.Add p).1 (Add_get?_of_some r p k v h)

theorem FindOne_eq_of_some (r : ProductRepository) (k : String) (v : Product)
    (h : r.data.get? k = some v) : r.FindOne k = (v, none) := by
  unfold FindOne
  rw [h]

theorem FindOne_eq_of_none (r : ProductRepository) (k : String)
    (h : r.data.get? k = none) : r.FindOne k = (Product.zero, some "product not found") := by
  unfold FindOne
  rw [h]

theorem FindOne_error_iff (r : ProductRepository) (k : String) :
    (r.FindOne k).2 = some "product not found" ↔ r.data.get? k = none := by
  unfold FindOne
  cases h : r.data.get? k <;> simp

/-- After a run of `Add` calls a name is absent exactly when it was absent
before and no call of the run that returned `nil` carried it. -/
theorem addAll_get?_eq_none_iff (n : String) :
    ∀ (ps : List Product) (r : ProductRepository),
      (r.addAll ps).1.data.get? n = none ↔
        (r.data.get? n = none ∧
          ∀ pe ∈ ps.zip (r.addAll ps).2, pe.2 = none → pe.1.Name ≠ n)
  | [], r => by simp [addAll]
  | p :: ps, r => by
    have ih := addAll_get?_eq_none_iff n ps (r.Add p).1
    simp only [addAll, List.zip_cons_cons, List.mem_cons, forall_eq_or_imp]
    rw [ih]
    by_cases hn : n = p.Name
    · cases hs : r.data.get? p.Name with
      | none =>
        have h1 : (r.Add p).1.data.get? n = some p := by
          rw [hn]; exact Add_get?_self_of_fresh r p hs
        have h2 : (r.Add p).2 = none := (Add_error_eq_none_iff r p).mpr hs
        constructor
        · intro h; rw [h1] at h; exact absurd h.1 (by simp)
        · intro h; exact absurd hn.symm (h.2.1 h2)
      | some v =>
        have h1 : (r.Add p).1 = r := Add_state_of_stored r p (by rw [hs]; simp)
        have h2 : r.data.get? n = some v := by rw [hn]; exact hs
        rw [h1, h2]
        simp
    · rw [Add_get?_of_ne r p n hn]
      have hn' : p.Name ≠ n := fun h => hn h.symm
      constructor
      · intro h; exact ⟨h.1, fun _ => hn', h.2⟩
      · intro h; exact ⟨h.1, h.2.2⟩

/-- Once a name is stored, every `Add` of a run for that name fails and the
state stays as it is. -/
theorem addAll_of_stored (n : String) (r : ProductRepository) (hs : r.data.get? n ≠ none) :
    ∀ ps : List Product, (∀ p ∈ ps, p.Name = n) →
      r.addAll ps = (r, List.replicate ps.length (some "product already exists"))
  | [], _ => rfl
  | p :: ps, h => by
    have hp : r.data.get? p.Name ≠ none := by
      rw [h p (List.mem_cons_self p ps)]; exact hs
    have hst : (r.Add p).1 = r := Add_state_of_stored r p hp
    have herr : (r.Add p).2 = some "product already exists" :=
      (Add_error_eq_exists_iff r p).mpr hp
    have ih := addAll_of_stored n r hs ps (fun q hq => h q (List.mem_cons_of_mem p hq))
    simp only [addAll, hst, herr, ih, List.length_cons, List.replicate_succ]

/-- A run of `Add` calls for pairwise distinct names, none of them stored yet:
every call returns `nil` and the entries are added in the order of the run. -/
theorem addAll_of_distinct_fresh :
    ∀ (ps : List Product) (r : ProductRepository),
      (ps.map Product.Name).Nodup → (∀ p ∈ ps, r.data.get? p.Name = none) →
      (r.addAll ps).2 = List.replicate ps.length none ∧
      (r.addAll ps).1.data.entries = r.data.entries ++ ps.map (fun p => (p.Name, p))
  | [], r, _, _ => by simp [addAll]
  | p :: ps, r, hnd, hfresh => by
    have hp : r.data.get? p.Name = none := hfresh p (List.mem_cons_self p ps)
    have hnd' : (ps.map Product.Name).Nodup := (List.nodup_cons.mp hnd).2
    have hnotin : p.Name ∉ ps.map Product.Name := (List.nodup_cons.mp hnd).1
    have hfresh' : ∀ q ∈ ps, (r.Add p).1.data.get? q.Name = none := by
      intro q hq
      have hne : q.Name ≠ p.Name := by
        intro h
        exact hnotin (h ▸ List.mem_map_of_mem Product.Name hq)
      rw [Add_get?_of_ne r p q.Name hne]
      exact hfresh q (List.mem_cons_of_mem p hq)
    have ih := addAll_of_distinct_fresh ps (r.Add p).1 hnd' hfresh'
    constructor
    · simp only [addAll, ih.1, (Add_error_eq_none_iff r p).mpr hp, List.length_cons,
        List.replicate_succ]
    · simp only [addAll, ih.2, Add_entries_of_fresh r p hp, List.map_cons, List.append_assoc,
        List.singleton_append]

end ProductRepository

/-! ### Facts about the machine arithmetic -/

theorem wrapInt64_wrap_add (a b : Int) : wrapInt64 (wrapInt64 a + b) = wrapInt64 (a + b) := by
  unfold wrapInt64; omega

theorem wrapInt64_of_range (x : Int) (h1 : -9223372036854775808 ≤ x)
    (h2 : x < 9223372036854775808) : wrapInt64 x = x := by
  unfold wrapInt64; omega

theorem roundHalfEven_intCast (m : ℤ) : roundHalfEven (m : ℚ) = m := by
  simp [roundHalfEven]

/-- A rational whose 53-bit scaling is an integer is a `float64`: rounding keeps it. -/
theorem roundFloat64_of_scaled_int (q : ℚ) (m : ℤ)
    (h : q / 2 ^ (Int.log 2 |q| - 52) = m) : roundFloat64 q = q := by
  unfold roundFloat64
  split
  · next h0 => exact h0.symm
  · rw [h, roundHalfEven_intCast, ← h]
    have : (2 : ℚ) ^ (Int.log 2 |q| - 52) ≠ 0 := zpow_ne_zero _ (by norm_num)
    field_simp

theorem intLog_abs_intCast (n : ℤ) : Int.log 2 |(n : ℚ)| = Nat.log 2 n.natAbs := by
  rw [← Int.cast_abs, ← Nat.cast_natAbs, Int.log_natCast]

/-- Integers of magnitude at most `2^53` convert to `float64` exactly. -/
theorem roundFloat64_intCast (n : ℤ) (h : |n| ≤ 9007199254740992) :
    roundFloat64 (n : ℚ) = n := by
  by_cases h0 : n = 0
  · simp [h0, roundFloat64]
  have ha1 : 1 ≤ n.natAbs := Nat.one_le_iff_ne_zero.mpr (Int.natAbs_ne_zero.mpr h0)
  have ha2 : n.natAbs ≤ 2 ^ 53 := by
    have : (n.natAbs : ℤ) ≤ 9007199254740992 := by rw [Int.natCast_natAbs]; exact h
    norm_num
    exact_mod_cast this
  have hk : Nat.log 2 n.natAbs ≤ 53 := by
    calc Nat.log 2 n.natAbs ≤ Nat.log 2 (2 ^ 53) := Nat.log_mono_right ha2
      _ = 53 := Nat.log_pow (by norm_num) 53
  rcases Nat.lt_or_ge (Nat.log 2 n.natAbs) 53 with hlt | hge
  · apply roundFloat64_of_scaled_int (n : ℚ) (n * 2 ^ (52 - Nat.log 2 n.natAbs))
    rw [intLog_abs_intCast]
    have he : ((Nat.log 2 n.natAbs : ℕ) : ℤ) - 52 = -((52 - Nat.log 2 n.natAbs : ℕ) : ℤ) := by
      omega
    rw [he, zpow_neg, zpow_natCast]
    push_cast
    field_simp
  · have hk53 : Nat.log 2 n.natAbs = 53 := le_antisymm hk hge
    have hpow : 2 ^ 53 ≤ n.natAbs := by
      have := Nat.pow_log_le_self 2 (Nat.one_le_iff_ne_zero.mp ha1)
      rwa [hk53] at this
    have habs : n.natAbs = 2 ^ 53 := le_antisymm ha2 hpow
    have hn : n = 9007199254740992 ∨ n = -9007199254740992 := by
      have : (n.natAbs : ℤ) = 9007199254740992 := by rw [habs]; norm_num
      omega
    apply roundFloat64_of_scaled_int (n : ℚ) (n / 2)
    rw [intLog_abs_intCast, hk53]
    rcases hn with hn | hn <;> rw [hn] <;> norm_num

/-- The smallest positive integer that is not a `float64`: `2^53 + 1` rounds to `2^53`. -/
theorem roundFloat64_two_pow_53_succ :
    roundFloat64 (9007199254740993 : ℤ) = 9007199254740992 := by
  have hlog : Int.log 2 |((9007199254740993 : ℤ) : ℚ)| = 53 := by
    rw [intLog_abs_intCast]
    have : Nat.log 2 (9007199254740993 : ℤ).natAbs = 53 := by
      rw [Nat.log_eq_iff (Or.inl (by norm_num))]
      constructor <;> norm_num
    rw [this]; rfl
  have hfloor : ⌊((9007199254740993 : ℤ) : ℚ) / 2 ^ ((53 : ℤ) - 52)⌋ = 4503599627370496 := by
    rw [Int.floor_eq_iff]
    constructor <;> norm_num
  unfold roundFloat64
  rw [if_neg (by norm_num), hlog]
  unfold roundHalfEven
  rw [hfloor]
  norm_num

/-! ### Facts about integer counters in a Go map -/

theorem GoMap.get?_incr_self (m : GoMap Int) (c : String) :
    (m.incr c).get? c = some (m.index c + 1) :=
  assocGet_assocSet_self c _ m.entries

theorem GoMap.get?_incr_of_ne (m : GoMap Int) (c k : String) (h : k ≠ c) :
    (m.incr c).get? k = m.get? k :=
  assocGet_assocSet_ne c k _ h m.entries

theorem GoMap.index_incr (m : GoMap Int) (c k : String) :
    (m.incr c).index k = m.index k + (if c = k then 1 else 0) := by
  by_cases h : c = k
  · subst h
    simp [GoMap.index, GoMap.get?_incr_self]
  · have h' : k ≠ c := fun e => h e.symm
    simp [GoMap.index, GoMap.get?_incr_of_ne m c k h', h]

theorem GoMap.isSome_get?_incr (m : GoMap Int) (c k : String) :
    ((m.incr c).get? k).isSome = true ↔ (m.get? k).isSome = true ∨ c = k := by
  by_cases h : c = k
  · subst h
    simp [GoMap.get?_incr_self]
  · have h' : k ≠ c := fun e => h e.symm
    simp [GoMap.get?_incr_of_ne m c k h', h]

/-- Counting a list of categories into a map adds, under each key, the number
of times the key occurs in the list. -/
theorem GoMap.index_foldl_incr (k : String) :
    ∀ (cats : List String) (m : GoMap Int),
      (cats.foldl GoMap.incr m).index k = m.index k + (cats.count k : Int)
  | [], m => by simp
  | c :: cats, m => by
    rw [List.foldl_cons, GoMap.index_foldl_incr k cats (m.incr c), GoMap.index_incr,
      List.count_cons]
    by_cases h : c = k
    · simp [h]; ring
    · simp [h]

theorem GoMap.isSome_get?_foldl_incr (k : String) :
    ∀ (cats : List String) (m : GoMap Int),
      ((cats.foldl GoMap.incr m).get? k).isSome = true ↔ (m.get? k).isSome = true ∨ k ∈ cats
  | [], m => by simp
  | c :: cats, m => by
    rw [List.foldl_cons, GoMap.isSome_get?_foldl_incr k cats (m.incr c),
      GoMap.isSome_get?_incr, List.mem_cons]
    constructor
    · rintro ((h | h) | h)
      · exact Or.inl h
      · exact Or.inr (Or.inl h.symm)
      · exact Or.inr (Or.inr h)
    · rintro (h | h | h)
      · exact Or.inl (Or.inl h)
      · exact Or.inl (Or.inr h.symm)
      · exact Or.inr h

namespace ProductRepository

/-! ### The loop of `GetMetrics` -/

theorem foldl_metricsStep_fst :
    ∀ (ps : List Product) (acc : Int × GoMap Int), wrapInt64 acc.1 = acc.1 →
      (ps.foldl metricsStep acc).1 = wrapInt64 (acc.1 + (ps.map Product.Price).sum)
  | [], acc, h => by simp [h]
  | p :: ps, acc, _ => by
    rw [List.foldl_cons, foldl_metricsStep_fst ps (metricsStep acc p)
      (by simp only [metricsStep]; unfold wrapInt64; omega)]
    simp only [metricsStep, List.map_cons, List.sum_cons]
    rw [wrapInt64_wrap_add, add_assoc]

theorem foldl_metricsStep_index (k : String) :
    ∀ (ps : List Product) (acc : Int × GoMap Int),
      (ps.foldl metricsStep acc).2.index k
        = acc.2.index k + (ps.map (fun p => (p.Categories.count k : Int))).sum
  | [], acc => by simp
  | p :: ps, acc => by
    rw [List.foldl_cons, foldl_metricsStep_index k ps (metricsStep acc p)]
    simp only [metricsStep, GoMap.index_foldl_incr, List.map_cons, List.sum_cons]
    ring

theorem foldl_metricsStep_isSome (k : String) :
    ∀ (ps : List Product) (acc : Int × GoMap Int),
      ((ps.foldl metricsStep acc).2.get? k).isSome = true
        ↔ (acc.2.get? k).isSome = true ∨ ∃ p ∈ ps, k ∈ p.Categories
  | [], acc => by simp
  | p :: ps, acc => by
    rw [List.foldl_cons, foldl_metricsStep_isSome k ps (metricsStep acc p)]
    simp only [metricsStep, GoMap.isSome_get?_foldl_incr, List.mem_cons, exists_eq_or_imp]
    tauto

theorem GetMetrics_TotalValue (r : ProductRepository) :
    (GetMetrics r).TotalValue
      = float64OfInt (wrapInt64 (r.data.values.map Product.Price).sum) := by
  simp only [GetMetrics]
  rw [foldl_metricsStep_fst r.data.values (0, GoMap.empty) (by decide)]
  simp

theorem GetMetrics_index (r : ProductRepository) (c : String) :
    (GetMetrics r).ProductsByCategory.index c
      = (r.data.values.map (fun p => (p.Categories.count c : Int))).sum := by
  simp only [GetMetrics]
  rw [foldl_metricsStep_index c r.data.values (0, GoMap.empty)]
  simp [GoMap.index, GoMap.get?, GoMap.empty, assocGet]

theorem GetMetrics_isSome (r : ProductRepository) (c : String) :
    ((GetMetrics r).ProductsByCategory.get? c).isSome = true
      ↔ ∃ p ∈ r.data.values, c ∈ p.Categories := by
  simp only [GetMetrics]
  rw [foldl_metricsStep_isSome c r.data.values (0, GoMap.empty)]
  simp [GoMap.get?, GoMap.empty, assocGet]

/-- The metrics do not depend on the order in which `range` visits the map. -/
theorem GetMetrics_order_independent (r r' : ProductRepository)
    (h : r'.data.entries.Perm r.data.entries) (c : String) :
    (GetMetrics r').TotalProducts = (GetMetrics r).TotalProducts ∧
    (GetMetrics r').TotalValue = (GetMetrics r).TotalValue ∧
    (GetMetrics r').AveragePrice = (GetMetrics r).AveragePrice ∧
    (GetMetrics r').ProductsByCategory.index c = (GetMetrics r).ProductsByCategory.index c := by
  have hv : r'.data.values.Perm r.data.values := h.map Prod.snd
  have h1 : (GetMetrics r').TotalProducts = (GetMetrics r).TotalProducts := by
    simp only [GetMetrics, GoMap.len, h.length_eq]
  have h2 : (GetMetrics r').TotalValue = (GetMetrics r).TotalValue := by
    rw [GetMetrics_TotalValue, GetMetrics_TotalValue, (hv.map Product.Price).sum_eq]
  refine ⟨h1, h2, ?_, ?_⟩
  · have e : ∀ x : ProductRepository, (GetMetrics x).AveragePrice
        = if (GetMetrics x).TotalProducts > 0
          then float64Div (GetMetrics x).TotalValue (float64OfInt (GetMetrics x).TotalProducts)
          else 0 := fun _ => rfl
    rw [e r', e r, h1, h2]
  · rw [GetMetrics_index, GetMetrics_index, (hv.map _).sum_eq]

end ProductRepository

/-- Occurrences of a category against the products that list it: the number
of products listing `c` never exceeds the number of occurrences of `c`, and the
two agree exactly when no product lists `c` twice. -/
theorem count_sum_filter (c : String) :
    ∀ ps : List Product,
      ((ps.filter (fun p => decide (c ∈ p.Categories))).length : Int)
          ≤ (ps.map (fun p => (p.Categories.count c : Int))).sum ∧
      ((ps.map (fun p => (p.Categories.count c : Int))).sum
          = ((ps.filter (fun p => decide (c ∈ p.Categories))).length : Int)
        ↔ ∀ p ∈ ps, p.Categories.count c ≤ 1)
  | [] => by simp
  | p :: ps => by
    obtain ⟨ih1, ih2⟩ := count_sum_filter c ps
    rw [List.forall_mem_cons, ← ih2]
    by_cases h : c ∈ p.Categories
    · have hc : 1 ≤ p.Categories.count c := List.count_pos_iff.mpr h
      simp only [List.map_cons, List.sum_cons, List.filter_cons, h, decide_True, if_true,
        List.length_cons]
      push_cast
      constructor
      · omega
      · constructor
        · intro h1; constructor <;> omega
        · rintro ⟨h1, h2⟩; omega
    · have hc : p.Categories.count c = 0 := List.count_eq_zero_of_not_mem h
      simp only [List.map_cons, List.sum_cons, List.filter_cons, h, decide_False, hc]
      simp
      exact ih1

theorem GoMap.mem_keys_iff {V : Type} (m : GoMap V) (k : String) :
    k ∈ m.keys ↔ (m.get? k).isSome = true := by
  rw [Option.isSome_iff_ne_none, Ne, GoMap.get?, assocGet_eq_none_iff, not_not]
  rfl

/-! # Claims

## `Add`, `FindOne` and `Find` -/

open ProductRepository

/-- C1: for every repository state and product `p`, `Add p` returns the error
"product already exists" exactly when a product is already stored under
`p.Name`; otherwise it returns no error and afterwards `p` is stored under
`p.Name` (and `FindOne p.Name` returns it). -/
theorem add_alreadyExists_iff_stored (r : ProductRepository) (p : Product) :
    ((r.Add p).2 = some "product already exists" ↔ ∃ q, r.data.get? p.Name = some q) ∧
    ((r.Add p).2 = some "product already exists" ∨
      ((r.Add p).2 = none ∧ (r.Add p).1.data.get? p.Name = some p ∧
        (r.Add p).1.FindOne p.Name = (p, none))) := by
  constructor
  · rw [Add_error_eq_exists_iff, ← Option.isSome_iff_exists, ← Option.isSome_iff_ne_none]
  · cases h : r.data.get? p.Name with
    | none =>
      right
      have h1 := Add_get?_self_of_fresh r p h
      exact ⟨(Add_error_eq_none_iff r p).mpr h, h1, FindOne_eq_of_some _ _ _ h1⟩
    | some v =>
      left
      exact (Add_error_eq_exists_iff r p).mpr (by rw [h]; simp)

/-- C2: when `p` and `q` have the same name and `Add p` succeeds, a following
`Add q` fails with "product already exists" and leaves the repository as it
was: the state is unchanged, `FindOne p.Name` still returns `p`, and `Find`
returns what it returned before the failed call. -/
theorem add_duplicate_fails_unchanged (r : ProductRepository) (p q : Product)
    (hname : q.Name = p.Name) (hok : (r.Add p).2 = none) :
    ((r.Add p).1.Add q).2 = some "product already exists" ∧
    ((r.Add p).1.Add q).1 = (r.Add p).1 ∧
    ((r.Add p).1.Add q).1.FindOne p.Name = (p, none) ∧
    ((r.Add p).1.Add q).1.Find = (r.Add p).1.Find := by
  have hfresh : r.data.get? p.Name = none := (Add_error_eq_none_iff r p).mp hok
  have hp : (r.Add p).1.data.get? p.Name = some p := Add_get?_self_of_fresh r p hfresh
  have hq : (r.Add p).1.data.get? q.Name ≠ none := by rw [hname, hp]; simp
  have hst : ((r.Add p).1.Add q).1 = (r.Add p).1 := Add_state_of_stored _ q hq
  refine ⟨(Add_error_eq_exists_iff _ q).mpr hq, hst, ?_, ?_⟩
  · rw [hst]; exact FindOne_eq_of_some _ _ _ hp
  · rw [hst]

/-- The duplicate case of `TestProductRepository_Add`: "Notebook" stored, then added again. -/
theorem add_duplicate_fails_unchanged_witness :
    ((NewRepository.Add sampleNotebookOld).1.Add sampleNotebook).2
        = some "product already exists" ∧
    ((NewRepository.Add sampleNotebookOld).1.Add sampleNotebook).1
        = (NewRepository.Add sampleNotebookOld).1 ∧
    ((NewRepository.Add sampleNotebookOld).1.Add sampleNotebook).1.FindOne sampleNotebookOld.Name
        = (sampleNotebookOld, none) ∧
    ((NewRepository.Add sampleNotebookOld).1.Add sampleNotebook).1.Find
        = (NewRepository.Add sampleNotebookOld).1.Find :=
  add_duplicate_fails_unchanged NewRepository sampleNotebookOld sampleNotebook (by decide) (by decide)

/-- C3: in every state reached from `NewRepository` by a run of `Add` calls,
`FindOne n` fails with "product not found" exactly when no call of the run
that returned `nil` carried a product named `n`; when it fails it returns the
zero `Product`. -/
theorem findOne_notFound_iff_never_added (ps : List Product) (n : String) :
    (((NewRepository.addAll ps).1.FindOne n).2 = some "product not found" ↔
      ∀ pe ∈ ps.zip (NewRepository.addAll ps).2, pe.2 = none → pe.1.Name ≠ n) ∧
    (((NewRepository.addAll ps).1.FindOne n).2 = none ∨
      (NewRepository.addAll ps).1.FindOne n = (Product.zero, some "product not found")) := by
  constructor
  · rw [FindOne_error_iff, addAll_get?_eq_none_iff]
    constructor
    · intro h; exact h.2
    · intro h; exact ⟨rfl, h⟩
  · cases h : (NewRepository.addAll ps).1.data.get? n with
    | none => right; exact FindOne_eq_of_none _ _ h
    | some v => left; rw [FindOne_eq_of_some _ _ _ h]

/-- C4: when no product is stored under `p.Name`, `Add p` returns no error and
`FindOne p.Name` then returns `p` itself (name, sku, categories in the same
order, price) with no error, right after the call and also after any run of
later `Add` calls (for other names, or failing ones for the same name). -/
theorem add_findOne_roundtrip (r : ProductRepository) (p : Product) (qs : List Product)
    (hfresh : r.data.get? p.Name = none) :
    (r.Add p).2 = none ∧
    (r.Add p).1.FindOne p.Name = (p, none) ∧
    ((r.Add p).1.addAll qs).1.FindOne p.Name = (p, none) := by
  have hp : (r.Add p).1.data.get? p.Name = some p := Add_get?_self_of_fresh r p hfresh
  exact ⟨(Add_error_eq_none_iff r p).mpr hfresh, FindOne_eq_of_some _ _ _ hp,
    FindOne_eq_of_some _ _ _ (addAll_get?_of_some _ _ qs _ hp)⟩

/-- The product of `TestProductRepository_FindOne`, found again after three later adds. -/
theorem add_findOne_roundtrip_witness :
    (NewRepository.Add sampleTestProduct).2 = none ∧
    (NewRepository.Add sampleTestProduct).1.FindOne sampleTestProduct.Name
      = (sampleTestProduct, none) ∧
    ((NewRepository.Add sampleTestProduct).1.addAll sampleFindProducts).1.FindOne
      sampleTestProduct.Name = (sampleTestProduct, none) :=
  add_findOne_roundtrip NewRepository sampleTestProduct sampleFindProducts (by decide)

/-- C5: for every repository state, `Find` returns no error and a sequence
holding, for each key of the map once (the keys are pairwise distinct), the
product stored under that key, and nothing else; its length is the number of
stored products, and it is empty for a new repository. -/
theorem find_returns_every_stored_product (r : ProductRepository) :
    (r.Find).2 = none ∧
    (r.Find).1.length = r.data.len ∧
    r.data.keys.Nodup ∧
    (r.Find).1.map some = r.data.keys.map r.data.get? ∧
    (∀ x, x ∈ (r.Find).1 ↔ ∃ k, r.data.get? k = some x) ∧
    NewRepository.Find = ([], none) := by
  have hmap : (r.Find).1.map some = r.data.keys.map r.data.get? := by
    simp only [Find, GoMap.values, GoMap.keys, GoMap.get?, List.map_map]
    exact assocGet_map_keys r.data.entries r.data.nodup
  refine ⟨rfl, by simp [Find, GoMap.values, GoMap.len], r.data.nodup, hmap, ?_, rfl⟩
  intro x
  constructor
  · intro hx
    have : some x ∈ (r.Find).1.map some := List.mem_map_of_mem some hx
    rw [hmap] at this
    obtain ⟨k, _, hk⟩ := List.mem_map.mp this
    exact ⟨k, hk⟩
  · rintro ⟨k, hk⟩
    exact assocGet_mem_values k x r.data.entries hk

/-! ## Claims on `GetMetrics` -/

/-- C6, as stated, fails: with one stored product of price `2^53 + 1` the sum
of the prices is `2^53 + 1` while `TotalValue`, a `float64`, is `2^53`. -/
theorem getMetrics_totalValue_not_sum :
    (bigPriceRepo.data.values.map Product.Price).sum = 9007199254740993 ∧
    (GetMetrics bigPriceRepo).TotalValue = 9007199254740992 ∧
    (GetMetrics bigPriceRepo).TotalValue
      ≠ (((bigPriceRepo.data.values.map Product.Price).sum : ℤ) : ℚ) := by
  have hsum : (bigPriceRepo.data.values.map Product.Price).sum = 9007199254740993 := by
    decide
  have hval : (GetMetrics bigPriceRepo).TotalValue = 9007199254740992 := by
    rw [GetMetrics_TotalValue, hsum, wrapInt64_of_range _ (by norm_num) (by norm_num)]
    exact roundFloat64_two_pow_53_succ
  refine ⟨hsum, hval, ?_⟩
  rw [hval, hsum]
  norm_num

/-- C6, amended: for every repository state `GetMetrics` returns
`TotalProducts` = the number of stored products; `TotalValue` = the `float64`
conversion of the 64-bit sum of the prices, which is the exact sum of the
prices whenever that sum has magnitude at most `2^53`; `AveragePrice` = the
`float64` quotient of `TotalValue` by `TotalProducts` when `TotalProducts > 0`
and 0 otherwise. The empty repository yields 0, 0, 0 and an empty category
map; the products (A,1,[X,Y],100), (B,2,[X],200) yield 2, 300, 150. -/
theorem getMetrics_totals (r : ProductRepository) :
    (GetMetrics r).TotalProducts = r.data.len ∧
    (GetMetrics r).TotalProducts = (r.Find).1.length ∧
    (GetMetrics r).TotalValue
      = float64OfInt (wrapInt64 (r.data.values.map Product.Price).sum) ∧
    (|(r.data.values.map Product.Price).sum| ≤ 9007199254740992 →
      (GetMetrics r).TotalValue = (((r.data.values.map Product.Price).sum : ℤ) : ℚ)) ∧
    (GetMetrics r).AveragePrice
      = (if 0 < (GetMetrics r).TotalProducts
          then float64Div (GetMetrics r).TotalValue (float64OfInt (GetMetrics r).TotalProducts)
          else 0) ∧
    ((GetMetrics NewRepository).TotalProducts = 0 ∧
      (GetMetrics NewRepository).TotalValue = 0 ∧
      (GetMetrics NewRepository).AveragePrice = 0 ∧
      (GetMetrics NewRepository).ProductsByCategory.entries = []) ∧
    ((GetMetrics sampleMetricsRepo).TotalProducts = 2 ∧
      (GetMetrics sampleMetricsRepo).TotalValue = 300 ∧
      (GetMetrics sampleMetricsRepo).AveragePrice = 150) := by
  have havg : ∀ x : ProductRepository, (GetMetrics x).AveragePrice
      = if 0 < (GetMetrics x).TotalProducts
        then float64Div (GetMetrics x).TotalValue (float64OfInt (GetMetrics x).TotalProducts)
        else 0 := fun _ => rfl
  have hexact : ∀ x : ProductRepository,
      |(x.data.values.map Product.Price).sum| ≤ 9007199254740992 →
      (GetMetrics x).TotalValue = (((x.data.values.map Product.Price).sum : ℤ) : ℚ) := by
    intro x hx
    have hb := abs_le.mp hx
    rw [GetMetrics_TotalValue, wrapInt64_of_range _ (by omega) (by omega)]
    exact roundFloat64_intCast _ hx
  have hempty : (GetMetrics NewRepository).TotalValue = 0 := by
    rw [hexact NewRepository (by decide)]
    rfl
  have hsum : (sampleMetricsRepo.data.values.map Product.Price).sum = 300 := by decide
  have hval : (GetMetrics sampleMetricsRepo).TotalValue = 300 := by
    rw [hexact sampleMetricsRepo (by rw [hsum]; decide), hsum]
    norm_num
  have hcount : (GetMetrics sampleMetricsRepo).TotalProducts = 2 := by decide
  refine ⟨rfl, by simp [GetMetrics, Find, GoMap.len, GoMap.values], GetMetrics_TotalValue r,
    hexact r, havg r, ⟨by decide, hempty, ?_, by decide⟩, ⟨hcount, hval, ?_⟩⟩
  · rw [havg, if_neg (by decide)]
  · rw [havg, if_pos (by decide), hval, hcount]
    have h2 : float64OfInt 2 = 2 := roundFloat64_intCast 2 (by decide)
    have h150 : roundFloat64 ((150 : ℤ) : ℚ) = 150 := by
      rw [roundFloat64_intCast 150 (by decide)]
      norm_num
    unfold float64Div
    rw [h2]
    norm_num
    exact_mod_cast h150

/-- The example of the specification: the sum 300 is within range and `TotalValue` is exact. -/
theorem getMetrics_totals_witness :
    |(sampleMetricsRepo.data.values.map Product.Price).sum| ≤ 9007199254740992 ∧
    (GetMetrics sampleMetricsRepo).TotalValue
      = (((sampleMetricsRepo.data.values.map Product.Price).sum : ℤ) : ℚ) :=
  ⟨by decide, (getMetrics_totals sampleMetricsRepo).2.2.2.1 (by decide)⟩

/-- C7, as stated, fails: with one stored product whose category list is
[X, X], `ProductsByCategory[X]` is 2 while one stored product includes X. -/
theorem productsByCategory_counts_duplicates :
    (GetMetrics dupCategoryRepo).ProductsByCategory.index "X" = 2 ∧
    (dupCategoryRepo.data.values.filter (fun p => decide ("X" ∈ p.Categories))).length = 1 ∧
    (GetMetrics dupCategoryRepo).ProductsByCategory.index "X"
      ≠ ((dupCategoryRepo.data.values.filter
          (fun p => decide ("X" ∈ p.Categories))).length : Int) := by
  decide

/-- C7, amended: for every repository state and category `c`,
`ProductsByCategory[c]` is the total number of occurrences of `c` in the
category lists of the stored products. It is at least the number of stored
products whose categories include `c`, and equal to it exactly when no stored
product lists `c` more than once. The map has a key exactly for every category
referenced by at least one stored product. For the products (A,1,[X,Y],100),
(B,2,[X],200) the map is X ↦ 2, Y ↦ 1. -/
theorem productsByCategory_counts_occurrences (r : ProductRepository) (c : String) :
    (GetMetrics r).ProductsByCategory.index c
      = (r.data.values.map (fun p => (p.Categories.count c : Int))).sum ∧
    ((r.data.values.filter (fun p => decide (c ∈ p.Categories))).length : Int)
      ≤ (GetMetrics r).ProductsByCategory.index c ∧
    ((GetMetrics r).ProductsByCategory.index c
        = ((r.data.values.filter (fun p => decide (c ∈ p.Categories))).length : Int)
      ↔ ∀ p ∈ r.data.values, p.Categories.count c ≤ 1) ∧
    (c ∈ (GetMetrics r).ProductsByCategory.keys ↔ ∃ p ∈ r.data.values, c ∈ p.Categories) ∧
    ((GetMetrics sampleMetricsRepo).ProductsByCategory.index "X" = 2 ∧
      (GetMetrics sampleMetricsRepo).ProductsByCategory.index "Y" = 1 ∧
      (GetMetrics sampleMetricsRepo).ProductsByCategory.keys.Perm ["X", "Y"]) := by
  have h := count_sum_filter c r.data.values
  refine ⟨GetMetrics_index r c, ?_, ?_, ?_, by decide, by decide, by decide⟩
  · rw [GetMetrics_index]; exact h.1
  · rw [GetMetrics_index]; exact h.2
  · rw [GoMap.mem_keys_iff]; exact GetMetrics_isSome r c

/-! ## Concurrent `Add` calls, each one atomic step -/

/-- C8: `Add` calls for products that share one name, taking effect in any
order on a repository that does not hold that name: exactly one call (the
first to take effect) returns no error, every other call returns "product
already exists", and the product stored under the name is the one of the
successful call. -/
theorem concurrent_add_same_name_one_success (r : ProductRepository) (n : String)
    (calls order : List Product) (hperm : order.Perm calls) (hne : calls ≠ [])
    (hname : ∀ p ∈ calls, p.Name = n) (hfresh : r.data.get? n = none) :
    (r.addAll order).2.length = calls.length ∧
    (r.addAll order).2.count none = 1 ∧
    (∀ e ∈ (r.addAll order).2, e = none ∨ e = some "product already exists") ∧
    (r.addAll order).2
      = none :: List.replicate (calls.length - 1) (some "product already exists") ∧
    ∃ p, (p, (none : GoError)) ∈ order.zip (r.addAll order).2 ∧
      (r.addAll order).1.data.get? n = some p ∧
      (r.addAll order).1.FindOne n = (p, none) := by
  have hlen : order.length = calls.length := hperm.length_eq
  cases order with
  | nil =>
    exfalso
    apply hne
    exact List.length_eq_zero.mp (by rw [← hlen]; rfl)
  | cons p rest =>
    have hpn : p.Name = n := hname p (hperm.subset (List.mem_cons_self p rest))
    have hrest : ∀ q ∈ rest, q.Name = n :=
      fun q hq => hname q (hperm.subset (List.mem_cons_of_mem p hq))
    have hp : r.data.get? p.Name = none := by rw [hpn]; exact hfresh
    have herr : (r.Add p).2 = none := (Add_error_eq_none_iff r p).mpr hp
    have hstored : (r.Add p).1.data.get? n = some p := by
      rw [← hpn]; exact Add_get?_self_of_fresh r p hp
    have hrun := addAll_of_stored n (r.Add p).1 (by rw [hstored]; simp) rest hrest
    have hcl : calls.length - 1 = rest.length := by
      rw [← hlen]; simp
    have herrs : (r.addAll (p :: rest)).2
        = none :: List.replicate rest.length (some "product already exists") := by
      simp only [addAll, hrun, herr]
    have hfin : (r.addAll (p :: rest)).1 = (r.Add p).1 := by
      simp only [addAll, hrun]
    refine ⟨by rw [herrs, ← hlen]; simp, ?_, ?_, by rw [herrs, hcl], p, ?_, ?_, ?_⟩
    · rw [herrs, List.count_cons_self, List.count_replicate]
      simp
    · intro e he
      rw [herrs] at he
      rcases List.mem_cons.mp he with he | he
      · exact Or.inl he
      · exact Or.inr (List.eq_of_mem_replicate he)
    · rw [herrs]
      simp
    · rw [hfin]; exact hstored
    · rw [hfin]; exact FindOne_eq_of_some _ _ _ hstored

/-- Two calls for "Notebook" on a new repository, taking effect in the swapped order. -/
theorem concurrent_add_same_name_one_success_witness :
    (NewRepository.addAll [sampleNotebook, sampleNotebookOld]).2.length = 2 ∧
    (NewRepository.addAll [sampleNotebook, sampleNotebookOld]).2.count none = 1 ∧
    (∀ e ∈ (NewRepository.addAll [sampleNotebook, sampleNotebookOld]).2,
      e = none ∨ e = some "product already exists") ∧
    (NewRepository.addAll [sampleNotebook, sampleNotebookOld]).2
      = none :: List.replicate (2 - 1) (some "product already exists") ∧
    ∃ p, (p, (none : GoError)) ∈
        [sampleNotebook, sampleNotebookOld].zip
          (NewRepository.addAll [sampleNotebook, sampleNotebookOld]).2 ∧
      (NewRepository.addAll [sampleNotebook, sampleNotebookOld]).1.data.get? "Notebook" = some p ∧
      (NewRepository.addAll [sampleNotebook, sampleNotebookOld]).1.FindOne "Notebook" = (p, none) :=
  concurrent_add_same_name_one_success NewRepository "Notebook"
    [sampleNotebookOld, sampleNotebook] [sampleNotebook, sampleNotebookOld]
    (List.Perm.swap _ _ _) (by decide) (by decide) (by decide)

/-- C9: `Add` calls for products with pairwise distinct names, taking effect in
any order on a new repository: every call returns no error, and a following
`Find` returns no error and exactly those products, as many as were added. -/
theorem concurrent_add_distinct_all_visible (calls order : List Product)
    (hperm : order.Perm calls) (hnd : (calls.map Product.Name).Nodup) :
    (NewRepository.addAll order).2 = List.replicate calls.length none ∧
    ((NewRepository.addAll order).1.Find).2 = none ∧
    ((NewRepository.addAll order).1.Find).1.Perm calls ∧
    ((NewRepository.addAll order).1.Find).1.length = calls.length := by
  have hnd' : (order.map Product.Name).Nodup :=
    (List.Perm.nodup_iff (hperm.map Product.Name)).mpr hnd
  have h := addAll_of_distinct_fresh order NewRepository hnd' (fun _ _ => rfl)
  have hvals : ((NewRepository.addAll order).1.Find).1 = order := by
    show List.map Prod.snd (NewRepository.addAll order).1.data.entries = order
    rw [h.2]
    simp [NewRepository, GoMap.empty, Function.comp_def]
  refine ⟨by rw [h.1, hperm.length_eq], rfl, by rw [hvals]; exact hperm, ?_⟩
  rw [hvals]; exact hperm.length_eq

/-- The three products of `TestProductRepository_Find`, added in reverse order. -/
theorem concurrent_add_distinct_all_visible_witness :
    (NewRepository.addAll sampleFindProducts.reverse).2
      = List.replicate sampleFindProducts.length none ∧
    ((NewRepository.addAll sampleFindProducts.reverse).1.Find).2 = none ∧
    ((NewRepository.addAll sampleFindProducts.reverse).1.Find).1.Perm sampleFindProducts ∧
    ((NewRepository.addAll sampleFindProducts.reverse).1.Find).1.length
      = sampleFindProducts.length :=
  concurrent_add_distinct_all_visible sampleFindProducts sampleFindProducts.reverse
    (List.reverse_perm _) (by decide)

/-! ## Validation and construction of a product -/

/-- C10: for every input that violates at least one required-field check,
`Validate` returns false and `NewProduct` returns no product and no event,
both with the error of the first violated check in the order name non-empty,
sku > 0, categories non-empty, price > 0; the four error texts are pairwise
distinct. -/
theorem validate_first_violation {D : Type} (name : String) (sku : Int)
    (categories : List String) (price : Int) (dispatcher : Option D)
    (hbad : name = "" ∨ sku ≤ 0 ∨ categories = [] ∨ price ≤ 0) :
    (Validate name sku categories price).1 = false ∧
    (Validate name sku categories price).2 = some
      (if name = "" then "name is required"
       else if sku ≤ 0 then "sku is required"
       else if categories = [] then "categories is required"
       else "price is required") ∧
    NewProduct name sku categories price dispatcher
      = (none, none, (Validate name sku categories price).2) ∧
    ["name is required", "sku is required", "categories is required",
      "price is required"].Nodup := by
  have hv : (Validate name sku categories price).1 = false ∧
      (Validate name sku categories price).2 = some
        (if name = "" then "name is required"
         else if sku ≤ 0 then "sku is required"
         else if categories = [] then "categories is required"
         else "price is required") := by
    unfold Validate
    by_cases h1 : name = ""
    · simp [h1]
    · by_cases h2 : sku ≤ 0
      · simp [h1, h2]
      · by_cases h3 : categories = []
        · simp [h1, h2, h3]
        · have h4 : price ≤ 0 := by
            rcases hbad with h | h | h | h
            · exact absurd h h1
            · exact absurd h h2
            · exact absurd h h3
            · exact h
          simp [h1, h2, h3, h4]
  refine ⟨hv.1, hv.2, ?_, by decide⟩
  unfold NewProduct
  rw [hv.1]
  simp

/-- An input with an empty name and a zero sku: the name error comes first. -/
theorem validate_first_violation_witness :
    (Validate "" 0 ["Electronics"] 3500).1 = false ∧
    (Validate "" 0 ["Electronics"] 3500).2 = some
      (if "" = "" then "name is required"
       else if (0 : Int) ≤ 0 then "sku is required"
       else if ["Electronics"] = [] then "categories is required"
       else "price is required") ∧
    NewProduct "" 0 ["Electronics"] 3500 (none : Option Unit)
      = (none, none, (Validate "" 0 ["Electronics"] 3500).2) ∧
    ["name is required", "sku is required", "categories is required",
      "price is required"].Nodup :=
  validate_first_violation "" 0 ["Electronics"] 3500 (none : Option Unit) (Or.inl rfl)

/-- C11: for every input with a non-empty name, sku > 0, non-empty categories
and price > 0, and for every dispatcher argument (none included), `NewProduct`
returns no error together with a product and an event that both carry the four
inputs, the event being of kind "product.created"; and for every input at all
it returns a product exactly when it returns an event. -/
theorem newProduct_valid_returns_both {D : Type} (name : String) (sku : Int)
    (categories : List String) (price : Int) (dispatcher : Option D)
    (hname : name ≠ "") (hsku : 0 < sku) (hcat : categories ≠ []) (hprice : 0 < price) :
    (∃ p e, NewProduct name sku categories price dispatcher = (some p, some e, none) ∧
      (p.Name = name ∧ p.Sku = sku ∧ p.Categories = categories ∧ p.Price = price) ∧
      (e.Name = name ∧ e.Sku = sku ∧ e.Categories = categories ∧ e.Price = price) ∧
      e.EventName = "product.created") ∧
    NewProduct name sku categories price dispatcher
      = NewProduct name sku categories price (none : Option D) ∧
    (∀ (n : String) (s : Int) (cs : List String) (pr : Int) (d : Option D),
      (NewProduct n s cs pr d).1.isSome = (NewProduct n s cs pr d).2.1.isSome) := by
  have hv : (Validate name sku categories price).1 = true := by
    have h2 : ¬ sku ≤ 0 := not_le.mpr hsku
    have h3 : ¬ categories.length = 0 := fun h => hcat (List.length_eq_zero.mp h)
    have h4 : ¬ price ≤ 0 := not_le.mpr hprice
    simp [Validate, hname, h2, h3, h4]
  refine ⟨⟨⟨name, sku, categories, price⟩, NewProductCreatedEvent name sku categories price,
    ?_, ⟨rfl, rfl, rfl, rfl⟩, ⟨rfl, rfl, rfl, rfl⟩, rfl⟩, rfl, ?_⟩
  · simp [NewProduct, hv]
  · intro n s cs pr d
    unfold NewProduct
    cases (Validate n s cs pr).1 <;> simp

/-- The valid product of `TestNewProduct`, built with no dispatcher. -/
theorem newProduct_valid_returns_both_witness :
    (∃ p e, NewProduct "Notebook" 12345 ["Electronics", "Computers"] 3500 (none : Option Unit)
        = (some p, some e, none) ∧
      (p.Name = "Notebook" ∧ p.Sku = 12345 ∧ p.Categories = ["Electronics", "Computers"] ∧
        p.Price = 3500) ∧
      (e.Name = "Notebook" ∧ e.Sku = 12345 ∧ e.Categories = ["Electronics", "Computers"] ∧
        e.Price = 3500) ∧
      e.EventName = "product.created") ∧
    NewProduct "Notebook" 12345 ["Electronics", "Computers"] 3500 (none : Option Unit)
      = NewProduct "Notebook" 12345 ["Electronics", "Computers"] 3500 (none : Option Unit) ∧
    (∀ (n : String) (s : Int) (cs : List String) (pr : Int) (d : Option Unit),
      (NewProduct n s cs pr d).1.isSome = (NewProduct n s cs pr d).2.1.isSome) :=
  newProduct_valid_returns_both "Notebook" 12345 ["Electronics", "Computers"] 3500 none
    (by decide) (by decide) (by decide) (by decide)

/-- C12: `NewProductCreatedEvent` returns an event whose name, sku, categories
(same elements, same order) and price are its arguments, and `EventName` of
every event is "product.created" whatever the fields. -/
theorem newProductCreatedEvent_carries_arguments (name : String) (sku : Int)
    (categories : List String) (price : Int) (e : ProductCreatedEvent) :
    (NewProductCreatedEvent name sku categories price).Name = name ∧
    (NewProductCreatedEvent name sku categories price).Sku = sku ∧
    (NewProductCreatedEvent name sku categories price).Categories = categories ∧
    (NewProductCreatedEvent name sku categories price).Price = price ∧
    e.EventName = "product.created" ∧
    (NewProductCreatedEvent name sku categories price).EventName = "product.created" :=
  ⟨rfl, rfl, rfl, rfl, rfl, rfl⟩

/-! # Event dispatcher

A shallow embedding of `internal/shared/domain/events/events_handler.go`.
A handler is a non-nil function value, taken from an arbitrary type `H`; an
event is a value of an arbitrary type `E`. `Dispatch` runs under the read lock
and `Register` under the write lock, so each is one atomic step. A `go`
statement is recorded as the goroutine it starts. -/

/-- The struct `EventDispatcher`: the map `handlers` from event kind to the
registered handlers, in registration order. -/
structure EventDispatcher (H : Type) where
  handlers : GoMap (List H)

/-- The constructor `NewEventDispatcher()`. -/
def NewEventDispatcher {H : Type} : EventDispatcher H := ⟨GoMap.empty⟩

/-- A goroutine started by the statement `go handler(event)`: its whole body is
the call of `handler` on `event`. -/
structure Goroutine (H E : Type) where
  handler : H
  event : E
deriving DecidableEq, Repr

/-- What a call of `Dispatch` leaves behind: the dispatcher, the goroutines
started (in the order of the `go` statements) and the lines printed. -/
structure DispatchResult (H E : Type) where
  dispatcher : EventDispatcher H
  started : List (Goroutine H E)
  printed : List String

namespace EventDispatcher

/-- The read `d.handlers[eventName]`: the nil slice when the kind has no entry. -/
def handlersOf {H : Type} (d : EventDispatcher H) (eventName : String) : List H :=
  (d.handlers.get? eventName).getD []

/-- The method `Register`. -/
def Register {H : Type} (d : EventDispatcher H) (eventName : String) (handler : H) :
    EventDispatcher H :=
  ⟨d.handlers.set eventName (d.handlersOf eventName ++ [handler])⟩

/-- The method `Dispatch`. It returns nothing to its caller. -/
def Dispatch {H E : Type} (d : EventDispatcher H) (eventName : String) (event : E) :
    DispatchResult H E :=
  match d.handlers.get? eventName with
  | some handlers =>
    { dispatcher := d, started := handlers.map (fun handler => ⟨handler, event⟩), printed := [] }
  | none =>
    { dispatcher := d, started := [],
      printed := ["Event dispatched: " ++ eventName ++ " (no handlers registered)\n"] }

/-- A run of `Register` calls taking effect one after the other. -/
def registerAll {H : Type} (d : EventDispatcher H) : List (String × H) → EventDispatcher H
  | [] => d
  | (eventName, handler) :: rest => registerAll (d.Register eventName handler) rest

end EventDispatcher

/-- How the call of a handler ends: it returns, or it panics. -/
inductive HandlerOutcome where
  | returned
  | panicked
deriving DecidableEq, Repr

/-- How a goroutine started by `Dispatch` ends, given how each handler behaves
on each event: its body is the bare call, with no deferred `recover`, so it ends
as the call ends. -/
def Goroutine.outcome {H E : Type} (behaviour : H → E → HandlerOutcome)
    (g : Goroutine H E) : HandlerOutcome :=
  behaviour g.handler g.event

/-- The Go runtime on a set of goroutines: a panic that unwinds a goroutine
without being recovered terminates the program, so the process survives
exactly when every goroutine returns. -/
def processSurvives {H E : Type} (behaviour : H → E → HandlerOutcome)
    (gs : List (Goroutine H E)) : Bool :=
  gs.all (fun g => decide (g.outcome behaviour = HandlerOutcome.returned))

/-- A handler that returns (`false`) and a handler that panics (`true`). -/
def sampleBehaviour (panics : Bool) (_event : Unit) : HandlerOutcome :=
  if panics then HandlerOutcome.panicked else HandlerOutcome.returned

/-- A dispatcher with a returning and a panicking handler registered under "x". -/
def samplePanicDispatcher : EventDispatcher Bool :=
  (NewEventDispatcher.Register "x" false).Register "x" true

namespace EventDispatcher

/-! ### Facts about the dispatcher -/

theorem handlersOf_Register_self {H : Type} (d : EventDispatcher H) (k : String) (h : H) :
    (d.Register k h).handlersOf k = d.handlersOf k ++ [h] := by
  simp [handlersOf, Register, GoMap.get?, GoMap.set, assocGet_assocSet_self]

theorem get?_Register_of_ne {H : Type} (d : EventDispatcher H) (k k' : String) (h : H)
    (hne : k' ≠ k) : (d.Register k h).handlers.get? k' = d.handlers.get? k' :=
  assocGet_assocSet_ne k k' _ hne d.handlers.entries

theorem handlersOf_Register {H : Type} (d : EventDispatcher H) (k k' : String) (h : H) :
    (d.Register k h).handlersOf k' = d.handlersOf k' ++ (if k = k' then [h] else []) := by
  by_cases hk : k = k'
  · subst hk
    simp [handlersOf_Register_self]
  · have hne : k' ≠ k := fun e => hk e.symm
    simp [handlersOf, get?_Register_of_ne d k k' h hne, hk]

theorem handlersOf_registerAll {H : Type} (k : String) :
    ∀ (regs : List (String × H)) (d : EventDispatcher H),
      (d.registerAll regs).handlersOf k
        = d.handlersOf k ++ (regs.filter (fun r => decide (r.1 = k))).map Prod.snd
  | [], d => by simp [registerAll]
  | (k', h) :: rest, d => by
    rw [registerAll, handlersOf_registerAll k rest (d.Register k' h), handlersOf_Register]
    by_cases hk : k' = k
    · simp [hk, List.filter_cons]
    · simp [hk, List.filter_cons]

theorem Dispatch_started {H E : Type} (d : EventDispatcher H) (k : String) (e : E) :
    (d.Dispatch k e).started = (d.handlersOf k).map (fun h => ⟨h, e⟩) := by
  unfold Dispatch handlersOf
  cases d.handlers.get? k <;> rfl

theorem Dispatch_dispatcher {H E : Type} (d : EventDispatcher H) (k : String) (e : E) :
    (d.Dispatch k e).dispatcher = d := by
  unfold Dispatch
  cases d.handlers.get? k <;> rfl

end EventDispatcher

/-! ## Claims on the dispatcher -/

open EventDispatcher

/-- C13: for every registry, kind `k` and event `e`, `Dispatch k e` starts one
goroutine per entry of the handler list of `k`, in order, each on `e` (a handler
registered `m` times is started `m` times), and no goroutine for a handler that
is not in the list of `k`; when `k` has no entry it starts nothing and only
prints; when the list of `k` is empty it starts nothing; and it leaves the
registry as it was. -/
theorem dispatch_starts_each_registered_handler {H E : Type} [DecidableEq H] [DecidableEq E]
    (d : EventDispatcher H) (k : String) (e : E) :
    (d.Dispatch k e).started = (d.handlersOf k).map (fun h => ⟨h, e⟩) ∧
    (∀ h, (d.Dispatch k e).started.count ⟨h, e⟩ = (d.handlersOf k).count h) ∧
    (∀ g ∈ (d.Dispatch k e).started, g.event = e ∧ g.handler ∈ d.handlersOf k) ∧
    (d.Dispatch k e).started.length = (d.handlersOf k).length ∧
    (d.handlers.get? k = none →
      (d.Dispatch k e).started = [] ∧ (d.Dispatch k e).printed.length = 1) ∧
    (d.handlersOf k = [] → (d.Dispatch k e).started = []) ∧
    (d.Dispatch k e).dispatcher = d := by
  have hs := Dispatch_started d k e
  refine ⟨hs, ?_, ?_, by rw [hs, List.length_map], ?_, ?_, Dispatch_dispatcher d k e⟩
  · intro h
    rw [hs]
    exact List.count_map_of_injective (d.handlersOf k) (fun h => (⟨h, e⟩ : Goroutine H E))
      (fun a b hab => by injection hab) h
  · intro g hg
    rw [hs] at hg
    obtain ⟨h, hh, rfl⟩ := List.mem_map.mp hg
    exact ⟨rfl, hh⟩
  · intro hnone
    unfold Dispatch
    rw [hnone]
    exact ⟨rfl, rfl⟩
  · intro hnil
    rw [hs, hnil]
    rfl

/-- The three registrations of one handler of the dispatch test: three goroutines. -/
theorem dispatch_starts_each_registered_handler_witness :
    ((((NewEventDispatcher.Register "multi.event" ()).Register "multi.event" ()).Register
        "multi.event" ()).Dispatch "multi.event" "e").started.count ⟨(), "e"⟩ = 3 ∧
    ((NewEventDispatcher : EventDispatcher Unit).Dispatch "unregistered.event" "e").started = [] :=
  ⟨by
    rw [(dispatch_starts_each_registered_handler _ "multi.event" "e").2.1 ()]
    decide,
   ((dispatch_starts_each_registered_handler (NewEventDispatcher : EventDispatcher Unit)
      "unregistered.event" "e").2.2.2.2.1 rfl).1⟩

/-- C14: `Register k h` makes the handler list of `k` its previous list with `h`
appended at the end and leaves the entry of every other kind as it was; hence
after any run of registrations the list of `k` is its previous list followed
by the handlers registered under `k`, duplicates included, in registration
order, and on a new dispatcher `n` registrations under `k` give a list of
length `n`. -/
theorem register_appends_handler {H : Type} (d : EventDispatcher H) (k : String) (h : H) :
    (d.Register k h).handlers.get? k = some (d.handlersOf k ++ [h]) ∧
    (d.Register k h).handlersOf k = d.handlersOf k ++ [h] ∧
    (∀ k', k' ≠ k → (d.Register k h).handlers.get? k' = d.handlers.get? k') ∧
    (∀ regs : List (String × H),
      (d.registerAll regs).handlersOf k
        = d.handlersOf k ++ (regs.filter (fun r => decide (r.1 = k))).map Prod.snd) ∧
    (∀ hs : List H,
      ((NewEventDispatcher : EventDispatcher H).registerAll (hs.map (fun x => (k, x)))).handlersOf k
        = hs) := by
  refine ⟨assocGet_assocSet_self k _ d.handlers.entries, handlersOf_Register_self d k h,
    fun k' hne => get?_Register_of_ne d k k' h hne,
    fun regs => handlersOf_registerAll k regs d, ?_⟩
  intro hs
  rw [handlersOf_registerAll]
  have h1 : (NewEventDispatcher : EventDispatcher H).handlersOf k = [] := rfl
  rw [h1, List.nil_append]
  induction hs with
  | nil => rfl
  | cons x xs ih => simp [List.filter_cons, ih]

/-- C15, as stated, fails: with a returning and a panicking handler registered
under "x", `Dispatch` starts a goroutine for each; the goroutine of the
panicking handler ends in a panic that nothing recovers, and the process does
not survive. -/
theorem dispatch_does_not_trap_panics :
    (samplePanicDispatcher.Dispatch "x" ()).started = [⟨false, ()⟩, ⟨true, ()⟩] ∧
    (⟨true, ()⟩ : Goroutine Bool Unit).outcome sampleBehaviour = HandlerOutcome.panicked ∧
    processSurvives sampleBehaviour (samplePanicDispatcher.Dispatch "x" ()).started = false := by
  decide

/-- C15, amended: `Dispatch` starts every handler registered under `k` as a
goroutine of its own whose body is the bare call of the handler on the event,
and leaves the registry as it was. It traps nothing: each goroutine ends as its
handler ends, so the process survives the dispatch exactly when no handler
registered under `k` panics on the event; handlers that return do not affect
one another. -/
theorem dispatch_survives_iff_no_handler_panics {H E : Type} (d : EventDispatcher H)
    (k : String) (e : E) (behaviour : H → E → HandlerOutcome) :
    (∀ g ∈ (d.Dispatch k e).started, g.outcome behaviour = behaviour g.handler e) ∧
    ((d.Dispatch k e).started.map (fun g => g.outcome behaviour)
      = (d.handlersOf k).map (fun h => behaviour h e)) ∧
    (processSurvives behaviour (d.Dispatch k e).started = true
      ↔ ∀ h ∈ d.handlersOf k, behaviour h e = HandlerOutcome.returned) ∧
    (d.Dispatch k e).dispatcher = d := by
  have hs := Dispatch_started d k e
  refine ⟨?_, ?_, ?_, Dispatch_dispatcher d k e⟩
  · intro g hg
    rw [hs] at hg
    obtain ⟨h, _, rfl⟩ := List.mem_map.mp hg
    rfl
  · rw [hs, List.map_map]
    rfl
  · rw [hs]
    simp [processSurvives, Goroutine.outcome]

/-! # Relational repository

A shallow embedding of `internal/infra/persistence/postgres_product_repository.go`.
The database behind `*sql.DB` is outside the program: it is a value `SqlDB`
giving the reply to each statement the repository issues, and the claims are
proved for every such value. A backend error is a value of `SqlError`; wrapping
it with `fmt.Errorf("...: %w", err)` gives the error whose text is the prefix
followed by the text of the backend error. -/

/-- Errors returned by `database/sql` and the driver: the sentinel
`sql.ErrNoRows`, or any other error with its text. -/
inductive SqlError where
  | errNoRows
  | other (msg : String)
deriving DecidableEq, Repr

/-- The method `Error()` of a backend error. -/
def SqlError.Error : SqlError → String
  | SqlError.errNoRows => "sql: no rows in result set"
  | SqlError.other msg => msg

/-- The sentinel `sql.ErrConnDone`, used by the tests as a storage failure. -/
def errConnDone : SqlError := SqlError.other "sql: connection is already closed"

/-- The reply to a `Query` whose rows are then iterated: the query fails, or it
opens a cursor that delivers rows, each of which `Scan` reads or fails to
read, until `Next` returns false, at the end of the rows or on the iteration
error that `rows.Err()` then reports. -/
inductive RowsReply (α : Type) where
  | failed (err : SqlError)
  | opened (rows : List (Except SqlError α)) (iterErr : Option SqlError)

/-- A row of `SELECT id, name, sku, price FROM products`. -/
structure ProductRow where
  id : Int
  name : String
  sku : Int
  price : Int
deriving DecidableEq, Repr

/-- The text of the sum and average aggregate of `GetMetrics`, with runs of
white space collapsed to one blank. -/
def sumAvgQuery : String := "SELECT SUM(price * stock), AVG(price) FROM products"

/-- The replies of the database to the statements of the repository. The
replies to the statements of `Add` that run once per category carry the
position of the category in the list, so that every run of outcomes is covered.
The aggregate of `GetMetrics` is keyed by its text; its reply is the pair of
columns as `Scan` delivers them, `none` for NULL. -/
structure SqlDB where
  begin : Option SqlError
  insertProduct : String → Int → Int → Except SqlError Int
  upsertCategory : Nat → String → Except SqlError Int
  insertProductCategory : Nat → Int → Int → Option SqlError
  commit : Option SqlError
  selectProducts : RowsReply ProductRow
  selectProductByName : String → Except SqlError ProductRow
  selectCategories : Int → RowsReply String
  countProducts : Except SqlError Int
  aggregate : String → Except SqlError (Option ℚ × Option ℚ)
  countByCategory : RowsReply (String × Int)

/-- A statement issued on the database or on the transaction. -/
inductive SqlCall where
  | begin
  | insertProduct (name : String) (sku price : Int)
  | upsertCategory (name : String)
  | insertProductCategory (productID categoryID : Int)
  | commit
  | rollback
deriving DecidableEq, Repr

/-- Whether a statement writes a row: the three inserts of `Add`. -/
def SqlCall.isWrite : SqlCall → Bool
  | SqlCall.insertProduct _ _ _ => true
  | SqlCall.upsertCategory _ => true
  | SqlCall.insertProductCategory _ _ => true
  | _ => false

/-- What the backend holds of the writes of `Add`, by the contract of a
transactional store: `visible` are the writes of the transactions that took
effect, seen by every later query; `pending` are the writes of the open
transaction, seen by no other session, `none` when no transaction is open. -/
structure TxStore where
  visible : List SqlCall
  pending : Option (List SqlCall)
deriving DecidableEq, Repr

namespace TxStore

/-- A write arrives: when the backend reports success it has joined the open
transaction, when it reports a failure it has written nothing. -/
def write (s : TxStore) (w : SqlCall) (ok : Bool) : TxStore :=
  if ok then { s with pending := s.pending.map (fun ws => ws ++ [w]) } else s

/-- The stores in which a statement may leave the backend, given whether the
backend reported success. `Begin` opens a transaction; `Commit` makes the
writes of the open transaction visible, all at once; `Rollback` drops them. A
`Commit` reported as failed either did not take effect, or took effect with
its reply lost: the caller cannot tell, so both stores are listed. -/
def receive (s : TxStore) (c : SqlCall) (ok : Bool) : List TxStore :=
  match c with
  | SqlCall.begin => if ok then [{ s with pending := some [] }] else [s]
  | SqlCall.insertProduct _ _ _ => [s.write c ok]
  | SqlCall.upsertCategory _ => [s.write c ok]
  | SqlCall.insertProductCategory _ _ => [s.write c ok]
  | SqlCall.commit =>
    if ok then [⟨s.visible ++ s.pending.getD [], none⟩]
    else [⟨s.visible, none⟩, ⟨s.visible ++ s.pending.getD [], none⟩]
  | SqlCall.rollback => [⟨s.visible, none⟩]

/-- The stores in which a sequence of statements, each with the success the
backend reported, may leave the backend. -/
def run : TxStore → List (SqlCall × Bool) → List TxStore
  | s, [] => [s]
  | s, (c, ok) :: rest => (s.receive c ok).flatMap (fun s' => run s' rest)

end TxStore

/-- The struct `PostgresProductRepository`. -/
structure PostgresProductRepository where
  db : SqlDB

/-- The constructor `NewPostgresProductRepository`. -/
def NewPostgresProductRepository (db : SqlDB) : PostgresProductRepository := ⟨db⟩

namespace PostgresProductRepository

/-- The loop of `Add` over the categories from position `i` on: the statements
issued and the error returned from inside the loop, if any. -/
def addCategories (r : PostgresProductRepository) (productID : Int) :
    Nat → List String → List SqlCall × GoError
  | _, [] => ([], none)
  | i, categoryName :: rest =>
    match r.db.upsertCategory i categoryName with
    | Except.error err =>
      ([SqlCall.upsertCategory categoryName], some ("erro ao inserir categoria: " ++ err.Error))
    | Except.ok categoryID =>
      match r.db.insertProductCategory i productID categoryID with
      | some err =>
        ([SqlCall.upsertCategory categoryName,
            SqlCall.insertProductCategory productID categoryID],
          some ("erro ao associar categoria ao produto: " ++ err.Error))
      | none =>
        (SqlCall.upsertCategory categoryName
            :: SqlCall.insertProductCategory productID categoryID
            :: (addCategories r productID (i + 1) rest).1,
          (addCategories r productID (i + 1) rest).2)

/-- The body of `Add` after a successful `Begin`, up to its return. -/
def addInTransaction (r : PostgresProductRepository) (product : Product) :
    List SqlCall × GoError :=
  match r.db.insertProduct product.Name product.Sku product.Price with
  | Except.error err =>
    ([SqlCall.insertProduct product.Name product.Sku product.Price],
      some ("erro ao inserir produto: " ++ err.Error))
  | Except.ok productID =>
    match (addCategories r productID 0 product.Categories).2 with
    | some e =>
      (SqlCall.insertProduct product.Name product.Sku product.Price
          :: (addCategories r productID 0 product.Categories).1, some e)
    | none =>
      match r.db.commit with
      | some err =>
        (SqlCall.insertProduct product.Name product.Sku product.Price
            :: (addCategories r productID 0 product.Categories).1 ++ [SqlCall.commit],
          some ("erro ao commitar transação: " ++ err.Error))
      | none =>
        (SqlCall.insertProduct product.Name product.Sku product.Price
            :: (addCategories r productID 0 product.Categories).1 ++ [SqlCall.commit], none)

/-- The deferred `tx.Rollback()`, run when `Add` returns after its body sent
`sent` on the transaction. `Commit` marks the transaction done before it calls
the driver, and `Rollback` on a transaction that is done returns
`sql.ErrTxDone` and sends nothing: `ROLLBACK` reaches the backend exactly when
`Commit` was not called. -/
def deferredRollback (sent : List SqlCall) : List SqlCall :=
  if SqlCall.commit ∈ sent then [] else [SqlCall.rollback]

/-- The method `Add`: the statements that reach the backend, in order, and the
returned error. The deferred `tx.Rollback()` runs on every return that follows
a successful `Begin`; its result is discarded. -/
def Add (r : PostgresProductRepository) (product : Product) : List SqlCall × GoError :=
  match r.db.begin with
  | some err => ([SqlCall.begin], some ("erro ao iniciar transação: " ++ err.Error))
  | none =>
    (SqlCall.begin :: (addInTransaction r product).1
        ++ deferredRollback (addInTransaction r product).1,
      (addInTransaction r product).2)

/-- The statements the body of `Add` sent, each with the success the backend
reported: the body returns at the first failure, so every statement succeeded
except, when the body `failed`, the last one. -/
def bodyReplies : List SqlCall → Bool → List (SqlCall × Bool)
  | [], _ => []
  | [c], failed => [(c, !failed)]
  | c :: c' :: rest, failed => (c, true) :: bodyReplies (c' :: rest) failed

/-- The statements of `Add` with the success the backend reported for each.
`Add` discards the result of the deferred `Rollback`, and the backend drops
the open transaction whatever it reports. -/
def AddReplies (r : PostgresProductRepository) (product : Product) : List (SqlCall × Bool) :=
  match r.db.begin with
  | some _ => [(SqlCall.begin, false)]
  | none =>
    (SqlCall.begin, true)
      :: bodyReplies (addInTransaction r product).1 (addInTransaction r product).2.isSome
      ++ (deferredRollback (addInTransaction r product).1).map (fun c => (c, true))

/-- The loop of `getProductCategories` over the delivered rows. -/
def scanCategories : List (Except SqlError String) → List String → List String × Option SqlError
  | [], categories => (categories, none)
  | Except.error err :: _, _ => ([], some err)
  | Except.ok category :: rest, categories => scanCategories rest (categories ++ [category])

/-- The method `getProductCategories`. It does not consult `rows.Err()`. -/
def getProductCategories (r : PostgresProductRepository) (productID : Int) :
    List String × Option SqlError :=
  match r.db.selectCategories productID with
  | RowsReply.failed err => ([], some err)
  | RowsReply.opened rows _ => scanCategories rows []

/-- The loop of `Find` over the delivered product rows: the products, or the
error returned from inside the loop. -/
def scanProducts (r : PostgresProductRepository) :
    List (Except SqlError ProductRow) → List Product → Except String (List Product)
  | [], products => Except.ok products
  | Except.error err :: _, _ => Except.error ("erro ao escanear produto: " ++ err.Error)
  | Except.ok row :: rest, products =>
    match r.getProductCategories row.id with
    | (_, some err) =>
      Except.error
        ("erro ao buscar categorias do produto " ++ toString row.id ++ ": " ++ err.Error)
    | (categories, none) =>
      scanProducts r rest (products ++ [⟨row.name, row.sku, categories, row.price⟩])

/-- The method `Find`. -/
def Find (r : PostgresProductRepository) : List Product × GoError :=
  match r.db.selectProducts with
  | RowsReply.failed err => ([], some ("erro ao buscar produtos: " ++ err.Error))
  | RowsReply.opened rows iterErr =>
    match scanProducts r rows [] with
    | Except.error msg => ([], some msg)
    | Except.ok products =>
      match iterErr with
      | some err => ([], some ("erro ao iterar produtos: " ++ err.Error))
      | none => (products, none)

/-- The method `FindOne`. -/
def FindOne (r : PostgresProductRepository) (name : String) : Product × GoError :=
  match r.db.selectProductByName name with
  | Except.error SqlError.errNoRows => (Product.zero, some "product not found")
  | Except.error err => (Product.zero, some ("erro ao buscar produto: " ++ err.Error))
  | Except.ok row =>
    match r.getProductCategories row.id with
    | (_, some err) => (Product.zero, some ("erro ao buscar categorias: " ++ err.Error))
    | (categories, none) => (⟨row.name, row.sku, categories, row.price⟩, none)

/-- The loop of `GetMetrics` over the rows of the count per category: a row
that `Scan` cannot read is skipped. -/
def scanCategoryCounts : List (Except SqlError (String × Int)) → GoMap Int → GoMap Int
  | [], m => m
  | Except.error _ :: rest, m => scanCategoryCounts rest m
  | Except.ok (category, count) :: rest, m => scanCategoryCounts rest (m.set category count)

/-- The method `GetMetrics`. Every error is dropped; a destination that `Scan`
did not fill keeps its zero value. -/
def GetMetrics (r : PostgresProductRepository) : RepositoryMetrics :=
  { TotalProducts :=
      match r.db.countProducts with
      | Except.ok n => n
      | Except.error _ => 0
    TotalValue :=
      match r.db.aggregate sumAvgQuery with
      | Except.ok (some total, _) => total
      | _ => 0
    AveragePrice :=
      match r.db.aggregate sumAvgQuery with
      | Except.ok (_, some average) => average
      | _ => 0
    ProductsByCategory :=
      match r.db.countByCategory with
      | RowsReply.failed _ => GoMap.empty
      | RowsReply.opened rows _ => scanCategoryCounts rows GoMap.empty }

/-- Every category of `done`, met from position `i` on, is upserted with the
id listed beside it and associated with the product, both without error. -/
def categoriesSucceed (r : PostgresProductRepository) (productID : Int) :
    Nat → List (String × Int) → Prop
  | _, [] => True
  | i, (categoryName, categoryID) :: rest =>
    r.db.upsertCategory i categoryName = Except.ok categoryID ∧
    r.db.insertProductCategory i productID categoryID = none ∧
    categoriesSucceed r productID (i + 1) rest

/-- The statements issued for categories that all succeed: for each, in order,
the upsert and then the association. -/
def categoryCalls (productID : Int) (done : List (String × Int)) : List SqlCall :=
  done.flatMap (fun cd =>
    [SqlCall.upsertCategory cd.1, SqlCall.insertProductCategory productID cd.2])

end PostgresProductRepository

/-! ## Sample databases of the relational tests -/

/-- A database on which every statement fails with `sql.ErrConnDone`. -/
def brokenDB : SqlDB :=
  { begin := some errConnDone
    insertProduct := fun _ _ _ => Except.error errConnDone
    upsertCategory := fun _ _ => Except.error errConnDone
    insertProductCategory := fun _ _ _ => some errConnDone
    commit := some errConnDone
    selectProducts := RowsReply.failed errConnDone
    selectProductByName := fun _ => Except.error errConnDone
    selectCategories := fun _ => RowsReply.failed errConnDone
    countProducts := Except.error errConnDone
    aggregate := fun _ => Except.error errConnDone
    countByCategory := RowsReply.failed errConnDone }

/-- The mock of "add product successfully": the product gets id 1, the two
categories the ids 1 and 2, and every statement succeeds. -/
def sampleAddDB : SqlDB :=
  { brokenDB with
    begin := none
    insertProduct := fun _ _ _ => Except.ok 1
    upsertCategory := fun i _ => Except.ok (i + 1)
    insertProductCategory := fun _ _ _ => none
    commit := none }

/-- The product of "add product successfully". -/
def sampleRelationalNotebook : Product :=
  ⟨"Notebook", 12345, ["Electronics", "Computers"], 3500⟩

/-- The mock of "database error on insert": the transaction begins and the
insert of the product fails. -/
def sampleInsertFailsDB : SqlDB := { brokenDB with begin := none }

/-- The mock of "add product successfully" when the `Commit` fails: every
statement succeeds and the `Commit` reports `sql.ErrConnDone`. -/
def sampleCommitFailsDB : SqlDB := { sampleAddDB with commit := some errConnDone }

/-- The writes of "add product successfully", in order. -/
def sampleNotebookWrites : List SqlCall :=
  [SqlCall.insertProduct "Notebook" 12345 3500,
    SqlCall.upsertCategory "Electronics", SqlCall.insertProductCategory 1 1,
    SqlCall.upsertCategory "Computers", SqlCall.insertProductCategory 1 2]

/-- A database whose table `products` already holds a row of every name: the
insert of a product violates the unique constraint on `name`. -/
def sampleNameTakenDB : SqlDB :=
  { brokenDB with
    begin := none
    insertProduct := fun _ _ _ =>
      Except.error
        (SqlError.other "pq: duplicate key value violates unique constraint products_name_key") }

/-- The repository of the in-memory variant that already holds "Notebook". -/
def sampleNameTakenRepo : ProductRepository := (NewRepository.Add sampleNotebookOld).1

/-- The mock of "find existing product": the row of "Notebook" with id 1 and
its two categories. -/
def sampleFindOneDB : SqlDB :=
  { brokenDB with
    selectProductByName := fun _ => Except.ok ⟨1, "Notebook", 12345, 3500⟩
    selectCategories := fun _ =>
      RowsReply.opened [Except.ok "Electronics", Except.ok "Computers"] none }

/-- The database of `sampleFindOneDB` when the connection is lost while the
categories are read: one row is delivered, then `Next` returns false and
`rows.Err()` holds the error. -/
def sampleCursorBreaksDB : SqlDB :=
  { brokenDB with
    selectProductByName := fun _ => Except.ok ⟨1, "Notebook", 12345, 3500⟩
    selectCategories := fun _ => RowsReply.opened [Except.ok "Electronics"] (some errConnDone) }

/-- The columns of the persisted table `products`, as the layout the
repository depends on lists them. -/
def productsLayout : List String := ["id", "name", "sku", "price", "created_at"]

/-- Letters, digits and the underscore: the characters of an SQL word. -/
def isWordChar (c : Char) : Bool := c.isAlphanum || c == '_'

/-- The words of an SQL text, in order; `word` holds the current word reversed. -/
def sqlWordsFrom : List Char → List Char → List String
  | [], word => if word.isEmpty then [] else [String.mk word.reverse]
  | c :: cs, word =>
    if isWordChar c then sqlWordsFrom cs (c :: word)
    else if word.isEmpty then sqlWordsFrom cs []
    else String.mk word.reverse :: sqlWordsFrom cs []

/-- The words (keywords, functions, tables and columns) of an SQL text. -/
def sqlWords (sql : String) : List String := sqlWordsFrom sql.data []

/-- Whether a text occurs inside another. -/
def textContains (needle : List Char) : List Char → Bool
  | [] => needle.isEmpty
  | c :: cs => needle.isPrefixOf (c :: cs) || textContains needle cs

/-- The aggregate the test "get metrics successfully" expects, as the text its
pattern matches. -/
def expectedSumAvgQuery : String := "SELECT SUM(price), AVG(price) FROM products"

/-- The mock of "get metrics successfully": 10 products, the pair (5000, 500.0)
for an aggregate whose text holds the expected one, and three categories. The
mock matches its expectations in order: the rows per category are delivered
only once the expected aggregate has been met, and the aggregate that
`GetMetrics` sends before it asks for them is `sumAvgQuery`. -/
def sampleMetricsMockDB : SqlDB :=
  { brokenDB with
    countProducts := Except.ok 10
    aggregate := fun sql =>
      if textContains expectedSumAvgQuery.data sql.data then Except.ok (some 5000, some 500)
      else Except.error (SqlError.other "could not match actual sql with expected regexp")
    countByCategory :=
      if textContains expectedSumAvgQuery.data sumAvgQuery.data then
        RowsReply.opened
          [Except.ok ("Electronics", 5), Except.ok ("Books", 3), Except.ok ("Toys", 2)] none
      else RowsReply.failed (SqlError.other "could not match actual sql with expected regexp") }

/-- The product a row and its categories make. -/
def ProductRow.toProduct (row : ProductRow) (categories : List String) : Product :=
  ⟨row.name, row.sku, categories, row.price⟩

namespace PostgresProductRepository

/-! ### Facts about the loop of `Add` -/

theorem addCategories_of_succeed (r : PostgresProductRepository) (productID : Int) :
    ∀ (done : List (String × Int)) (i : Nat), categoriesSucceed r productID i done →
      addCategories r productID i (done.map Prod.fst) = (categoryCalls productID done, none)
  | [], _, _ => rfl
  | (c, cid) :: rest, i, h => by
    obtain ⟨h1, h2, h3⟩ := h
    have ih := addCategories_of_succeed r productID rest (i + 1) h3
    simp only [List.map_cons, addCategories, h1, h2, ih]
    rfl

theorem addCategories_of_upsert_fails (r : PostgresProductRepository) (productID : Int)
    (c : String) (rest : List String) (e : SqlError) :
    ∀ (done : List (String × Int)) (i : Nat), categoriesSucceed r productID i done →
      r.db.upsertCategory (i + done.length) c = Except.error e →
      addCategories r productID i (done.map Prod.fst ++ c :: rest)
        = (categoryCalls productID done ++ [SqlCall.upsertCategory c],
            some ("erro ao inserir categoria: " ++ e.Error))
  | [], i, _, he => by
    simp only [List.length_nil, Nat.add_zero] at he
    simp only [List.map_nil, List.nil_append, addCategories, he]
    rfl
  | (c', cid) :: done, i, h, he => by
    obtain ⟨h1, h2, h3⟩ := h
    have he' : r.db.upsertCategory (i + 1 + done.length) c = Except.error e := by
      rw [← he]; simp only [List.length_cons]; congr 1; omega
    have ih := addCategories_of_upsert_fails r productID c rest e done (i + 1) h3 he'
    show addCategories r productID i (c' :: (done.map Prod.fst ++ c :: rest)) = _
    rw [addCategories]
    simp only [h1, h2, ih]
    rfl

theorem addCategories_of_association_fails (r : PostgresProductRepository) (productID : Int)
    (c : String) (cid : Int) (rest : List String) (e : SqlError) :
    ∀ (done : List (String × Int)) (i : Nat), categoriesSucceed r productID i done →
      r.db.upsertCategory (i + done.length) c = Except.ok cid →
      r.db.insertProductCategory (i + done.length) productID cid = some e →
      addCategories r productID i (done.map Prod.fst ++ c :: rest)
        = (categoryCalls productID done
              ++ [SqlCall.upsertCategory c, SqlCall.insertProductCategory productID cid],
            some ("erro ao associar categoria ao produto: " ++ e.Error))
  | [], i, _, hu, he => by
    simp only [List.length_nil, Nat.add_zero] at hu he
    simp only [List.map_nil, List.nil_append, addCategories, hu, he]
    rfl
  | (c', cid') :: done, i, h, hu, he => by
    obtain ⟨h1, h2, h3⟩ := h
    have hidx : i + ((c', cid') :: done).length = i + 1 + done.length := by
      simp only [List.length_cons]; omega
    rw [hidx] at hu he
    have ih := addCategories_of_association_fails r productID c cid rest e done (i + 1) h3 hu he
    show addCategories r productID i (c' :: (done.map Prod.fst ++ c :: rest)) = _
    rw [addCategories]
    simp only [h1, h2, ih]
    rfl

/-- The categories of a product either all succeed, or there is a first one
whose upsert fails, or a first one whose association fails. -/
theorem categories_cases (r : PostgresProductRepository) (productID : Int) :
    ∀ (cats : List String) (i : Nat),
      (∃ done, cats = done.map Prod.fst ∧ categoriesSucceed r productID i done) ∨
      (∃ done c rest e, cats = done.map Prod.fst ++ c :: rest ∧
        categoriesSucceed r productID i done ∧
        r.db.upsertCategory (i + done.length) c = Except.error e) ∨
      (∃ done c cid rest e, cats = done.map Prod.fst ++ c :: rest ∧
        categoriesSucceed r productID i done ∧
        r.db.upsertCategory (i + done.length) c = Except.ok cid ∧
        r.db.insertProductCategory (i + done.length) productID cid = some e)
  | [], _ => Or.inl ⟨[], rfl, trivial⟩
  | c :: cats, i => by
    cases hu : r.db.upsertCategory i c with
    | error e => exact Or.inr (Or.inl ⟨[], c, cats, e, rfl, trivial, hu⟩)
    | ok cid =>
      cases ha : r.db.insertProductCategory i productID cid with
      | some e => exact Or.inr (Or.inr ⟨[], c, cid, cats, e, rfl, trivial, hu, ha⟩)
      | none =>
        have hidx : ∀ n : Nat, i + (n + 1) = i + 1 + n := fun n => by omega
        rcases categories_cases r productID cats (i + 1) with
          ⟨done, hd, hs⟩ | ⟨done, c2, rest, e, hd, hs, h1⟩ | ⟨done, c2, cid2, rest, e, hd, hs, h1, h2⟩
        · exact Or.inl ⟨(c, cid) :: done, by rw [hd]; rfl, hu, ha, hs⟩
        · refine Or.inr (Or.inl ⟨(c, cid) :: done, c2, rest, e, by rw [hd]; rfl, ⟨hu, ha, hs⟩, ?_⟩)
          rw [List.length_cons, hidx]; exact h1
        · refine Or.inr (Or.inr ⟨(c, cid) :: done, c2, cid2, rest, e, by rw [hd]; rfl,
            ⟨hu, ha, hs⟩, ?_, ?_⟩)
          · rw [List.length_cons, hidx]; exact h1
          · rw [List.length_cons, hidx]; exact h2

theorem commit_not_mem_categoryCalls (productID : Int) (done : List (String × Int)) :
    SqlCall.commit ∉ categoryCalls productID done := by
  simp [categoryCalls, List.mem_flatMap]

/-! ### Facts about the texts of the errors -/

theorem head?_append_of_head? (pre s : String) (c : Char) (hc : pre.data.head? = some c) :
    (pre ++ s).data.head? = some c := by
  rw [String.data_append]
  cases hd : pre.data with
  | nil => rw [hd] at hc; simp at hc
  | cons x xs => rw [hd] at hc; simpa using hc

/-- A text that starts with another character is not the wrapped text. -/
theorem wrapped_ne_of_head? (pre s t : String) (c : Char) (hc : pre.data.head? = some c)
    (ht : t.data.head? ≠ some c) : pre ++ s ≠ t := by
  intro h
  have h1 := head?_append_of_head? pre s c hc
  rw [h] at h1
  exact ht h1

/-- The error texts of the loop of `Add` start with the letter e. -/
theorem addCategories_error_head? (r : PostgresProductRepository) (productID : Int) :
    ∀ (cats : List String) (i : Nat) (msg : String),
      (addCategories r productID i cats).2 = some msg → msg.data.head? = some 'e'
  | [], _, _, h => by simp [addCategories] at h
  | c :: cats, i, msg, h => by
    rw [addCategories] at h
    cases hu : r.db.upsertCategory i c with
    | error e =>
      simp only [hu, Option.some.injEq] at h
      rw [← h]
      exact head?_append_of_head? _ _ _ rfl
    | ok cid =>
      cases ha : r.db.insertProductCategory i productID cid with
      | some e =>
        simp only [hu, ha, Option.some.injEq] at h
        rw [← h]
        exact head?_append_of_head? _ _ _ rfl
      | none =>
        simp only [hu, ha] at h
        exact addCategories_error_head? r productID cats (i + 1) msg h

/-- Every error text of the relational `Add` starts with the letter e. -/
theorem Add_error_head? (r : PostgresProductRepository) (product : Product) (msg : String)
    (h : (PostgresProductRepository.Add r product).2 = some msg) :
    msg.data.head? = some 'e' := by
  unfold PostgresProductRepository.Add at h
  cases hb : r.db.begin with
  | some e =>
    simp only [hb, Option.some.injEq] at h
    rw [← h]
    exact head?_append_of_head? _ _ _ rfl
  | none =>
    simp only [hb] at h
    unfold addInTransaction at h
    cases hi : r.db.insertProduct product.Name product.Sku product.Price with
    | error e =>
      simp only [hi, Option.some.injEq] at h
      rw [← h]
      exact head?_append_of_head? _ _ _ rfl
    | ok pid =>
      simp only [hi] at h
      cases hc : (addCategories r pid 0 product.Categories).2 with
      | some e =>
        simp only [hc, Option.some.injEq] at h
        rw [← h]
        exact addCategories_error_head? r pid product.Categories 0 e hc
      | none =>
        simp only [hc] at h
        cases hm : r.db.commit with
        | some e =>
          simp only [hm, Option.some.injEq] at h
          rw [← h]
          exact head?_append_of_head? _ _ _ rfl
        | none => simp [hm] at h

/-! ### Facts about the loops of `Find` and `getProductCategories` -/

theorem scanCategories_of_ok :
    ∀ (cats acc : List String),
      scanCategories (cats.map Except.ok) acc = (acc ++ cats, none)
  | [], acc => by simp [scanCategories]
  | c :: cats, acc => by
    simp only [List.map_cons, scanCategories, scanCategories_of_ok cats (acc ++ [c])]
    simp

theorem scanCategories_of_error (e : SqlError) (post : List (Except SqlError String)) :
    ∀ (pre acc : List String),
      scanCategories (pre.map Except.ok ++ Except.error e :: post) acc = ([], some e)
  | [], acc => by simp [scanCategories]
  | c :: pre, acc => by
    show scanCategories (Except.ok c :: (pre.map Except.ok ++ Except.error e :: post)) acc = _
    rw [scanCategories]
    exact scanCategories_of_error e post pre (acc ++ [c])

/-- Rows that are read, and whose categories are fetched without a reported
error, are appended to the products in order. -/
theorem scanProducts_of_ok (r : PostgresProductRepository)
    (rest : List (Except SqlError ProductRow)) :
    ∀ (pre : List ProductRow) (acc : List Product),
      (∀ row ∈ pre, (r.getProductCategories row.id).2 = none) →
      scanProducts r (pre.map Except.ok ++ rest) acc
        = scanProducts r rest
            (acc ++ pre.map (fun row => row.toProduct (r.getProductCategories row.id).1))
  | [], acc, _ => by simp
  | row :: pre, acc, h => by
    have h1 : (r.getProductCategories row.id).2 = none := h row (List.mem_cons_self row pre)
    have ih := scanProducts_of_ok r rest pre
      (acc ++ [row.toProduct (r.getProductCategories row.id).1])
      (fun x hx => h x (List.mem_cons_of_mem row hx))
    show scanProducts r (Except.ok row :: (pre.map Except.ok ++ rest)) acc = _
    rw [scanProducts]
    have hsplit : r.getProductCategories row.id
        = ((r.getProductCategories row.id).1, none) := by
      rw [← h1]
    rw [hsplit]
    simp only []
    rw [show (⟨row.name, row.sku, (r.getProductCategories row.id).1, row.price⟩ : Product)
      = row.toProduct (r.getProductCategories row.id).1 from rfl, ih]
    simp

/-! ### Facts about the transaction of `Add` -/

theorem isWrite_categoryCalls (productID : Int) (done : List (String × Int)) :
    ∀ w ∈ categoryCalls productID done, w.isWrite = true := by
  intro w hw
  simp only [categoryCalls, List.mem_flatMap] at hw
  obtain ⟨cd, _, hcd⟩ := hw
  simp only [List.mem_cons, List.mem_singleton, List.not_mem_nil, or_false] at hcd
  rcases hcd with h | h <;> rw [h] <;> rfl

theorem not_mem_of_isWrite (c : SqlCall) (hc : c.isWrite = false) (ws : List SqlCall)
    (h : ∀ w ∈ ws, w.isWrite = true) : c ∉ ws := by
  intro hm
  rw [h c hm] at hc
  exact absurd hc (by decide)

theorem bodyReplies_concat :
    ∀ (l : List SqlCall) (x : SqlCall) (failed : Bool),
      bodyReplies (l ++ [x]) failed = l.map (fun c => (c, true)) ++ [(x, !failed)]
  | [], _, _ => rfl
  | [_], _, _ => rfl
  | a :: b :: l, x, failed => by
    have ih := bodyReplies_concat (b :: l) x failed
    show (a, true) :: bodyReplies ((b :: l) ++ [x]) failed = _
    rw [ih]
    rfl

theorem run_cons (s : TxStore) (c : SqlCall) (ok : Bool) (rest : List (SqlCall × Bool)) :
    s.run ((c, ok) :: rest) = (s.receive c ok).flatMap (fun s' => s'.run rest) := rfl

theorem run_writes :
    ∀ (ws : List SqlCall), (∀ w ∈ ws, w.isWrite = true) →
      ∀ (v p : List SqlCall) (rest : List (SqlCall × Bool)),
        TxStore.run ⟨v, some p⟩ (ws.map (fun w => (w, true)) ++ rest)
          = TxStore.run ⟨v, some (p ++ ws)⟩ rest
  | [], _, v, p, rest => by simp
  | w :: ws, h, v, p, rest => by
    have hw : w.isWrite = true := h w (List.mem_cons_self _ _)
    have hrec : TxStore.receive ⟨v, some p⟩ w true = [⟨v, some (p ++ [w])⟩] := by
      cases w <;> first | rfl | exact absurd hw (by decide)
    have ih := run_writes ws (fun x hx => h x (List.mem_cons_of_mem _ hx)) v (p ++ [w]) rest
    rw [List.map_cons, List.cons_append, run_cons, hrec]
    simp only [List.flatMap_cons, List.flatMap_nil, List.append_nil, ih, List.append_assoc,
      List.singleton_append]

theorem receive_failed_write (s : TxStore) (w : SqlCall) (hw : w.isWrite = true) :
    s.receive w false = [s] := by
  cases w <;> first | rfl | exact absurd hw (by decide)

/-- The statements of `Add` and what they leave, when the body stops at a
write that fails. -/
theorem Add_of_write_failed (r : PostgresProductRepository) (product : Product)
    (sent : List SqlCall) (last : SqlCall) (msg : String) (hb : r.db.begin = none)
    (hin : addInTransaction r product = (sent ++ [last], some msg))
    (hsent : ∀ w ∈ sent, w.isWrite = true) (hlast : last.isWrite = true) :
    r.Add product = (SqlCall.begin :: sent ++ [last, SqlCall.rollback], some msg) ∧
    AddReplies r product
      = (SqlCall.begin, true) :: sent.map (fun c => (c, true))
        ++ [(last, false), (SqlCall.rollback, true)] ∧
    ∀ s0 : TxStore, s0.run (AddReplies r product) = [⟨s0.visible, none⟩] := by
  have hnc : SqlCall.commit ∉ sent ++ [last] := by
    apply not_mem_of_isWrite SqlCall.commit rfl
    intro w hw
    rcases List.mem_append.mp hw with h | h
    · exact hsent w h
    · rw [List.mem_singleton.mp h]; exact hlast
  have hreplies : AddReplies r product
      = (SqlCall.begin, true) :: sent.map (fun c => (c, true))
        ++ [(last, false), (SqlCall.rollback, true)] := by
    simp only [AddReplies, hb, hin, deferredRollback, if_neg hnc, bodyReplies_concat,
      Option.isSome_some, Bool.not_true, List.map_cons, List.map_nil, List.cons_append,
      List.append_assoc, List.nil_append]
  refine ⟨?_, hreplies, ?_⟩
  · simp only [PostgresProductRepository.Add, hb, hin, deferredRollback, if_neg hnc,
      List.cons_append, List.append_assoc, List.nil_append]
  · intro s0
    rw [hreplies, List.cons_append, run_cons]
    have hbegin : s0.receive SqlCall.begin true = [⟨s0.visible, some []⟩] := rfl
    rw [hbegin]
    simp only [List.flatMap_cons, List.flatMap_nil, List.append_nil]
    rw [run_writes sent hsent, run_cons, receive_failed_write _ last hlast]
    rfl

/-- The statements of `Add` and what they leave, when the body reaches
`Commit`. -/
theorem Add_of_commit (r : PostgresProductRepository) (product : Product)
    (sent : List SqlCall) (err : GoError) (hb : r.db.begin = none)
    (hin : addInTransaction r product = (sent ++ [SqlCall.commit], err))
    (hsent : ∀ w ∈ sent, w.isWrite = true) :
    r.Add product = (SqlCall.begin :: sent ++ [SqlCall.commit], err) ∧
    AddReplies r product
      = (SqlCall.begin, true) :: sent.map (fun c => (c, true))
        ++ [(SqlCall.commit, !err.isSome)] ∧
    ∀ s0 : TxStore, s0.run (AddReplies r product)
      = if err.isSome then [⟨s0.visible, none⟩, ⟨s0.visible ++ sent, none⟩]
        else [⟨s0.visible ++ sent, none⟩] := by
  have hc : SqlCall.commit ∈ sent ++ [SqlCall.commit] := by simp
  have hreplies : AddReplies r product
      = (SqlCall.begin, true) :: sent.map (fun c => (c, true))
        ++ [(SqlCall.commit, !err.isSome)] := by
    simp only [AddReplies, hb, hin, deferredRollback, if_pos hc, bodyReplies_concat,
      List.map_nil, List.append_nil, List.cons_append]
  refine ⟨?_, hreplies, ?_⟩
  · simp only [PostgresProductRepository.Add, hb, hin, deferredRollback, if_pos hc,
      List.append_nil, List.cons_append]
  · intro s0
    rw [hreplies, List.cons_append, run_cons]
    have hbegin : s0.receive SqlCall.begin true = [⟨s0.visible, some []⟩] := rfl
    rw [hbegin]
    simp only [List.flatMap_cons, List.flatMap_nil, List.append_nil]
    rw [run_writes sent hsent, run_cons]
    cases err <;> rfl

/-- Where the body of `Add` stops: at the insert of the product, at the upsert
or the association of the first category that fails, or at `Commit`. In the
first three cases not every statement before `Commit` succeeds. -/
theorem addInTransaction_cases (r : PostgresProductRepository) (product : Product) :
    (∃ e, r.db.insertProduct product.Name product.Sku product.Price = Except.error e ∧
      addInTransaction r product
        = ([] ++ [SqlCall.insertProduct product.Name product.Sku product.Price],
            some ("erro ao inserir produto: " ++ e.Error))) ∨
    (∃ pid done c rest e,
      r.db.insertProduct product.Name product.Sku product.Price = Except.ok pid ∧
      product.Categories = done.map Prod.fst ++ c :: rest ∧
      categoriesSucceed r pid 0 done ∧
      r.db.upsertCategory done.length c = Except.error e ∧
      addInTransaction r product
        = ((SqlCall.insertProduct product.Name product.Sku product.Price
              :: categoryCalls pid done) ++ [SqlCall.upsertCategory c],
            some ("erro ao inserir categoria: " ++ e.Error))) ∨
    (∃ pid done c cid rest e,
      r.db.insertProduct product.Name product.Sku product.Price = Except.ok pid ∧
      product.Categories = done.map Prod.fst ++ c :: rest ∧
      categoriesSucceed r pid 0 done ∧
      r.db.upsertCategory done.length c = Except.ok cid ∧
      r.db.insertProductCategory done.length pid cid = some e ∧
      addInTransaction r product
        = ((SqlCall.insertProduct product.Name product.Sku product.Price
              :: (categoryCalls pid done ++ [SqlCall.upsertCategory c]))
            ++ [SqlCall.insertProductCategory pid cid],
            some ("erro ao associar categoria ao produto: " ++ e.Error))) ∨
    (∃ pid done,
      r.db.insertProduct product.Name product.Sku product.Price = Except.ok pid ∧
      product.Categories = done.map Prod.fst ∧
      categoriesSucceed r pid 0 done ∧
      addInTransaction r product
        = ((SqlCall.insertProduct product.Name product.Sku product.Price
              :: categoryCalls pid done) ++ [SqlCall.commit],
            r.db.commit.map (fun e => "erro ao commitar transação: " ++ e.Error))) := by
  cases hi : r.db.insertProduct product.Name product.Sku product.Price with
  | error e =>
    refine Or.inl ⟨e, rfl, ?_⟩
    simp only [addInTransaction, hi, List.nil_append]
  | ok pid =>
    rcases categories_cases r pid product.Categories 0 with
      ⟨done, hd, hs⟩ | ⟨done, c, rest, e, hd, hs, h1⟩ | ⟨done, c, cid, rest, e, hd, hs, h1, h2⟩
    · have hcat := addCategories_of_succeed r pid done 0 hs
      rw [← hd] at hcat
      refine Or.inr (Or.inr (Or.inr ⟨pid, done, rfl, hd, hs, ?_⟩))
      cases hc : r.db.commit <;> simp only [addInTransaction, hi, hcat, hc] <;> rfl
    · have hcat := addCategories_of_upsert_fails r pid c rest e done 0 hs h1
      rw [Nat.zero_add] at h1
      rw [← hd] at hcat
      refine Or.inr (Or.inl ⟨pid, done, c, rest, e, rfl, hd, hs, h1, ?_⟩)
      simp only [addInTransaction, hi, hcat]
      rfl
    · have hcat := addCategories_of_association_fails r pid c cid rest e done 0 hs h1 h2
      rw [Nat.zero_add] at h1 h2
      rw [← hd] at hcat
      refine Or.inr (Or.inr (Or.inl ⟨pid, done, c, cid, rest, e, rfl, hd, hs, h1, h2, ?_⟩))
      simp only [addInTransaction, hi, hcat]
      simp

/-- When the statements before `Commit` all succeed, the body of `Add` sends
them and then `Commit`. -/
theorem addInTransaction_of_succeed (r : PostgresProductRepository) (product : Product)
    (pid : Int) (done : List (String × Int))
    (hi : r.db.insertProduct product.Name product.Sku product.Price = Except.ok pid)
    (hd : product.Categories = done.map Prod.fst) (hs : categoriesSucceed r pid 0 done) :
    addInTransaction r product
      = ((SqlCall.insertProduct product.Name product.Sku product.Price
            :: categoryCalls pid done) ++ [SqlCall.commit],
          r.db.commit.map (fun e => "erro ao commitar transação: " ++ e.Error)) := by
  have hcat := addCategories_of_succeed r pid done 0 hs
  rw [← hd] at hcat
  cases hc : r.db.commit <;> simp only [addInTransaction, hi, hcat, hc] <;> rfl

theorem isWrite_insert_categoryCalls (product : Product) (pid : Int)
    (done : List (String × Int)) :
    ∀ w ∈ SqlCall.insertProduct product.Name product.Sku product.Price
        :: categoryCalls pid done, w.isWrite = true := by
  intro w hw
  rcases List.mem_cons.mp hw with h | h
  · rw [h]; rfl
  · exact isWrite_categoryCalls pid done w h

end PostgresProductRepository

/-! ## Claims on the relational repository -/

open PostgresProductRepository

/-- C16, as stated, fails: when every statement succeeds and the `Commit`
fails, `Add` returns the wrapped error and nothing follows the `Commit`, no
`Rollback` reaches the backend; and when `Begin` fails there is no transaction
and no `Rollback` either. -/
theorem relational_add_commit_failure_sends_no_rollback :
    PostgresProductRepository.Add ⟨sampleCommitFailsDB⟩ sampleRelationalNotebook
      = (SqlCall.begin :: sampleNotebookWrites ++ [SqlCall.commit],
          some ("erro ao commitar transação: " ++ "sql: connection is already closed")) ∧
    SqlCall.rollback
      ∉ (PostgresProductRepository.Add ⟨sampleCommitFailsDB⟩ sampleRelationalNotebook).1 ∧
    PostgresProductRepository.Add ⟨brokenDB⟩ sampleRelationalNotebook
      = ([SqlCall.begin],
          some ("erro ao iniciar transação: " ++ "sql: connection is already closed")) ∧
    SqlCall.rollback
      ∉ (PostgresProductRepository.Add ⟨brokenDB⟩ sampleRelationalNotebook).1 := by
  refine ⟨rfl, ?_, rfl, ?_⟩ <;> decide

/-- C16, amended: the relational `Add` runs `Begin`, the insert of the product,
then for each category in order its upsert and its association, then `Commit`,
and stops at the first of these that fails, returning the error of the failing
statement behind the prefix of that step. `Commit` is sent exactly when every
earlier statement succeeded, and `Add` returns no error exactly when every
statement and the `Commit` succeeded. The `Rollback` reaches the backend
exactly when the transaction was begun and a statement before `Commit` failed:
a failed `Begin` leaves no transaction, and after `Commit`, failed or not,
nothing is sent. On a backend that keeps the contract of a transaction, the
writes of `Add` are visible afterwards all together or not at all: not at all
when `Commit` was not sent, all of them when `Add` returns no error, and one
or the other, as the backend decides, when the `Commit` fails. -/
theorem relational_add_all_or_nothing (r : PostgresProductRepository) (product : Product) :
    ((∃ e, r.db.begin = some e ∧
        r.Add product = ([SqlCall.begin], some ("erro ao iniciar transação: " ++ e.Error))) ∨
      (r.db.begin = none ∧ ∃ e,
        r.db.insertProduct product.Name product.Sku product.Price = Except.error e ∧
        r.Add product
          = ([SqlCall.begin, SqlCall.insertProduct product.Name product.Sku product.Price,
              SqlCall.rollback], some ("erro ao inserir produto: " ++ e.Error))) ∨
      (r.db.begin = none ∧ ∃ pid done c rest e,
        r.db.insertProduct product.Name product.Sku product.Price = Except.ok pid ∧
        product.Categories = done.map Prod.fst ++ c :: rest ∧
        categoriesSucceed r pid 0 done ∧
        r.db.upsertCategory done.length c = Except.error e ∧
        r.Add product
          = (SqlCall.begin :: SqlCall.insertProduct product.Name product.Sku product.Price
              :: categoryCalls pid done ++ [SqlCall.upsertCategory c, SqlCall.rollback],
            some ("erro ao inserir categoria: " ++ e.Error))) ∨
      (r.db.begin = none ∧ ∃ pid done c cid rest e,
        r.db.insertProduct product.Name product.Sku product.Price = Except.ok pid ∧
        product.Categories = done.map Prod.fst ++ c :: rest ∧
        categoriesSucceed r pid 0 done ∧
        r.db.upsertCategory done.length c = Except.ok cid ∧
        r.db.insertProductCategory done.length pid cid = some e ∧
        r.Add product
          = (SqlCall.begin :: SqlCall.insertProduct product.Name product.Sku product.Price
              :: categoryCalls pid done
              ++ [SqlCall.upsertCategory c, SqlCall.insertProductCategory pid cid,
                  SqlCall.rollback],
            some ("erro ao associar categoria ao produto: " ++ e.Error))) ∨
      (r.db.begin = none ∧ ∃ pid done e,
        r.db.insertProduct product.Name product.Sku product.Price = Except.ok pid ∧
        product.Categories = done.map Prod.fst ∧
        categoriesSucceed r pid 0 done ∧
        r.db.commit = some e ∧
        r.Add product
          = (SqlCall.begin :: SqlCall.insertProduct product.Name product.Sku product.Price
              :: categoryCalls pid done ++ [SqlCall.commit],
            some ("erro ao commitar transação: " ++ e.Error))) ∨
      (r.db.begin = none ∧ ∃ pid done,
        r.db.insertProduct product.Name product.Sku product.Price = Except.ok pid ∧
        product.Categories = done.map Prod.fst ∧
        categoriesSucceed r pid 0 done ∧
        r.db.commit = none ∧
        r.Add product
          = (SqlCall.begin :: SqlCall.insertProduct product.Name product.Sku product.Price
              :: categoryCalls pid done ++ [SqlCall.commit], none))) ∧
    (SqlCall.commit ∈ (r.Add product).1 ↔
      r.db.begin = none ∧ ∃ pid done,
        r.db.insertProduct product.Name product.Sku product.Price = Except.ok pid ∧
        product.Categories = done.map Prod.fst ∧ categoriesSucceed r pid 0 done) ∧
    ((r.Add product).2 = none ↔
      r.db.begin = none ∧ r.db.commit = none ∧ ∃ pid done,
        r.db.insertProduct product.Name product.Sku product.Price = Except.ok pid ∧
        product.Categories = done.map Prod.fst ∧ categoriesSucceed r pid 0 done) ∧
    (SqlCall.rollback ∈ (r.Add product).1 ↔
      r.db.begin = none ∧ SqlCall.commit ∉ (r.Add product).1) ∧
    (AddReplies r product).map Prod.fst = (r.Add product).1 ∧
    ((r.Add product).2 = none ↔ ∀ x ∈ AddReplies r product, x.2 = true) ∧
    (∀ s0 s' : TxStore, s0.pending = none → s' ∈ s0.run (AddReplies r product) →
      s'.pending = none ∧
      (SqlCall.commit ∉ (r.Add product).1 → s'.visible = s0.visible) ∧
      (SqlCall.commit ∈ (r.Add product).1 → ∃ pid done,
        r.db.insertProduct product.Name product.Sku product.Price = Except.ok pid ∧
        product.Categories = done.map Prod.fst ∧ categoriesSucceed r pid 0 done ∧
        (s'.visible = s0.visible ∨
          s'.visible
            = s0.visible ++ SqlCall.insertProduct product.Name product.Sku product.Price
                :: categoryCalls pid done) ∧
        ((r.Add product).2 = none →
          s'.visible
            = s0.visible ++ SqlCall.insertProduct product.Name product.Sku product.Price
                :: categoryCalls pid done))) := by
  cases hb : r.db.begin with
  | some e =>
    have hadd : r.Add product
        = ([SqlCall.begin], some ("erro ao iniciar transação: " ++ e.Error)) := by
      simp only [PostgresProductRepository.Add, hb]
    have hrep : AddReplies r product = [(SqlCall.begin, false)] := by
      simp only [AddReplies, hb]
    refine ⟨Or.inl ⟨e, rfl, hadd⟩, ?_, ?_, ?_, ?_, ?_, ?_⟩
    · rw [hadd]; simp
    · rw [hadd]; simp
    · rw [hadd]; simp
    · rw [hadd, hrep]; rfl
    · rw [hadd, hrep]; simp
    · intro s0 s' hp hs'
      rw [hrep] at hs'
      have heq : s' = s0 := by simpa [TxStore.run, TxStore.receive] using hs'
      subst heq
      refine ⟨hp, fun _ => rfl, fun hc => ?_⟩
      rw [hadd] at hc
      simp at hc
  | none =>
    refine ⟨?_, ?_⟩
    · rcases addInTransaction_cases r product with
        ⟨e, hi, hin⟩ | ⟨pid, done, c, rest, e, hi, hd, hs, h1, hin⟩ |
        ⟨pid, done, c, cid, rest, e, hi, hd, hs, h1, h2, hin⟩ | ⟨pid, done, hi, hd, hs, hin⟩
      · have hadd := (Add_of_write_failed r product _ _ _ hb hin
          (fun _ hw => absurd hw (List.not_mem_nil _)) rfl).1
        exact Or.inr (Or.inl ⟨rfl, e, hi, hadd⟩)
      · have hadd := (Add_of_write_failed r product _ _ _ hb hin
          (isWrite_insert_categoryCalls product pid done) rfl).1
        exact Or.inr (Or.inr (Or.inl ⟨rfl, pid, done, c, rest, e, hi, hd, hs, h1, hadd⟩))
      · have hsent : ∀ w ∈ SqlCall.insertProduct product.Name product.Sku product.Price
            :: (categoryCalls pid done ++ [SqlCall.upsertCategory c]), w.isWrite = true := by
          intro w hw
          rcases List.mem_cons.mp hw with h | h
          · rw [h]; rfl
          · rcases List.mem_append.mp h with h | h
            · exact isWrite_categoryCalls pid done w h
            · rw [List.mem_singleton.mp h]; rfl
        have hadd := (Add_of_write_failed r product _ _ _ hb hin hsent rfl).1
        exact Or.inr (Or.inr (Or.inr (Or.inl ⟨rfl, pid, done, c, cid, rest, e, hi, hd, hs,
          h1, h2, by rw [hadd]; simp⟩)))
      · have hadd := (Add_of_commit r product _ _ hb hin
          (isWrite_insert_categoryCalls product pid done)).1
        cases hc : r.db.commit with
        | some e =>
          rw [hc] at hadd
          exact Or.inr (Or.inr (Or.inr (Or.inr (Or.inl ⟨rfl, pid, done, e, hi, hd, hs, rfl,
            by rw [hadd]; rfl⟩))))
        | none =>
          rw [hc] at hadd
          exact Or.inr (Or.inr (Or.inr (Or.inr (Or.inr ⟨rfl, pid, done, hi, hd, hs, rfl,
            by rw [hadd]; rfl⟩))))
    · have hkey :
          (∃ sent last msg, addInTransaction r product = (sent ++ [last], some msg) ∧
            (∀ w ∈ sent, w.isWrite = true) ∧ last.isWrite = true) ∨
          (∃ pid done,
            r.db.insertProduct product.Name product.Sku product.Price = Except.ok pid ∧
            product.Categories = done.map Prod.fst ∧ categoriesSucceed r pid 0 done) := by
        rcases addInTransaction_cases r product with
          ⟨e, hi, hin⟩ | ⟨pid, done, c, rest, e, hi, hd, hs, h1, hin⟩ |
          ⟨pid, done, c, cid, rest, e, hi, hd, hs, h1, h2, hin⟩ | ⟨pid, done, hi, hd, hs, hin⟩
        · exact Or.inl ⟨_, _, _, hin, fun _ hw => absurd hw (List.not_mem_nil _), rfl⟩
        · exact Or.inl ⟨_, _, _, hin, isWrite_insert_categoryCalls product pid done, rfl⟩
        · refine Or.inl ⟨_, _, _, hin, ?_, rfl⟩
          intro w hw
          rcases List.mem_cons.mp hw with h | h
          · rw [h]; rfl
          · rcases List.mem_append.mp h with h | h
            · exact isWrite_categoryCalls pid done w h
            · rw [List.mem_singleton.mp h]; rfl
        · exact Or.inr ⟨pid, done, hi, hd, hs⟩
      rcases hkey with ⟨sent, last, msg, hin, hsent, hlast⟩ | ⟨pid, done, hi, hd, hs⟩
      · -- a statement before `Commit` fails
        obtain ⟨hadd, hrep, hrun⟩ := Add_of_write_failed r product sent last msg hb hin hsent hlast
        have hall : ∀ w ∈ sent ++ [last], w.isWrite = true := by
          intro w hw
          rcases List.mem_append.mp hw with h | h
          · exact hsent w h
          · rw [List.mem_singleton.mp h]; exact hlast
        have hno : ¬ ∃ pid done,
            r.db.insertProduct product.Name product.Sku product.Price = Except.ok pid ∧
            product.Categories = done.map Prod.fst ∧ categoriesSucceed r pid 0 done := by
          rintro ⟨pid, done, hi, hd, hs⟩
          have h := addInTransaction_of_succeed r product pid done hi hd hs
          have hc : SqlCall.commit ∈ (addInTransaction r product).1 := by rw [h]; simp
          rw [hin] at hc
          exact not_mem_of_isWrite SqlCall.commit rfl _ hall hc
        have hnc : SqlCall.commit ∉ (r.Add product).1 := by
          rw [hadd]
          intro hm
          rcases List.mem_cons.mp hm with h | h
          · exact absurd h (by decide)
          · rcases List.mem_append.mp h with h | h
            · exact not_mem_of_isWrite SqlCall.commit rfl _ hsent h
            · rcases List.mem_cons.mp h with h | h
              · rw [← h] at hlast
                exact absurd hlast (by decide)
              · exact absurd (List.mem_singleton.mp h) (by decide)
        refine ⟨⟨fun hm => absurd hm hnc, fun h => absurd h.2 hno⟩, ?_, ?_, ?_, ?_, ?_⟩
        · rw [hadd]
          exact ⟨fun h => by simp at h, fun h => absurd h.2.2 hno⟩
        · refine ⟨fun _ => ⟨rfl, hnc⟩, fun _ => ?_⟩
          rw [hadd]
          simp
        · rw [hadd, hrep]
          simp [List.map_map, Function.comp_def]
        · rw [hadd, hrep]
          refine ⟨fun h => by simp at h, fun h => ?_⟩
          have hfalse := h (last, false) (by simp)
          simp at hfalse
        · intro s0 s' _ hs'
          rw [hrun] at hs'
          rw [List.mem_singleton.mp hs']
          exact ⟨rfl, fun _ => rfl, fun hc => absurd hc hnc⟩
      · -- every statement before `Commit` succeeds
        have hin := addInTransaction_of_succeed r product pid done hi hd hs
        have hw := isWrite_insert_categoryCalls product pid done
        obtain ⟨hadd, hrep, hrun⟩ := Add_of_commit r product _ _ hb hin hw
        have hc : SqlCall.commit ∈ (r.Add product).1 := by rw [hadd]; simp
        have hnr : SqlCall.rollback ∉ (r.Add product).1 := by
          rw [hadd]
          intro hm
          rcases List.mem_cons.mp hm with h | h
          · exact absurd h (by decide)
          · rcases List.mem_append.mp h with h | h
            · exact not_mem_of_isWrite SqlCall.rollback rfl _ hw h
            · exact absurd (List.mem_singleton.mp h) (by decide)
        refine ⟨⟨fun _ => ⟨rfl, pid, done, hi, hd, hs⟩, fun _ => hc⟩, ?_, ?_, ?_, ?_, ?_⟩
        · rw [hadd]
          constructor
          · intro h
            refine ⟨rfl, ?_, pid, done, hi, hd, hs⟩
            cases hcm : r.db.commit with
            | none => rfl
            | some e => rw [hcm] at h; simp at h
          · intro h
            show r.db.commit.map _ = none
            rw [h.2.1]
            rfl
        · exact ⟨fun h => absurd h hnr, fun h => absurd hc h.2⟩
        · rw [hadd, hrep]
          simp [List.map_map, Function.comp_def]
        · rw [hadd, hrep]
          cases hcm : r.db.commit with
          | none =>
            simp
          | some e =>
            refine ⟨fun h => by simp at h, fun h => ?_⟩
            have hfalse := h (SqlCall.commit, false) (by simp)
            simp at hfalse
        · intro s0 s' _ hs'
          rw [hrun] at hs'
          have hvis : s'.pending = none ∧
              (s'.visible = s0.visible ∨
                s'.visible
                  = s0.visible ++ SqlCall.insertProduct product.Name product.Sku product.Price
                      :: categoryCalls pid done) ∧
              ((r.Add product).2 = none →
                s'.visible
                  = s0.visible ++ SqlCall.insertProduct product.Name product.Sku product.Price
                      :: categoryCalls pid done) := by
            rw [hadd]
            cases hcm : r.db.commit with
            | none =>
              rw [hcm] at hs'
              have heq := List.mem_singleton.mp hs'
              rw [heq]
              exact ⟨rfl, Or.inr rfl, fun _ => rfl⟩
            | some e =>
              rw [hcm] at hs'
              refine ⟨?_, ?_, fun h => by simp at h⟩
              · rcases List.mem_cons.mp hs' with h | h
                · rw [h]
                · rw [List.mem_singleton.mp h]
              · rcases List.mem_cons.mp hs' with h | h
                · rw [h]; exact Or.inl rfl
                · rw [List.mem_singleton.mp h]; exact Or.inr rfl
          exact ⟨hvis.1, fun h => absurd hc h, fun _ => ⟨pid, done, hi, hd, hs, hvis.2⟩⟩

/-- The mock of "add product successfully": every statement succeeds, `Commit`
is sent and `Add` returns no error; a `Rollback` would be sent exactly if the
`Commit` had not been. -/
theorem relational_add_all_or_nothing_witness :
    (PostgresProductRepository.Add ⟨sampleAddDB⟩ sampleRelationalNotebook).2 = none ∧
    SqlCall.commit ∈ (PostgresProductRepository.Add ⟨sampleAddDB⟩ sampleRelationalNotebook).1 ∧
    (SqlCall.rollback
        ∈ (PostgresProductRepository.Add ⟨sampleAddDB⟩ sampleRelationalNotebook).1 ↔
      sampleAddDB.begin = none ∧
        SqlCall.commit
          ∉ (PostgresProductRepository.Add ⟨sampleAddDB⟩ sampleRelationalNotebook).1) :=
  ⟨(relational_add_all_or_nothing ⟨sampleAddDB⟩ sampleRelationalNotebook).2.2.1.mpr
      ⟨rfl, rfl, 1, [("Electronics", 1), ("Computers", 2)], rfl, rfl,
        ⟨rfl, rfl, rfl, rfl, trivial⟩⟩,
    (relational_add_all_or_nothing ⟨sampleAddDB⟩ sampleRelationalNotebook).2.1.mpr
      ⟨rfl, 1, [("Electronics", 1), ("Computers", 2)], rfl, rfl,
        ⟨rfl, rfl, rfl, rfl, trivial⟩⟩,
    (relational_add_all_or_nothing ⟨sampleAddDB⟩ sampleRelationalNotebook).2.2.2.1⟩

/-- C17, the code at a name collision: the relational `Add` never returns the
error "product already exists". When the name is already stored the insert of
the product violates the unique constraint and `Add` returns that failure
wrapped as "erro ao inserir produto: ...", as it does for a lost connection,
where the in-memory `Add` returns "product already exists". -/
theorem relational_add_never_alreadyExists (r : PostgresProductRepository) (product : Product) :
    (PostgresProductRepository.Add r product).2 ≠ some "product already exists" ∧
    PostgresProductRepository.Add ⟨sampleNameTakenDB⟩ sampleNotebook
      = ([SqlCall.begin, SqlCall.insertProduct "Notebook" 123 3500, SqlCall.rollback],
          some ("erro ao inserir produto: "
            ++ "pq: duplicate key value violates unique constraint products_name_key")) ∧
    (PostgresProductRepository.Add ⟨sampleInsertFailsDB⟩ sampleNotebook).2
      = some ("erro ao inserir produto: " ++ "sql: connection is already closed") ∧
    (sampleNameTakenRepo.Add sampleNotebook).2 = some "product already exists" := by
  refine ⟨?_, rfl, rfl, by decide⟩
  intro h
  have := Add_error_head? r product _ h
  exact absurd this (by decide)

/-- C18, as stated, fails: when the query for the products fails, the
relational `Find` returns an error to its caller. -/
theorem relational_find_returns_error :
    PostgresProductRepository.Find ⟨brokenDB⟩
      = ([], some ("erro ao buscar produtos: " ++ "sql: connection is already closed")) ∧
    (PostgresProductRepository.Find ⟨brokenDB⟩).2 ≠ none := by
  constructor
  · rfl
  · decide

/-- C18, amended: the relational `Find` propagates backend errors. When the
query for the products fails, when a row cannot be scanned, when fetching the
categories of a row reports an error (its query fails or one of its rows
cannot be scanned), or when the iteration over the product rows ends on an
error, `Find` returns an empty result together with the backend error behind
the prefix of that step; when none of these happens it returns no error and
one product per row, in order, with the categories fetched for the row. -/
theorem relational_find_propagates_errors (r : PostgresProductRepository) :
    (∀ e, r.db.selectProducts = RowsReply.failed e →
      r.Find = ([], some ("erro ao buscar produtos: " ++ e.Error))) ∧
    (∀ (pre : List ProductRow) e post it,
      r.db.selectProducts
        = RowsReply.opened (pre.map Except.ok ++ Except.error e :: post) it →
      (∀ row ∈ pre, (r.getProductCategories row.id).2 = none) →
      r.Find = ([], some ("erro ao escanear produto: " ++ e.Error))) ∧
    (∀ (pre : List ProductRow) row post it e,
      r.db.selectProducts = RowsReply.opened (pre.map Except.ok ++ Except.ok row :: post) it →
      (∀ row2 ∈ pre, (r.getProductCategories row2.id).2 = none) →
      (r.getProductCategories row.id).2 = some e →
      r.Find = ([], some ("erro ao buscar categorias do produto " ++ toString row.id ++ ": "
        ++ e.Error))) ∧
    (∀ (rows : List ProductRow) e,
      r.db.selectProducts = RowsReply.opened (rows.map Except.ok) (some e) →
      (∀ row ∈ rows, (r.getProductCategories row.id).2 = none) →
      r.Find = ([], some ("erro ao iterar produtos: " ++ e.Error))) ∧
    (∀ rows : List ProductRow,
      r.db.selectProducts = RowsReply.opened (rows.map Except.ok) none →
      (∀ row ∈ rows, (r.getProductCategories row.id).2 = none) →
      r.Find = (rows.map (fun row => row.toProduct (r.getProductCategories row.id).1), none)) ∧
    (∀ id e, r.db.selectCategories id = RowsReply.failed e →
      r.getProductCategories id = ([], some e)) ∧
    (∀ id (pre : List String) e post it,
      r.db.selectCategories id
        = RowsReply.opened (pre.map Except.ok ++ Except.error e :: post) it →
      r.getProductCategories id = ([], some e)) ∧
    ((r.Find).2 = none ∨ (r.Find).1 = []) := by
  refine ⟨?_, ?_, ?_, ?_, ?_, ?_, ?_, ?_⟩
  · intro e h
    simp only [PostgresProductRepository.Find, h]
  · intro pre e post it h hok
    have hs := scanProducts_of_ok r (Except.error e :: post) pre [] hok
    simp only [PostgresProductRepository.Find, h, hs, scanProducts]
  · intro pre row post it e h hok herr
    have hs := scanProducts_of_ok r (Except.ok row :: post) pre [] hok
    have hsplit : r.getProductCategories row.id
        = ((r.getProductCategories row.id).1, some e) := by
      rw [← herr]
    have hrow : ∀ acc, scanProducts r (Except.ok row :: post) acc
        = Except.error ("erro ao buscar categorias do produto " ++ toString row.id ++ ": "
            ++ e.Error) := by
      intro acc
      rw [scanProducts, hsplit]
    simp only [PostgresProductRepository.Find, h, hs, hrow]
  · intro rows e h hok
    have hs := scanProducts_of_ok r [] rows [] hok
    rw [List.append_nil] at hs
    simp only [PostgresProductRepository.Find, h, hs, scanProducts]
  · intro rows h hok
    have hs := scanProducts_of_ok r [] rows [] hok
    rw [List.append_nil] at hs
    simp only [PostgresProductRepository.Find, h, hs, scanProducts, List.nil_append]
  · intro id e h
    simp only [getProductCategories, h]
  · intro id pre e post it h
    simp only [getProductCategories, h, scanCategories_of_error]
  · unfold PostgresProductRepository.Find
    cases r.db.selectProducts with
    | failed e => right; rfl
    | opened rows it =>
      simp only []
      cases scanProducts r rows [] with
      | error msg => right; rfl
      | ok products =>
        cases it with
        | some e => right; rfl
        | none => left; rfl

/-- C19, the code at the mock of "get metrics successfully": the aggregate that
`GetMetrics` issues multiplies `price` by a column `stock`, which the persisted
layout of `products` does not have, and its text does not hold the aggregate
`SUM(price), AVG(price)` the test expects; so the mock does not answer it and
`TotalValue` and `AveragePrice` stay 0 where the test expects 5000 and 500.
Whatever pair a database answers to the issued aggregate is what `GetMetrics`
reports. -/
theorem relational_getMetrics_aggregate_uses_stock (r : PostgresProductRepository) :
    sqlWords sumAvgQuery
      = ["SELECT", "SUM", "price", "stock", "AVG", "price", "FROM", "products"] ∧
    "stock" ∈ sqlWords sumAvgQuery ∧
    "stock" ∉ productsLayout ∧
    sqlWords expectedSumAvgQuery = ["SELECT", "SUM", "price", "AVG", "price", "FROM", "products"] ∧
    textContains expectedSumAvgQuery.data sumAvgQuery.data = false ∧
    (PostgresProductRepository.GetMetrics ⟨sampleMetricsMockDB⟩).TotalProducts = 10 ∧
    (PostgresProductRepository.GetMetrics ⟨sampleMetricsMockDB⟩).TotalValue = 0 ∧
    (PostgresProductRepository.GetMetrics ⟨sampleMetricsMockDB⟩).AveragePrice = 0 ∧
    (∀ total average, r.db.aggregate sumAvgQuery = Except.ok (some total, some average) →
      (PostgresProductRepository.GetMetrics r).TotalValue = total ∧
      (PostgresProductRepository.GetMetrics r).AveragePrice = average) := by
  have hmiss : textContains expectedSumAvgQuery.data sumAvgQuery.data = false := by decide
  have hagg : sampleMetricsMockDB.aggregate sumAvgQuery
      = Except.error (SqlError.other "could not match actual sql with expected regexp") := by
    simp only [sampleMetricsMockDB, hmiss]
    rfl
  refine ⟨by decide, by decide, by decide, by decide, hmiss, rfl, ?_, ?_, ?_⟩
  · simp only [PostgresProductRepository.GetMetrics, hagg]
  · simp only [PostgresProductRepository.GetMetrics, hagg]
  · intro total average h
    simp only [PostgresProductRepository.GetMetrics, h, and_self]

/-- C20, the code at a cursor that breaks: `FindOne` returns "product not
found" exactly when the query for the product reports `sql.ErrNoRows`; any
other failure of that query, a failure of the query for the categories and a
row of categories that cannot be scanned are returned wrapped; when both
queries succeed the product of the row and of the fetched categories is
returned with no error. But an error that ends the iteration over the
categories is not consulted: `FindOne` then returns no error and the product
with the categories read so far. -/
theorem relational_findOne_drops_iteration_error (r : PostgresProductRepository)
    (name : String) :
    ((PostgresProductRepository.FindOne r name).2 = some "product not found"
      ↔ r.db.selectProductByName name = Except.error SqlError.errNoRows) ∧
    (∀ msg, r.db.selectProductByName name = Except.error (SqlError.other msg) →
      PostgresProductRepository.FindOne r name
        = (Product.zero, some ("erro ao buscar produto: " ++ msg))) ∧
    (∀ row e, r.db.selectProductByName name = Except.ok row →
      r.db.selectCategories row.id = RowsReply.failed e →
      PostgresProductRepository.FindOne r name
        = (Product.zero, some ("erro ao buscar categorias: " ++ e.Error))) ∧
    (∀ row (pre : List String) e post it, r.db.selectProductByName name = Except.ok row →
      r.db.selectCategories row.id
        = RowsReply.opened (pre.map Except.ok ++ Except.error e :: post) it →
      PostgresProductRepository.FindOne r name
        = (Product.zero, some ("erro ao buscar categorias: " ++ e.Error))) ∧
    (∀ row (cats : List String), r.db.selectProductByName name = Except.ok row →
      r.db.selectCategories row.id = RowsReply.opened (cats.map Except.ok) none →
      PostgresProductRepository.FindOne r name = (row.toProduct cats, none)) ∧
    (∀ row (cats : List String) e, r.db.selectProductByName name = Except.ok row →
      r.db.selectCategories row.id = RowsReply.opened (cats.map Except.ok) (some e) →
      PostgresProductRepository.FindOne r name = (row.toProduct cats, none)) ∧
    PostgresProductRepository.FindOne ⟨sampleFindOneDB⟩ "Notebook"
      = (⟨"Notebook", 12345, ["Electronics", "Computers"], 3500⟩, none) ∧
    PostgresProductRepository.FindOne ⟨sampleCursorBreaksDB⟩ "Notebook"
      = (⟨"Notebook", 12345, ["Electronics"], 3500⟩, none) := by
  have hopened : ∀ (row : ProductRow) (cats : List String) (it : Option SqlError),
      r.db.selectProductByName name = Except.ok row →
      r.db.selectCategories row.id = RowsReply.opened (cats.map Except.ok) it →
      PostgresProductRepository.FindOne r name = (row.toProduct cats, none) := by
    intro row cats it h1 h2
    have hc : r.getProductCategories row.id = (cats, none) := by
      simp only [getProductCategories, h2, scanCategories_of_ok, List.nil_append]
    simp only [PostgresProductRepository.FindOne, h1, hc]
    rfl
  refine ⟨?_, ?_, ?_, ?_, fun row cats => hopened row cats none,
    fun row cats e => hopened row cats (some e), rfl, rfl⟩
  · cases hsel : r.db.selectProductByName name with
    | error e =>
      cases e with
      | errNoRows => simp [PostgresProductRepository.FindOne, hsel]
      | other msg =>
        have hne : "erro ao buscar produto: " ++ msg ≠ "product not found" :=
          wrapped_ne_of_head? _ _ _ 'e' rfl (by decide)
        simp [PostgresProductRepository.FindOne, hsel, SqlError.Error, hne]
    | ok row =>
      cases hc : r.getProductCategories row.id with
      | mk cats oe =>
        cases oe with
        | none => simp [PostgresProductRepository.FindOne, hsel, hc]
        | some e =>
          have hne : "erro ao buscar categorias: " ++ e.Error ≠ "product not found" :=
            wrapped_ne_of_head? _ _ _ 'e' rfl (by decide)
          simp [PostgresProductRepository.FindOne, hsel, hc, hne]
  · intro msg h
    simp only [PostgresProductRepository.FindOne, h, SqlError.Error]
  · intro row e h1 h2
    have hc : r.getProductCategories row.id = ([], some e) := by
      simp only [getProductCategories, h2]
    simp only [PostgresProductRepository.FindOne, h1, hc]
  · intro row pre e post it h1 h2
    have hc : r.getProductCategories row.id = ([], some e) := by
      simp only [getProductCategories, h2, scanCategories_of_error]
    simp only [PostgresProductRepository.FindOne, h1, hc]

/-! # Invariants of the in-memory repository -/

/-- A call of one of the four methods of the in-memory repository. -/
inductive RepoCall where
  | add (product : Product)
  | find
  | findOne (name : String)
  | getMetrics
deriving DecidableEq, Repr

/-- The state of the repository after a call: `Add` is the only method that
assigns to the map; `Find`, `FindOne` and `GetMetrics` only read it. -/
def ProductRepository.call (r : ProductRepository) : RepoCall → ProductRepository
  | RepoCall.add product => (r.Add product).1
  | RepoCall.find => r
  | RepoCall.findOne _ => r
  | RepoCall.getMetrics => r

/-- The state after a sequence of calls. -/
def ProductRepository.run (r : ProductRepository) (calls : List RepoCall) : ProductRepository :=
  calls.foldl ProductRepository.call r

/-- The calls of `TestProductRepository_FindOne` with a duplicate `Add` put in. -/
def sampleCalls : List RepoCall :=
  [RepoCall.add sampleTestProduct, RepoCall.findOne "Test Product", RepoCall.add sampleNotebook,
    RepoCall.getMetrics, RepoCall.add sampleNotebookOld, RepoCall.find]

/-! ### Facts about the invariants -/

theorem assocGet_of_mem_entries {V : Type} (k : String) (v : V) :
    ∀ es : List (String × V), assocGet k es = some v → (k, v) ∈ es
  | [], h => by simp [assocGet] at h
  | e :: es, h => by
    by_cases hk : e.1 = k
    · simp only [assocGet, hk, if_true, Option.some.injEq] at h
      have : e = (k, v) := Prod.ext hk h
      rw [this]
      exact List.mem_cons_self _ _
    · simp only [assocGet, hk, if_false] at h
      exact List.mem_cons_of_mem e (assocGet_of_mem_entries k v es h)

/-- Every entry is stored under the name of its product. -/
def KeyedByName (r : ProductRepository) : Prop := ∀ e ∈ r.data.entries, e.2.Name = e.1

theorem KeyedByName_call (r : ProductRepository) (c : RepoCall) (h : KeyedByName r) :
    KeyedByName (r.call c) := by
  cases c with
  | add p =>
    show KeyedByName (r.Add p).1
    cases hs : r.data.get? p.Name with
    | none =>
      intro e he
      rw [ProductRepository.Add_entries_of_fresh r p hs] at he
      rcases List.mem_append.mp he with he | he
      · exact h e he
      · rw [List.mem_singleton.mp he]
    | some v =>
      rw [ProductRepository.Add_state_of_stored r p (by rw [hs]; simp)]
      exact h
  | find => exact h
  | findOne n => exact h
  | getMetrics => exact h

theorem KeyedByName_run :
    ∀ (calls : List RepoCall) (r : ProductRepository), KeyedByName r → KeyedByName (r.run calls)
  | [], _, h => h
  | c :: cs, r, h => KeyedByName_run cs (r.call c) (KeyedByName_call r c h)

theorem call_cases (r : ProductRepository) (c : RepoCall) :
    r.call c = r ∨
    ∃ p, c = RepoCall.add p ∧ r.data.get? p.Name = none ∧
      (r.call c).data.entries = r.data.entries ++ [(p.Name, p)] := by
  cases c with
  | add p =>
    cases hs : r.data.get? p.Name with
    | none => exact Or.inr ⟨p, rfl, hs, ProductRepository.Add_entries_of_fresh r p hs⟩
    | some v => exact Or.inl (ProductRepository.Add_state_of_stored r p (by rw [hs]; simp))
  | find => exact Or.inl rfl
  | findOne n => exact Or.inl rfl
  | getMetrics => exact Or.inl rfl

theorem call_get?_of_some (r : ProductRepository) (c : RepoCall) (k : String) (v : Product)
    (h : r.data.get? k = some v) : (r.call c).data.get? k = some v := by
  cases c with
  | add p => exact ProductRepository.Add_get?_of_some r p k v h
  | find => exact h
  | findOne n => exact h
  | getMetrics => exact h

/-! ## Claim on the invariant -/

/-- C28: in every state reached from `NewRepository` by a sequence of `Add`,
`Find`, `FindOne` and `GetMetrics` calls, every entry of the map is stored
under the name of its product, so `Find` returns no two products of one name;
and a further call either leaves the map as it is or is an `Add` of a name not
yet stored that adds the one entry for it, every stored entry staying as it
was. -/
theorem reachable_entries_keyed_by_name (calls : List RepoCall) :
    (∀ k p, (NewRepository.run calls).data.get? k = some p → p.Name = k) ∧
    (∀ e ∈ (NewRepository.run calls).data.entries, e.2.Name = e.1) ∧
    (((NewRepository.run calls).Find).1.map Product.Name).Nodup ∧
    (∀ c : RepoCall,
      (NewRepository.run calls).call c = NewRepository.run calls ∨
      ∃ p, c = RepoCall.add p ∧ (NewRepository.run calls).data.get? p.Name = none ∧
        ((NewRepository.run calls).call c).data.entries
          = (NewRepository.run calls).data.entries ++ [(p.Name, p)]) ∧
    (∀ (c : RepoCall) k v, (NewRepository.run calls).data.get? k = some v →
      ((NewRepository.run calls).call c).data.get? k = some v) ∧
    (∀ c : RepoCall, (∀ p, c ≠ RepoCall.add p) →
      (NewRepository.run calls).call c = NewRepository.run calls) := by
  have hinv : KeyedByName (NewRepository.run calls) :=
    KeyedByName_run calls NewRepository (fun e he => by simp [NewRepository, GoMap.empty] at he)
  refine ⟨?_, hinv, ?_, fun c => call_cases _ c, fun c k v h => call_get?_of_some _ c k v h, ?_⟩
  · intro k p h
    have hmem : (k, p) ∈ (NewRepository.run calls).data.entries := by
      have hv := assocGet_of_mem_entries k p (NewRepository.run calls).data.entries h
      exact hv
    exact hinv (k, p) hmem
  · have hkeys : ((NewRepository.run calls).Find).1.map Product.Name
        = (NewRepository.run calls).data.entries.map Prod.fst := by
      simp only [ProductRepository.Find, GoMap.values, List.map_map]
      apply List.map_congr_left
      intro e he
      exact hinv e he
    rw [hkeys]
    exact (NewRepository.run calls).data.nodup
  · intro c hc
    cases c with
    | add p => exact absurd rfl (hc p)
    | find => rfl
    | findOne n => rfl
    | getMetrics => rfl

/-! ### Facts about the sum of the category counters -/

theorem assocSet_incr_sum (k : String) :
    ∀ es : List (String × Int),
      ((assocSet k ((assocGet k es).getD 0 + 1) es).map Prod.snd).sum
        = (es.map Prod.snd).sum + 1
  | [] => by simp [assocSet, assocGet]
  | e :: es => by
    by_cases hk : e.1 = k
    · simp only [assocSet, assocGet, hk, if_true, Option.getD_some, List.map_cons, List.sum_cons]
      ring
    · simp only [assocSet, assocGet, hk, if_false, List.map_cons, List.sum_cons,
        assocSet_incr_sum k es]
      ring

theorem assocSet_incr_pos (k : String) :
    ∀ es : List (String × Int), (∀ v ∈ es.map Prod.snd, 1 ≤ v) →
      ∀ v ∈ (assocSet k ((assocGet k es).getD 0 + 1) es).map Prod.snd, 1 ≤ v
  | [], _ => by simp [assocSet, assocGet]
  | e :: es, h => by
    have he : 1 ≤ e.2 := h e.2 (by simp)
    have hes : ∀ v ∈ es.map Prod.snd, 1 ≤ v := fun v hv => h v (by simp at hv ⊢; exact Or.inr hv)
    by_cases hk : e.1 = k
    · simp only [assocSet, assocGet, hk, if_true, Option.getD_some, List.map_cons,
        List.mem_cons]
      rintro v (hv | hv)
      · omega
      · exact hes v hv
    · simp only [assocSet, assocGet, hk, if_false, List.map_cons, List.mem_cons]
      rintro v (hv | hv)
      · omega
      · exact assocSet_incr_pos k es hes v hv

theorem GoMap.values_incr_sum (m : GoMap Int) (c : String) :
    (m.incr c).values.sum = m.values.sum + 1 :=
  assocSet_incr_sum c m.entries

theorem GoMap.values_incr_pos (m : GoMap Int) (c : String) (h : ∀ v ∈ m.values, 1 ≤ v) :
    ∀ v ∈ (m.incr c).values, 1 ≤ v :=
  assocSet_incr_pos c m.entries h

theorem GoMap.values_foldl_incr :
    ∀ (cats : List String) (m : GoMap Int), (∀ v ∈ m.values, 1 ≤ v) →
      (cats.foldl GoMap.incr m).values.sum = m.values.sum + (cats.length : Int) ∧
      ∀ v ∈ (cats.foldl GoMap.incr m).values, 1 ≤ v
  | [], m, h => by simp; exact h
  | c :: cats, m, h => by
    have ih := GoMap.values_foldl_incr cats (m.incr c) (GoMap.values_incr_pos m c h)
    rw [List.foldl_cons]
    refine ⟨?_, ih.2⟩
    rw [ih.1, GoMap.values_incr_sum, List.length_cons]
    push_cast
    ring

theorem ProductRepository.foldl_metricsStep_values :
    ∀ (ps : List Product) (acc : Int × GoMap Int), (∀ v ∈ acc.2.values, 1 ≤ v) →
      (ps.foldl ProductRepository.metricsStep acc).2.values.sum
        = acc.2.values.sum + (ps.map (fun p => (p.Categories.length : Int))).sum ∧
      ∀ v ∈ (ps.foldl ProductRepository.metricsStep acc).2.values, 1 ≤ v
  | [], acc, h => by simp; exact h
  | p :: ps, acc, h => by
    have h1 := GoMap.values_foldl_incr p.Categories acc.2 h
    have ih := ProductRepository.foldl_metricsStep_values ps
      (ProductRepository.metricsStep acc p) h1.2
    rw [List.foldl_cons]
    refine ⟨?_, ih.2⟩
    rw [ih.1]
    simp only [ProductRepository.metricsStep, h1.1, List.map_cons, List.sum_cons]
    ring

theorem length_le_sum_lengths :
    ∀ ps : List Product, (∀ p ∈ ps, p.Categories ≠ []) →
      (ps.length : Int) ≤ (ps.map (fun p => (p.Categories.length : Int))).sum
  | [], _ => by simp
  | p :: ps, h => by
    have h1 : 1 ≤ p.Categories.length :=
      Nat.one_le_iff_ne_zero.mpr (fun h0 => h p (List.mem_cons_self p ps) (List.length_eq_zero.mp h0))
    have ih := length_le_sum_lengths ps (fun q hq => h q (List.mem_cons_of_mem p hq))
    simp only [List.length_cons, List.map_cons, List.sum_cons]
    push_cast
    omega

/-! ## Claim on the sum of the category counters -/

/-- C29: for every repository state, the values of `ProductsByCategory` add up
to the total number of category entries of the stored products (the sum of the
lengths of their category lists); every value of the map is at least 1; and
when every stored product has at least one category the sum is at least
`TotalProducts`. -/
theorem productsByCategory_values_sum (r : ProductRepository) :
    (GetMetrics r).ProductsByCategory.values.sum
      = (r.data.values.map (fun p => (p.Categories.length : Int))).sum ∧
    (∀ v ∈ (GetMetrics r).ProductsByCategory.values, 1 ≤ v) ∧
    ((∀ p ∈ r.data.values, p.Categories ≠ []) →
      (GetMetrics r).TotalProducts ≤ (GetMetrics r).ProductsByCategory.values.sum) ∧
    (GetMetrics sampleMetricsRepo).ProductsByCategory.values.sum = 3 := by
  have h := ProductRepository.foldl_metricsStep_values r.data.values (0, GoMap.empty)
    (fun v hv => by simp [GoMap.values, GoMap.empty] at hv)
  have hsum : (GetMetrics r).ProductsByCategory.values.sum
      = (r.data.values.map (fun p => (p.Categories.length : Int))).sum := by
    show (r.data.values.foldl ProductRepository.metricsStep (0, GoMap.empty)).2.values.sum = _
    rw [h.1]
    simp [GoMap.values, GoMap.empty]
  refine ⟨hsum, h.2, ?_, by decide⟩
  intro hne
  rw [hsum]
  have hlen : (GetMetrics r).TotalProducts = (r.data.values.length : Int) := by
    simp [ProductRepository.GetMetrics, GoMap.len, GoMap.values]
  rw [hlen]
  exact length_le_sum_lengths r.data.values hne

/-- The example of the specification: three category entries, two products. -/
theorem productsByCategory_values_sum_witness :
    (GetMetrics sampleMetricsRepo).TotalProducts
      ≤ (GetMetrics sampleMetricsRepo).ProductsByCategory.values.sum :=
  (productsByCategory_values_sum sampleMetricsRepo).2.2.1 (by decide)

/-! # Degradation of the relational `GetMetrics` -/

/-- A database whose count per category delivers one row and then loses the
connection: `Next` returns false and `rows.Err()` holds the error. -/
def samplePartialCountsDB : SqlDB :=
  { brokenDB with
    countByCategory := RowsReply.opened [Except.ok ("Electronics", 5)] (some errConnDone) }

/-- The rows of a cursor that `Scan` can read, in order. -/
def scannedRows {α : Type} : List (Except SqlError α) → List α
  | [] => []
  | Except.error _ :: rest => scannedRows rest
  | Except.ok a :: rest => a :: scannedRows rest

/-! ### Facts about the loop over the counts per category -/

theorem scanCategoryCounts_eq_scanned :
    ∀ (rows : List (Except SqlError (String × Int))) (m : GoMap Int),
      PostgresProductRepository.scanCategoryCounts rows m
        = PostgresProductRepository.scanCategoryCounts ((scannedRows rows).map Except.ok) m
  | [], _ => rfl
  | Except.error e :: rest, m => by
    simp only [PostgresProductRepository.scanCategoryCounts, scannedRows]
    exact scanCategoryCounts_eq_scanned rest m
  | Except.ok (c, n) :: rest, m => by
    simp only [PostgresProductRepository.scanCategoryCounts, scannedRows, List.map_cons]
    exact scanCategoryCounts_eq_scanned rest (m.set c n)

theorem scanCategoryCounts_of_distinct :
    ∀ (rows : List (String × Int)) (m : GoMap Int), (rows.map Prod.fst).Nodup →
      (∀ row ∈ rows, m.get? row.1 = none) →
      (PostgresProductRepository.scanCategoryCounts (rows.map Except.ok) m).entries
        = m.entries ++ rows
  | [], m, _, _ => by simp [PostgresProductRepository.scanCategoryCounts]
  | (c, n) :: rows, m, hnd, hfresh => by
    have hc : m.get? c = none := hfresh (c, n) (List.mem_cons_self _ _)
    have hnotin : c ∉ rows.map Prod.fst := (List.nodup_cons.mp hnd).1
    have hnd2 : (rows.map Prod.fst).Nodup := (List.nodup_cons.mp hnd).2
    have hset : (m.set c n).entries = m.entries ++ [(c, n)] :=
      assocSet_of_get_none c n m.entries hc
    have hfresh2 : ∀ row ∈ rows, (m.set c n).get? row.1 = none := by
      intro row hrow
      have hne : row.1 ≠ c := fun h => hnotin (h ▸ List.mem_map_of_mem Prod.fst hrow)
      show assocGet row.1 (assocSet c n m.entries) = none
      rw [assocGet_assocSet_ne c row.1 n hne m.entries]
      exact hfresh row (List.mem_cons_of_mem _ hrow)
    have ih := scanCategoryCounts_of_distinct rows (m.set c n) hnd2 hfresh2
    simp only [List.map_cons, PostgresProductRepository.scanCategoryCounts, ih, hset,
      List.append_assoc, List.singleton_append]

/-! ## Claim on the degradation -/

/-- C21, as stated, fails: when the count per category delivers the row
("Electronics", 5) and then fails during the iteration, `ProductsByCategory` is
not empty: it holds the row that was delivered. -/
theorem relational_getMetrics_keeps_partial_counts :
    (PostgresProductRepository.GetMetrics ⟨samplePartialCountsDB⟩).ProductsByCategory.entries
      = [("Electronics", 5)] ∧
    (PostgresProductRepository.GetMetrics ⟨samplePartialCountsDB⟩).ProductsByCategory.entries
      ≠ [] := by
  constructor
  · rfl
  · decide

/-- C21, amended: the relational `GetMetrics` returns a metrics value whatever
the database replies. A query that returns an error leaves the fields it feeds
at zero (`TotalProducts` 0; `TotalValue` 0 and `AveragePrice` 0; an empty
`ProductsByCategory`), whatever the other two queries do. A count that
succeeds gives `TotalProducts`; a sum and average row gives `TotalValue` the
sum, or 0 when the sum is NULL, and `AveragePrice` the average, or 0 when it is
NULL; a count per category gives the map of the rows delivered and scanned
before the iteration ended, which is the whole result, row by row, when every
row is scanned and the names are distinct. -/
theorem relational_getMetrics_degrades (r : PostgresProductRepository) :
    (∀ e, r.db.countProducts = Except.error e →
      (PostgresProductRepository.GetMetrics r).TotalProducts = 0) ∧
    (∀ n, r.db.countProducts = Except.ok n →
      (PostgresProductRepository.GetMetrics r).TotalProducts = n) ∧
    (∀ e, r.db.aggregate sumAvgQuery = Except.error e →
      (PostgresProductRepository.GetMetrics r).TotalValue = 0 ∧
      (PostgresProductRepository.GetMetrics r).AveragePrice = 0) ∧
    (∀ total average, r.db.aggregate sumAvgQuery = Except.ok (total, average) →
      (PostgresProductRepository.GetMetrics r).TotalValue = total.getD 0 ∧
      (PostgresProductRepository.GetMetrics r).AveragePrice = average.getD 0) ∧
    (∀ e, r.db.countByCategory = RowsReply.failed e →
      (PostgresProductRepository.GetMetrics r).ProductsByCategory.entries = []) ∧
    (∀ rows it, r.db.countByCategory = RowsReply.opened rows it →
      (PostgresProductRepository.GetMetrics r).ProductsByCategory
        = PostgresProductRepository.scanCategoryCounts ((scannedRows rows).map Except.ok)
            GoMap.empty) ∧
    (∀ (rows : List (String × Int)) it,
      r.db.countByCategory = RowsReply.opened (rows.map Except.ok) it →
      (rows.map Prod.fst).Nodup →
      (PostgresProductRepository.GetMetrics r).ProductsByCategory.entries = rows) ∧
    (PostgresProductRepository.GetMetrics ⟨brokenDB⟩).TotalProducts = 0 ∧
    (PostgresProductRepository.GetMetrics ⟨brokenDB⟩).TotalValue = 0 ∧
    (PostgresProductRepository.GetMetrics ⟨brokenDB⟩).AveragePrice = 0 ∧
    (PostgresProductRepository.GetMetrics ⟨brokenDB⟩).ProductsByCategory.entries = [] := by
  refine ⟨?_, ?_, ?_, ?_, ?_, ?_, ?_, rfl, rfl, rfl, rfl⟩
  · intro e h
    simp only [PostgresProductRepository.GetMetrics, h]
  · intro n h
    simp only [PostgresProductRepository.GetMetrics, h]
  · intro e h
    simp only [PostgresProductRepository.GetMetrics, h, and_self]
  · intro total average h
    cases total <;> cases average <;>
      simp [PostgresProductRepository.GetMetrics, h]
  · intro e h
    simp only [PostgresProductRepository.GetMetrics, h]
    rfl
  · intro rows it h
    simp only [PostgresProductRepository.GetMetrics, h]
    exact scanCategoryCounts_eq_scanned rows GoMap.empty
  · intro rows it h hnd
    simp only [PostgresProductRepository.GetMetrics, h]
    rw [scanCategoryCounts_of_distinct rows GoMap.empty hnd (fun _ _ => rfl)]
    rfl

/-! # HTTP metrics: endpoint labels

A shallow embedding of `normalizeEndpoint` of `internal/metrics/middleware.go`.
A Go string is taken as its sequence of characters; the four characters the
function looks at (colon, braces, slash) are single bytes that occur in no
other character, so the sequence of characters behaves as the bytes do. -/

/-- One step of `strings.ReplaceAll(path, ":", "\x7b")`. -/
def replaceColon (c : Char) : Char := if c = ':' then '\x7b' else c

/-- The call `strings.Split(s, "/")`. -/
def splitSlash : List Char → List (List Char)
  | [] => [[]]
  | c :: cs =>
    if c = '/' then [] :: splitSlash cs
    else
      match splitSlash cs with
      | [] => [[c]]
      | part :: parts => (c :: part) :: parts

/-- The call `strings.Join(parts, "/")`. -/
def joinSlash : List (List Char) → List Char
  | [] => []
  | part :: [] => part
  | part :: next :: rest => part ++ '/' :: joinSlash (next :: rest)

/-- The body of the loop over the parts: a part that starts with an opening
brace and does not end with a closing one gets a closing brace. -/
def closeParam (part : List Char) : List Char :=
  if part.head? = some '\x7b' ∧ part.getLast? ≠ some '\x7d' then part ++ ['\x7d'] else part

/-- The text `normalized` after the two calls of `strings.ReplaceAll`. -/
def stripBraces (path : List Char) : List Char :=
  (path.map replaceColon).filter (fun c => decide (c ≠ '\x7d'))

/-- The body of `normalizeEndpoint` for a path that is not empty: the two
replacements, the split, the loop over the parts and the join. -/
def normalizeChars (path : List Char) : List Char :=
  joinSlash ((splitSlash (stripBraces path)).map closeParam)

/-- The function `normalizeEndpoint`. -/
def normalizeEndpoint (path : String) : String :=
  if path = "" then "unknown" else String.mk (normalizeChars path.data)

/-- A segment of a route path: a parameter, written with a colon before its
name, or a plain text. -/
inductive Segment where
  | param (name : List Char)
  | plain (text : List Char)
deriving DecidableEq, Repr

/-- The characters of a segment, the colon of a parameter left out. -/
def Segment.chars : Segment → List Char
  | Segment.param name => name
  | Segment.plain text => text

/-- The segment as the router writes it. -/
def Segment.route : Segment → List Char
  | Segment.param name => ':' :: name
  | Segment.plain text => text

/-- The segment as the label shows it: the name of a parameter between braces. -/
def Segment.label : Segment → List Char
  | Segment.param name => '\x7b' :: name ++ ['\x7d']
  | Segment.plain text => text

/-- The segment after the two replacements: the colon of a parameter has
become an opening brace. -/
def Segment.opened : Segment → List Char
  | Segment.param name => '\x7b' :: name
  | Segment.plain text => text

/-- The characters that a clean segment does not hold. -/
def isSpecial (c : Char) : Bool := c = ':' || c = '\x7b' || c = '\x7d' || c = '/'

/-- The route of the test "path with multiple parameters". -/
def sampleRoute : List Segment :=
  [Segment.plain [], Segment.plain "api".data, Segment.plain "v1".data,
    Segment.plain "users".data, Segment.param "id".data, Segment.plain "posts".data,
    Segment.param "postId".data]

/-! ### Facts about splitting, joining and the two replacements -/

theorem splitSlash_ne_nil : ∀ l : List Char, splitSlash l ≠ []
  | [] => by simp [splitSlash]
  | c :: cs => by
    have ih := splitSlash_ne_nil cs
    by_cases hc : c = '/'
    · simp [splitSlash, hc]
    · cases h : splitSlash cs with
      | nil => exact absurd h ih
      | cons part parts => simp [splitSlash, hc, h]

theorem joinSlash_cons_cons (part next : List Char) (rest : List (List Char)) :
    joinSlash (part :: next :: rest) = part ++ '/' :: joinSlash (next :: rest) := rfl

theorem joinSlash_cons_of_ne_nil (part : List Char) (parts : List (List Char)) (h : parts ≠ []) :
    joinSlash (part :: parts) = part ++ '/' :: joinSlash parts := by
  cases parts with
  | nil => exact absurd rfl h
  | cons next rest => rfl

theorem joinSlash_splitSlash : ∀ l : List Char, joinSlash (splitSlash l) = l
  | [] => rfl
  | c :: cs => by
    have ih := joinSlash_splitSlash cs
    have hne := splitSlash_ne_nil cs
    by_cases hc : c = '/'
    · simp only [splitSlash, hc, if_true]
      rw [joinSlash_cons_of_ne_nil [] _ hne, ih]
      rfl
    · cases h : splitSlash cs with
      | nil => exact absurd h hne
      | cons part parts =>
        rw [h] at ih
        simp only [splitSlash, hc, if_false, h]
        cases parts with
        | nil =>
          simp only [joinSlash] at ih ⊢
          rw [ih]
        | cons next rest =>
          rw [joinSlash_cons_cons] at ih ⊢
          rw [List.cons_append, ih]

theorem splitSlash_of_no_slash : ∀ part : List Char, '/' ∉ part → splitSlash part = [part]
  | [], _ => rfl
  | c :: cs, h => by
    have hc : c ≠ '/' := fun e => h (by simp [e])
    have hcs : '/' ∉ cs := fun e => h (List.mem_cons_of_mem c e)
    simp [splitSlash, hc, splitSlash_of_no_slash cs hcs]

theorem splitSlash_append_slash : ∀ (part rest : List Char), '/' ∉ part →
    splitSlash (part ++ '/' :: rest) = part :: splitSlash rest
  | [], rest, _ => by simp [splitSlash]
  | c :: cs, rest, h => by
    have hc : c ≠ '/' := fun e => h (by simp [e])
    have hcs : '/' ∉ cs := fun e => h (List.mem_cons_of_mem c e)
    simp [splitSlash, hc, splitSlash_append_slash cs rest hcs]

theorem splitSlash_joinSlash : ∀ parts : List (List Char), parts ≠ [] →
    (∀ part ∈ parts, '/' ∉ part) → splitSlash (joinSlash parts) = parts
  | [], h, _ => absurd rfl h
  | [part], _, h => splitSlash_of_no_slash part (h part (by simp))
  | part :: next :: rest, _, h => by
    rw [joinSlash_cons_cons, splitSlash_append_slash part _ (h part (by simp)),
      splitSlash_joinSlash (next :: rest) (by simp)
        (fun q hq => h q (List.mem_cons_of_mem part hq))]

theorem mem_of_mem_splitSlash : ∀ (l part : List Char), part ∈ splitSlash l →
    ∀ c ∈ part, c ∈ l ∧ c ≠ '/'
  | [], part, hp, c, hc => by
    simp [splitSlash] at hp
    rw [hp] at hc
    simp at hc
  | x :: xs, part, hp, c, hc => by
    have ih := mem_of_mem_splitSlash xs
    by_cases hx : x = '/'
    · simp only [splitSlash, hx, if_true, List.mem_cons] at hp
      rcases hp with hp | hp
      · rw [hp] at hc; simp at hc
      · have := ih part hp c hc
        exact ⟨List.mem_cons_of_mem _ this.1, this.2⟩
    · cases h : splitSlash xs with
      | nil => exact absurd h (splitSlash_ne_nil xs)
      | cons p ps =>
        simp only [splitSlash, hx, if_false, h, List.mem_cons] at hp
        rcases hp with hp | hp
        · rw [hp] at hc
          rcases List.mem_cons.mp hc with hc | hc
          · rw [hc]; exact ⟨List.mem_cons_self _ _, hx⟩
          · have := ih p (by rw [h]; simp) c hc
            exact ⟨List.mem_cons_of_mem _ this.1, this.2⟩
        · have := ih part (by rw [h]; exact List.mem_cons_of_mem _ hp) c hc
          exact ⟨List.mem_cons_of_mem _ this.1, this.2⟩

theorem map_joinSlash (f : Char → Char) (hf : f '/' = '/') :
    ∀ parts : List (List Char), (joinSlash parts).map f = joinSlash (parts.map (List.map f))
  | [] => rfl
  | [part] => rfl
  | part :: next :: rest => by
    simp only [List.map_cons, joinSlash_cons_cons, List.map_append, hf]
    rw [map_joinSlash f hf (next :: rest)]
    rfl

theorem filter_joinSlash (p : Char → Bool) (hp : p '/' = true) :
    ∀ parts : List (List Char),
      (joinSlash parts).filter p = joinSlash (parts.map (List.filter p))
  | [] => rfl
  | [part] => rfl
  | part :: next :: rest => by
    simp only [List.map_cons, joinSlash_cons_cons, List.filter_append, List.filter_cons, hp,
      if_true]
    rw [← List.map_cons (List.filter p) next rest, filter_joinSlash p hp (next :: rest)]


theorem mem_joinSlash : ∀ (parts : List (List Char)) (c : Char), c ∈ joinSlash parts →
    c = '/' ∨ ∃ part ∈ parts, c ∈ part
  | [], c, h => by simp [joinSlash] at h
  | [part], c, h => Or.inr ⟨part, by simp, h⟩
  | part :: next :: rest, c, h => by
    rw [joinSlash_cons_cons] at h
    rcases List.mem_append.mp h with h | h
    · exact Or.inr ⟨part, by simp, h⟩
    · rcases List.mem_cons.mp h with h | h
      · exact Or.inl h
      · rcases mem_joinSlash (next :: rest) c h with h | ⟨q, hq, hc⟩
        · exact Or.inl h
        · exact Or.inr ⟨q, List.mem_cons_of_mem _ hq, hc⟩

theorem length_splitSlash : ∀ l : List Char, (splitSlash l).length = l.count '/' + 1
  | [] => rfl
  | c :: cs => by
    have ih := length_splitSlash cs
    by_cases hc : c = '/'
    · simp [splitSlash, hc, ih]
    · cases h : splitSlash cs with
      | nil => exact absurd h (splitSlash_ne_nil cs)
      | cons part parts =>
        rw [h] at ih
        have hc' : ('/' == c) = false := by
          rw [beq_eq_false_iff_ne]; exact fun e => hc e.symm
        simp only [splitSlash, hc, if_false, h, List.length_cons, List.count_cons] at ih ⊢
        simp [hc] 
        omega

theorem mem_stripBraces (l : List Char) (c : Char) (h : c ∈ stripBraces l) :
    c ≠ ':' ∧ c ≠ '\x7d' := by
  simp only [stripBraces, List.mem_filter, List.mem_map, decide_eq_true_eq] at h
  obtain ⟨⟨x, _, hx⟩, hne⟩ := h
  refine ⟨?_, hne⟩
  rw [← hx]
  unfold replaceColon
  by_cases hc : x = ':'
  · rw [if_pos hc]; decide
  · rw [if_neg hc]; exact hc

theorem stripBraces_of_clean (l : List Char) (h : ∀ c ∈ l, c ≠ ':' ∧ c ≠ '\x7d') :
    stripBraces l = l := by
  have h1 : l.map replaceColon = l := by
    conv_rhs => rw [← List.map_id l]
    apply List.map_congr_left
    intro c hc
    simp [replaceColon, (h c hc).1]
  unfold stripBraces
  rw [h1, List.filter_eq_self]
  intro c hc
  simp [(h c hc).2]

theorem count_slash_stripBraces : ∀ l : List Char, (stripBraces l).count '/' = l.count '/'
  | [] => rfl
  | c :: cs => by
    have ih := count_slash_stripBraces cs
    unfold stripBraces at ih ⊢
    by_cases h1 : c = ':'
    · subst h1
      simp only [List.map_cons, replaceColon, if_true]
      rw [List.filter_cons_of_pos (by decide), List.count_cons, List.count_cons, ih]
      simp
    · by_cases h2 : c = '\x7d'
      · subst h2
        simp only [List.map_cons, replaceColon]
        rw [if_neg (by decide), List.filter_cons_of_neg (by decide), List.count_cons, ih]
        simp
      · simp only [List.map_cons, replaceColon, if_neg h1]
        rw [List.filter_cons_of_pos (by simpa using h2), List.count_cons, List.count_cons, ih]

theorem mem_closeParam (part : List Char) (c : Char) (h : c ∈ closeParam part) :
    c ∈ part ∨ c = '\x7d' := by
  unfold closeParam at h
  split at h
  · rcases List.mem_append.mp h with h | h
    · exact Or.inl h
    · exact Or.inr (List.mem_singleton.mp h)
  · exact Or.inl h

theorem stripBraces_closeParam (part : List Char) (h : ∀ c ∈ part, c ≠ ':' ∧ c ≠ '\x7d') :
    stripBraces (closeParam part) = part := by
  unfold closeParam
  split
  · unfold stripBraces
    rw [List.map_append, List.filter_append]
    have h1 := stripBraces_of_clean part h
    unfold stripBraces at h1
    rw [h1]
    simp [replaceColon]
  · exact stripBraces_of_clean part h

theorem stripBraces_joinSlash (parts : List (List Char)) :
    stripBraces (joinSlash parts) = joinSlash (parts.map stripBraces) := by
  unfold stripBraces
  rw [map_joinSlash replaceColon (by decide), filter_joinSlash _ (by decide), List.map_map]
  rfl

/-- Normalising twice strips back to the text of the first pass. -/
theorem stripBraces_normalizeChars (l : List Char) :
    stripBraces (normalizeChars l) = stripBraces l := by
  unfold normalizeChars
  rw [stripBraces_joinSlash, List.map_map]
  have hparts : (splitSlash (stripBraces l)).map (stripBraces ∘ closeParam)
      = splitSlash (stripBraces l) := by
    conv_rhs => rw [← List.map_id (splitSlash (stripBraces l))]
    apply List.map_congr_left
    intro part hpart
    apply stripBraces_closeParam
    intro c hc
    exact mem_stripBraces l c (mem_of_mem_splitSlash _ part hpart c hc).1
  rw [hparts, joinSlash_splitSlash]

theorem normalizeChars_idempotent (l : List Char) :
    normalizeChars (normalizeChars l) = normalizeChars l := by
  show joinSlash ((splitSlash (stripBraces (normalizeChars l))).map closeParam) = _
  rw [stripBraces_normalizeChars]
  rfl

theorem mem_normalizeChars (l : List Char) (c : Char) (h : c ∈ normalizeChars l) : c ≠ ':' := by
  rcases mem_joinSlash _ c h with h | ⟨q, hq, hc⟩
  · rw [h]; decide
  · obtain ⟨part, hpart, rfl⟩ := List.mem_map.mp hq
    rcases mem_closeParam part c hc with hc | hc
    · exact (mem_stripBraces l c (mem_of_mem_splitSlash _ part hpart c hc).1).1
    · rw [hc]; decide

theorem no_slash_closeParam (part : List Char) (h : '/' ∉ part) : '/' ∉ closeParam part := by
  intro hc
  rcases mem_closeParam part '/' hc with hc | hc
  · exact h hc
  · exact absurd hc (by decide)

theorem length_splitSlash_normalizeChars (l : List Char) :
    (splitSlash (normalizeChars l)).length = (splitSlash l).length := by
  unfold normalizeChars
  rw [splitSlash_joinSlash]
  · rw [List.length_map, length_splitSlash, length_splitSlash, count_slash_stripBraces]
  · simp [splitSlash_ne_nil]
  · intro q hq
    obtain ⟨part, hpart, rfl⟩ := List.mem_map.mp hq
    apply no_slash_closeParam
    intro hs
    exact (mem_of_mem_splitSlash _ part hpart '/' hs).2 rfl

theorem normalizeChars_eq_nil_iff (l : List Char) :
    normalizeChars l = [] ↔ ∀ c ∈ l, c = '\x7d' := by
  constructor
  · intro h
    have h1 : stripBraces l = [] := by
      rw [← stripBraces_normalizeChars, h]; rfl
    intro c hc
    by_contra hne
    have : replaceColon c ∈ stripBraces l := by
      simp only [stripBraces, List.mem_filter, List.mem_map, decide_eq_true_eq]
      refine ⟨⟨c, hc, rfl⟩, ?_⟩
      unfold replaceColon
      by_cases h2 : c = ':'
      · rw [if_pos h2]; decide
      · rw [if_neg h2]; exact hne
    rw [h1] at this
    simp at this
  · intro h
    have h1 : stripBraces l = [] := by
      unfold stripBraces
      rw [List.filter_eq_nil_iff]
      intro c hc
      obtain ⟨x, hx, rfl⟩ := List.mem_map.mp hc
      rw [h x hx]
      decide
    unfold normalizeChars
    rw [h1]
    decide


theorem not_special {c : Char} (h : isSpecial c = false) :
    c ≠ ':' ∧ c ≠ '\x7b' ∧ c ≠ '\x7d' ∧ c ≠ '/' := by
  simp only [isSpecial, Bool.or_eq_false_iff, decide_eq_false_iff_not] at h
  exact ⟨h.1.1.1, h.1.1.2, h.1.2, h.2⟩

theorem stripBraces_route (s : Segment) (h : ∀ c ∈ s.chars, isSpecial c = false) :
    stripBraces s.route = s.opened := by
  have hclean : stripBraces s.chars = s.chars :=
    stripBraces_of_clean _ (fun c hc => ⟨(not_special (h c hc)).1, (not_special (h c hc)).2.2.1⟩)
  cases s with
  | param name =>
    unfold stripBraces at hclean ⊢
    simp only [Segment.route, Segment.opened, List.map_cons, replaceColon, if_true]
    rw [List.filter_cons_of_pos (by decide)]
    exact congrArg _ hclean
  | plain text => exact hclean

theorem closeParam_opened (s : Segment) (h : ∀ c ∈ s.chars, isSpecial c = false) :
    closeParam s.opened = s.label := by
  cases s with
  | param name =>
    have hlast : ('\x7b' :: name).getLast? ≠ some '\x7d' := by
      intro hl
      have hmem : '\x7d' ∈ '\x7b' :: name := List.mem_of_getLast?_eq_some hl
      rcases List.mem_cons.mp hmem with hm | hm
      · exact absurd hm (by decide)
      · exact (not_special (h _ hm)).2.2.1 rfl
    simp only [Segment.opened, Segment.label, closeParam]
    rw [if_pos ⟨rfl, hlast⟩]
  | plain text =>
    have hhead : text.head? ≠ some '\x7b' := by
      intro hh
      have hmem : '\x7b' ∈ text := List.mem_of_mem_head? hh
      exact (not_special (h _ hmem)).2.1 rfl
    simp only [Segment.opened, Segment.label, closeParam]
    rw [if_neg (fun hc => hhead hc.1)]

theorem no_slash_opened (s : Segment) (h : ∀ c ∈ s.chars, isSpecial c = false) :
    '/' ∉ s.opened := by
  cases s with
  | param name =>
    intro hm
    rcases List.mem_cons.mp hm with hm | hm
    · exact absurd hm (by decide)
    · exact (not_special (h _ hm)).2.2.2 rfl
  | plain text =>
    intro hm
    exact (not_special (h _ hm)).2.2.2 rfl

/-- On a route of clean segments the label is the route with every parameter
put between braces. -/
theorem normalizeChars_route (segs : List Segment) (hne : segs ≠ [])
    (h : ∀ s ∈ segs, ∀ c ∈ s.chars, isSpecial c = false) :
    normalizeChars (joinSlash (segs.map Segment.route)) = joinSlash (segs.map Segment.label) := by
  unfold normalizeChars
  have h1 : stripBraces (joinSlash (segs.map Segment.route))
      = joinSlash (segs.map Segment.opened) := by
    rw [stripBraces_joinSlash, List.map_map]
    congr 1
    apply List.map_congr_left
    intro s hs
    exact stripBraces_route s (h s hs)
  rw [h1, splitSlash_joinSlash, List.map_map]
  · congr 1
    apply List.map_congr_left
    intro s hs
    exact closeParam_opened s (h s hs)
  · simpa using hne
  · intro part hpart
    obtain ⟨s, hs, rfl⟩ := List.mem_map.mp hpart
    exact no_slash_opened s (h s hs)

theorem String_mk_eq_empty_iff (l : List Char) : String.mk l = "" ↔ l = [] := by
  constructor
  · intro h
    exact congrArg String.data h
  · intro h
    rw [h]

theorem String_eq_empty_iff (p : String) : p = "" ↔ p.data = [] := by
  constructor
  · intro h
    rw [h]
  · intro h
    cases p with
    | mk data =>
      simp only at h
      rw [h]

theorem no_slash_route (s : Segment) (h : ∀ c ∈ s.chars, isSpecial c = false) :
    '/' ∉ s.route := by
  cases s with
  | param name =>
    intro hm
    rcases List.mem_cons.mp hm with hm | hm
    · exact absurd hm (by decide)
    · exact (not_special (h _ hm)).2.2.2 rfl
  | plain text =>
    intro hm
    exact (not_special (h _ hm)).2.2.2 rfl

/-! ## Claims on `normalizeEndpoint` -/

/-- C22: `normalizeEndpoint` returns "unknown" for the empty path; for a path
that is not empty and whose segments between slashes are parameters (a colon
and a name) and plain texts, no colon, brace or slash occurring in a name or a
text, it returns the path with every parameter written as its name between
braces and every other segment, the empty ones too, as it was. -/
theorem normalizeEndpoint_route (segs : List Segment)
    (hclean : ∀ s ∈ segs, ∀ c ∈ s.chars, isSpecial c = false)
    (hpath : joinSlash (segs.map Segment.route) ≠ []) :
    normalizeEndpoint "" = "unknown" ∧
    splitSlash (joinSlash (segs.map Segment.route)) = segs.map Segment.route ∧
    normalizeEndpoint (String.mk (joinSlash (segs.map Segment.route)))
      = String.mk (joinSlash (segs.map Segment.label)) ∧
    normalizeEndpoint "/api/v1/users/:id/posts/:postId"
      = "/api/v1/users/\x7bid\x7d/posts/\x7bpostId\x7d" := by
  have hne : segs ≠ [] := by
    intro h
    rw [h] at hpath
    exact hpath rfl
  refine ⟨rfl, ?_, ?_, by decide⟩
  · apply splitSlash_joinSlash
    · simpa using hne
    · intro part hpart
      obtain ⟨sg, hs, rfl⟩ := List.mem_map.mp hpart
      exact no_slash_route sg (hclean sg hs)
  · unfold normalizeEndpoint
    rw [if_neg (fun h => hpath ((String_mk_eq_empty_iff _).mp h))]
    exact congrArg String.mk (normalizeChars_route segs hne hclean)

/-- The route of the test "path with multiple parameters". -/
theorem normalizeEndpoint_route_witness :
    normalizeEndpoint "" = "unknown" ∧
    splitSlash (joinSlash (sampleRoute.map Segment.route)) = sampleRoute.map Segment.route ∧
    normalizeEndpoint (String.mk (joinSlash (sampleRoute.map Segment.route)))
      = String.mk (joinSlash (sampleRoute.map Segment.label)) ∧
    normalizeEndpoint "/api/v1/users/:id/posts/:postId"
      = "/api/v1/users/\x7bid\x7d/posts/\x7bpostId\x7d" :=
  normalizeEndpoint_route sampleRoute (by decide) (by decide)

/-- C26, as stated, fails: the path made of one closing brace is normalised to
the empty text, and the empty text is normalised to "unknown". -/
theorem normalizeEndpoint_not_idempotent :
    normalizeEndpoint "\x7d" = "" ∧
    normalizeEndpoint (normalizeEndpoint "\x7d") = "unknown" ∧
    normalizeEndpoint (normalizeEndpoint "\x7d") ≠ normalizeEndpoint "\x7d" := by
  decide

/-- C26, amended: `normalizeEndpoint` applied twice gives what it gives applied
once whenever its result is not the empty text; its result is empty exactly
for the paths that are not empty and made of closing braces only, and then the
second application gives "unknown". For every path the result holds no colon,
and for a path that is not empty it has as many segments between slashes as
the path. -/
theorem normalizeEndpoint_idempotent_of_nonempty (p : String) :
    (normalizeEndpoint p ≠ "" →
      normalizeEndpoint (normalizeEndpoint p) = normalizeEndpoint p) ∧
    (normalizeEndpoint p = "" ↔ p ≠ "" ∧ ∀ c ∈ p.data, c = '\x7d') ∧
    (normalizeEndpoint p = "" → normalizeEndpoint (normalizeEndpoint p) = "unknown") ∧
    (∀ c ∈ (normalizeEndpoint p).data, c ≠ ':') ∧
    (p ≠ "" → (splitSlash (normalizeEndpoint p).data).length = (splitSlash p.data).length) := by
  by_cases hp : p = ""
  · rw [hp]
    refine ⟨fun _ => by decide, ?_, fun h => absurd h (by decide), by decide,
      fun h => absurd rfl h⟩
    constructor
    · intro h; exact absurd h (by decide)
    · intro h; exact absurd rfl h.1
  · have hnorm : normalizeEndpoint p = String.mk (normalizeChars p.data) := by
      unfold normalizeEndpoint
      rw [if_neg hp]
    refine ⟨?_, ?_, ?_, ?_, ?_⟩
    · intro hne
      rw [hnorm] at hne ⊢
      show (if String.mk (normalizeChars p.data) = "" then "unknown"
        else String.mk (normalizeChars (normalizeChars p.data))) = _
      rw [if_neg hne, normalizeChars_idempotent]
    · rw [hnorm, String_mk_eq_empty_iff, normalizeChars_eq_nil_iff]
      constructor
      · intro h; exact ⟨hp, h⟩
      · intro h; exact h.2
    · intro h
      rw [h]
      rfl
    · intro c hc
      rw [hnorm] at hc
      exact mem_normalizeChars p.data c hc
    · intro _
      rw [hnorm]
      exact length_splitSlash_normalizeChars p.data

/-- The path of the test "path with parameter": normalising twice changes nothing. -/
theorem normalizeEndpoint_idempotent_of_nonempty_witness :
    normalizeEndpoint (normalizeEndpoint "/api/v1/products/:name")
      = normalizeEndpoint "/api/v1/products/:name" :=
  (normalizeEndpoint_idempotent_of_nonempty "/api/v1/products/:name").1 (by decide)

/-! # Configuration

A shallow embedding of `internal/shared/config/config.go`. The environment of
the process is a map from variable names to texts; `os.Getenv` and
`strconv.Atoi` belong to the Go library and are embedded by their contracts. -/

/-- The environment of the process: `none` for a variable that is not set. -/
abbrev Environ := String → Option String

/-- The call `os.Getenv(key)`: the empty text for a variable that is not set. -/
def Getenv (env : Environ) (key : String) : String := (env key).getD ""

/-- The value of a text of decimal digits, `none` when the text is empty or
holds another character. -/
def digitsValue : List Char → Option Nat
  | [] => none
  | c :: cs =>
    (c :: cs).foldl
      (fun acc ch =>
        match acc with
        | none => none
        | some n => if ch.isDigit then some (n * 10 + (ch.toNat - '0'.toNat)) else none)
      (some 0)

/-- The call `strconv.Atoi(s)` on a 64-bit platform: an optional sign and at
least one decimal digit, the value within the range of `int`; `none` stands
for its error. -/
def Atoi (s : String) : Option Int :=
  match s.data with
  | [] => none
  | '-' :: ds =>
    match digitsValue ds with
    | some n => if n ≤ 9223372036854775808 then some (-(n : Int)) else none
    | none => none
  | '+' :: ds =>
    match digitsValue ds with
    | some n => if n < 9223372036854775808 then some (n : Int) else none
    | none => none
  | ds =>
    match digitsValue ds with
    | some n => if n < 9223372036854775808 then some (n : Int) else none
    | none => none

/-- The function `getEnv`. -/
def getEnv (env : Environ) (key defaultValue : String) : String :=
  if Getenv env key ≠ "" then Getenv env key else defaultValue

/-- The function `getEnvAsInt`. -/
def getEnvAsInt (env : Environ) (key : String) (defaultValue : Int) : Int :=
  if Getenv env key ≠ "" then
    match Atoi (Getenv env key) with
    | some intValue => intValue
    | none => defaultValue
  else defaultValue

/-- The struct `DatabaseConfig`. -/
structure DatabaseConfig where
  Host : String
  Port : Int
  User : String
  Password : String
  DBName : String
  SSLMode : String
deriving DecidableEq, Repr

/-- The struct `ServerConfig`. -/
structure ServerConfig where
  Port : String
  GinMode : String
deriving DecidableEq, Repr

/-- The struct `Config`. -/
structure Config where
  Database : DatabaseConfig
  Server : ServerConfig
deriving DecidableEq, Repr

/-- The function `Load`. -/
def Load (env : Environ) : Config :=
  { Database :=
      { Host := getEnv env "DB_HOST" "localhost"
        Port := getEnvAsInt env "DB_PORT" 5432
        User := getEnv env "DB_USER" "alderaan"
        Password := getEnv env "DB_PASSWORD" "alderaan123"
        DBName := getEnv env "DB_NAME" "alderaan_db"
        SSLMode := getEnv env "DB_SSLMODE" "disable" }
    Server :=
      { Port := getEnv env "SERVER_PORT" "8080"
        GinMode := getEnv env "GIN_MODE" "debug" } }

/-- The environment of "load with custom environment variables". -/
def sampleEnviron : Environ := fun key =>
  if key = "DB_HOST" then some "testhost"
  else if key = "DB_PORT" then some "5433"
  else if key = "DB_USER" then some "testuser"
  else if key = "DB_PASSWORD" then some "testpass"
  else if key = "DB_NAME" then some "testdb"
  else if key = "DB_SSLMODE" then some "require"
  else if key = "SERVER_PORT" then some "9090"
  else none

/-- An environment that sets only `DB_PORT`, to a text that is not a number. -/
def sampleInvalidPortEnviron : Environ := fun key =>
  if key = "DB_PORT" then some "invalid" else none

/-! ### Facts about `getEnv` and `getEnvAsInt` -/

theorem getEnv_eq (env : Environ) (key defaultValue : String) :
    getEnv env key defaultValue
      = if Getenv env key = "" then defaultValue else Getenv env key := by
  unfold getEnv
  by_cases h : Getenv env key = "" <;> simp [h]

theorem Atoi_empty : Atoi "" = none := rfl

theorem getEnvAsInt_eq (env : Environ) (key : String) (defaultValue : Int) :
    getEnvAsInt env key defaultValue = (Atoi (Getenv env key)).getD defaultValue := by
  unfold getEnvAsInt
  by_cases h : Getenv env key = ""
  · rw [h, Atoi_empty]
    simp
  · rw [if_pos h]
    cases Atoi (Getenv env key) <;> rfl

/-! ## Claim on `Load` -/

/-- C23: for every environment, `Load` takes each text setting from its
variable when the variable is set to a text that is not empty and otherwise
uses its default; it takes the port of the database from `DB_PORT` when
`strconv.Atoi` accepts it and otherwise (not set, empty, not a number) uses
5432; and each setting depends on its own variable only. -/
theorem load_uses_variable_or_default (env : Environ) :
    ((Load env).Database.Host
        = if Getenv env "DB_HOST" = "" then "localhost" else Getenv env "DB_HOST") ∧
    ((Load env).Database.User
        = if Getenv env "DB_USER" = "" then "alderaan" else Getenv env "DB_USER") ∧
    ((Load env).Database.Password
        = if Getenv env "DB_PASSWORD" = "" then "alderaan123" else Getenv env "DB_PASSWORD") ∧
    ((Load env).Database.DBName
        = if Getenv env "DB_NAME" = "" then "alderaan_db" else Getenv env "DB_NAME") ∧
    ((Load env).Database.SSLMode
        = if Getenv env "DB_SSLMODE" = "" then "disable" else Getenv env "DB_SSLMODE") ∧
    ((Load env).Server.Port
        = if Getenv env "SERVER_PORT" = "" then "8080" else Getenv env "SERVER_PORT") ∧
    (Load env).Database.Port = (Atoi (Getenv env "DB_PORT")).getD 5432 ∧
    (env "DB_PORT" = none → (Load env).Database.Port = 5432) ∧
    (env "DB_PORT" = some "" → (Load env).Database.Port = 5432) ∧
    (Atoi "invalid" = none ∧ Atoi "5433" = some 5433 ∧ Atoi "" = none ∧ Atoi "54x3" = none) ∧
    (∀ env2 : Environ,
      (Getenv env2 "DB_HOST" = Getenv env "DB_HOST" →
        (Load env2).Database.Host = (Load env).Database.Host) ∧
      (Getenv env2 "DB_PORT" = Getenv env "DB_PORT" →
        (Load env2).Database.Port = (Load env).Database.Port) ∧
      (Getenv env2 "DB_USER" = Getenv env "DB_USER" →
        (Load env2).Database.User = (Load env).Database.User) ∧
      (Getenv env2 "DB_PASSWORD" = Getenv env "DB_PASSWORD" →
        (Load env2).Database.Password = (Load env).Database.Password) ∧
      (Getenv env2 "DB_NAME" = Getenv env "DB_NAME" →
        (Load env2).Database.DBName = (Load env).Database.DBName) ∧
      (Getenv env2 "DB_SSLMODE" = Getenv env "DB_SSLMODE" →
        (Load env2).Database.SSLMode = (Load env).Database.SSLMode) ∧
      (Getenv env2 "SERVER_PORT" = Getenv env "SERVER_PORT" →
        (Load env2).Server.Port = (Load env).Server.Port)) ∧
    (Load sampleEnviron).Database
      = ⟨"testhost", 5433, "testuser", "testpass", "testdb", "require"⟩ ∧
    (Load sampleEnviron).Server.Port = "9090" ∧
    (Load sampleInvalidPortEnviron).Database.Port = 5432 ∧
    (Load (fun _ => none)).Database
      = ⟨"localhost", 5432, "alderaan", "alderaan123", "alderaan_db", "disable"⟩ := by
  have hport : ∀ e : Environ, (Load e).Database.Port = (Atoi (Getenv e "DB_PORT")).getD 5432 :=
    fun e => getEnvAsInt_eq e "DB_PORT" 5432
  refine ⟨getEnv_eq env _ _, getEnv_eq env _ _, getEnv_eq env _ _, getEnv_eq env _ _,
    getEnv_eq env _ _, getEnv_eq env _ _, hport env, ?_, ?_, ⟨by decide, by decide, rfl, by decide⟩,
    ?_, by decide, by decide, by decide, by decide⟩
  · intro h
    rw [hport, Getenv, h]
    rfl
  · intro h
    rw [hport, Getenv, h]
    rfl
  · intro env2
    refine ⟨?_, ?_, ?_, ?_, ?_, ?_, ?_⟩
    · intro h
      show getEnv env2 "DB_HOST" "localhost" = getEnv env "DB_HOST" "localhost"
      rw [getEnv_eq, getEnv_eq, h]
    · intro h
      rw [hport, hport, h]
    · intro h
      show getEnv env2 "DB_USER" "alderaan" = getEnv env "DB_USER" "alderaan"
      rw [getEnv_eq, getEnv_eq, h]
    · intro h
      show getEnv env2 "DB_PASSWORD" "alderaan123" = getEnv env "DB_PASSWORD" "alderaan123"
      rw [getEnv_eq, getEnv_eq, h]
    · intro h
      show getEnv env2 "DB_NAME" "alderaan_db" = getEnv env "DB_NAME" "alderaan_db"
      rw [getEnv_eq, getEnv_eq, h]
    · intro h
      show getEnv env2 "DB_SSLMODE" "disable" = getEnv env "DB_SSLMODE" "disable"
      rw [getEnv_eq, getEnv_eq, h]
    · intro h
      show getEnv env2 "SERVER_PORT" "8080" = getEnv env "SERVER_PORT" "8080"
      rw [getEnv_eq, getEnv_eq, h]

/-! # Metrics and HTTP handlers

A shallow embedding of `internal/metrics/metrics.go`, of the middleware of
`internal/metrics/middleware.go` and of
`internal/infra/http/handlers/product_handler.go`. The Prometheus client
library and the gin framework are outside the repository and are embedded by
their contracts: a counter vector is the list of the increments made (the
value under a set of labels is the number of its entries), a histogram vector
is the list of the observations made, a gauge is its value, a gauge vector is
the map from its label to the value, `Inc` adds one, `Set` stores, `Reset`
removes every label. A request body is what `ShouldBindJSON` makes of it. -/

/-- The labels of the three HTTP vectors. -/
structure HTTPLabels where
  method : String
  endpoint : String
  status : String
deriving DecidableEq, Repr

/-- The struct `Metrics`. -/
structure Metrics where
  HTTPRequestDuration : List (HTTPLabels × ℚ)
  HTTPRequestsTotal : List HTTPLabels
  HTTPRequestErrors : List (HTTPLabels × String)
  InFlightRequests : ℚ
  ProductsCreated : ℚ
  ProductsTotal : ℚ
  ProductsByCategory : GoMap ℚ
  ProductsTotalValue : ℚ
  ProductsAveragePrice : ℚ

/-- The call `strconv.Itoa(i)`: the decimal rendering of an integer. -/
def Itoa (i : Int) : String := toString i

namespace Metrics

/-- The method `RecordHTTPRequest`; `none` is the run-time panic of the index
`status[0]` on an empty status. -/
def RecordHTTPRequest (m : Metrics) (method endpoint status : String) (duration : ℚ)
    (isError : Bool) : Option Metrics :=
  if isError then
    match status.data.head? with
    | none => none
    | some first =>
      some { m with
        HTTPRequestDuration := m.HTTPRequestDuration ++ [(⟨method, endpoint, status⟩, duration)]
        HTTPRequestsTotal := m.HTTPRequestsTotal ++ [⟨method, endpoint, status⟩]
        HTTPRequestErrors :=
          m.HTTPRequestErrors
            ++ [(⟨method, endpoint, status⟩,
                  if first = '5' then "server_error" else "client_error")] }
  else
    some { m with
      HTTPRequestDuration := m.HTTPRequestDuration ++ [(⟨method, endpoint, status⟩, duration)]
      HTTPRequestsTotal := m.HTTPRequestsTotal ++ [⟨method, endpoint, status⟩] }

/-- The method `IncrementProductsCreated`. -/
def IncrementProductsCreated (m : Metrics) : Metrics :=
  { m with ProductsCreated := m.ProductsCreated + 1, ProductsTotal := m.ProductsTotal + 1 }

/-- The method `UpdateProductsByCategory`. -/
def UpdateProductsByCategory (m : Metrics) (category : String) (count : ℚ) : Metrics :=
  { m with ProductsByCategory := m.ProductsByCategory.set category count }

/-- The method `UpdateProductsTotalValue`. -/
def UpdateProductsTotalValue (m : Metrics) (totalValue : ℚ) : Metrics :=
  { m with ProductsTotalValue := totalValue }

/-- The method `UpdateProductsAveragePrice`. -/
def UpdateProductsAveragePrice (m : Metrics) (avgPrice : ℚ) : Metrics :=
  { m with ProductsAveragePrice := avgPrice }

/-- The method `ResetProductsByCategory`. -/
def ResetProductsByCategory (m : Metrics) : Metrics :=
  { m with ProductsByCategory := GoMap.empty }

end Metrics

/-- The part of the middleware that follows `c.Next()`: `out` is what the rest
of the chain made of the metrics and the status it wrote. `none` is a run-time
panic. -/
def recordAfterNext (out : Metrics × Int) (method fullPath : String) (duration : ℚ) :
    Option Metrics :=
  match
    out.1.RecordHTTPRequest method (normalizeEndpoint fullPath) (Itoa out.2) duration
      (decide (out.2 ≥ 400))
  with
  | none => none
  | some recorded => some { recorded with InFlightRequests := recorded.InFlightRequests - 1 }

/-- The handler returned by `PrometheusMiddleware`, run on one request. `next`
is the rest of the chain run by `c.Next()`: what it makes of the metrics and
the status it writes. -/
def PrometheusMiddleware (m : Metrics) (method fullPath : String) (duration : ℚ)
    (next : Metrics → Metrics × Int) : Option Metrics :=
  recordAfterNext (next { m with InFlightRequests := m.InFlightRequests + 1 }) method fullPath
    duration

/-- The interface `IProductRepository` over a repository whose state is of
type `σ`: `Add` may change the state, the other three methods read it. -/
structure IProductRepository (σ : Type) where
  Add : σ → Product → σ × GoError
  Find : σ → List Product × GoError
  FindOne : σ → String → Product × GoError
  GetMetrics : σ → RepositoryMetrics

/-- The in-memory repository as an `IProductRepository`. -/
def inMemoryRepository : IProductRepository ProductRepository :=
  { Add := ProductRepository.Add
    Find := ProductRepository.Find
    FindOne := ProductRepository.FindOne
    GetMetrics := ProductRepository.GetMetrics }

/-- The struct `CreateProductInput`. -/
structure CreateProductInput where
  Name : String
  Sku : Int
  Categories : List String
  Price : Int
deriving DecidableEq, Repr

/-- The body of a JSON response. -/
inductive ResponseBody where
  | error (message : String)
  | product (p : Product)
  | products (ps : List Product)
deriving DecidableEq, Repr

/-- The response written with `c.JSON(status, body)`. -/
structure Response where
  status : Nat
  body : ResponseBody
deriving DecidableEq, Repr

/-- The struct `ProductHandler`: the repository and the dispatcher; the
metrics it points to are part of the state below. -/
structure ProductHandler (σ D : Type) where
  repo : IProductRepository σ
  dispatcher : Option D

/-- What a handler works on: the state of the repository and the metrics. -/
structure HandlerState (σ : Type) where
  repo : σ
  metrics : Metrics

/-- What a handler leaves behind: the state, the response and the methods of
the repository it called, in order. -/
structure HandlerResult (σ : Type) where
  state : HandlerState σ
  response : Response
  calls : List RepoCall

namespace ProductHandler

/-- The loop of `updateBusinessMetrics` over the map of counts. -/
def updateCategoryGauges (m : Metrics) (entries : List (String × Int)) : Metrics :=
  entries.foldl (fun acc e => acc.UpdateProductsByCategory e.1 (float64OfInt e.2)) m

/-- The method `updateBusinessMetrics`, given the state of the repository. -/
def updateBusinessMetrics {σ D : Type} (h : ProductHandler σ D) (repo : σ) (m : Metrics) :
    Metrics :=
  updateCategoryGauges
    ((({ m with ProductsTotal := float64OfInt (h.repo.GetMetrics repo).TotalProducts
        }.UpdateProductsTotalValue (h.repo.GetMetrics repo).TotalValue).UpdateProductsAveragePrice
          (h.repo.GetMetrics repo).AveragePrice).ResetProductsByCategory)
    (h.repo.GetMetrics repo).ProductsByCategory.entries

/-- The method `Create`. `bound` is the outcome of `c.ShouldBindJSON(&input)`.
The branch answering 500 stands for the dereference of a nil product; it is
never taken, as `NewProduct` returns a product whenever it returns no error. -/
def Create {σ D : Type} (h : ProductHandler σ D) (st : HandlerState σ)
    (bound : Except String CreateProductInput) : HandlerResult σ :=
  match bound with
  | Except.error msg => ⟨st, ⟨400, ResponseBody.error msg⟩, []⟩
  | Except.ok input =>
    match NewProduct input.Name input.Sku input.Categories input.Price h.dispatcher with
    | (_, _, some err) => ⟨st, ⟨400, ResponseBody.error err⟩, []⟩
    | (none, _, none) => ⟨st, ⟨500, ResponseBody.error "nil pointer dereference"⟩, []⟩
    | (some product, _, none) =>
      match h.repo.Add st.repo product with
      | (repo, some err) =>
        ⟨⟨repo, st.metrics⟩, ⟨409, ResponseBody.error err⟩, [RepoCall.add product]⟩
      | (repo, none) =>
        ⟨⟨repo, h.updateBusinessMetrics repo st.metrics.IncrementProductsCreated⟩,
          ⟨201, ResponseBody.product product⟩, [RepoCall.add product, RepoCall.getMetrics]⟩

/-- The method `FindAll`. -/
def FindAll {σ D : Type} (h : ProductHandler σ D) (st : HandlerState σ) : HandlerResult σ :=
  ⟨st, ⟨200, ResponseBody.products (h.repo.Find st.repo).1⟩, [RepoCall.find]⟩

/-- The method `FindOne`. `name` is the path parameter. -/
def FindOne {σ D : Type} (h : ProductHandler σ D) (st : HandlerState σ) (name : String) :
    HandlerResult σ :=
  match h.repo.FindOne st.repo name with
  | (_, some _) => ⟨st, ⟨404, ResponseBody.error "product not found"⟩, [RepoCall.findOne name]⟩
  | (product, none) => ⟨st, ⟨200, ResponseBody.product product⟩, [RepoCall.findOne name]⟩

end ProductHandler

/-- A chain that leaves the metrics as they are and writes the status 404. -/
def sampleNotFoundChain (m : Metrics) : Metrics × Int := (m, 404)

/-- Metrics on which nothing has been recorded. -/
def emptyMetrics : Metrics :=
  { HTTPRequestDuration := []
    HTTPRequestsTotal := []
    HTTPRequestErrors := []
    InFlightRequests := 0
    ProductsCreated := 0
    ProductsTotal := 0
    ProductsByCategory := GoMap.empty
    ProductsTotalValue := 0
    ProductsAveragePrice := 0 }

/-- The handler of the tests over the in-memory repository, with no dispatcher. -/
def sampleHandler : ProductHandler ProductRepository Unit :=
  { repo := inMemoryRepository, dispatcher := none }

/-- The body of "create product successfully". -/
def sampleCreateInput : CreateProductInput :=
  ⟨"Notebook", 12345, ["Electronics", "Computers"], 3500⟩

/-! ### Facts about the rendering of a status -/

theorem Itoa_head (n : Nat) (h1 : 100 ≤ n) (h2 : n ≤ 599) :
    (Itoa (n : Int)).data.head? = some (Nat.digitChar (n / 100)) := by
  interval_cases n <;> rfl

theorem Itoa_head_five (n : Nat) (h1 : 100 ≤ n) (h2 : n ≤ 599) :
    ((Itoa (n : Int)).data.head? = some '5') ↔ 500 ≤ n := by
  rw [Itoa_head n h1 h2]
  by_cases h5 : 500 ≤ n
  · have h : n / 100 = 5 := by omega
    rw [h]
    exact ⟨fun _ => h5, fun _ => rfl⟩
  · have h : n / 100 = 1 ∨ n / 100 = 2 ∨ n / 100 = 3 ∨ n / 100 = 4 := by omega
    rcases h with h | h | h | h <;> rw [h] <;>
      exact ⟨fun hh => absurd hh (by decide), fun hh => absurd hh h5⟩

/-- The first character of the rendering of a status between 100 and 599. -/
theorem Itoa_status (c : Int) (h1 : 100 ≤ c) (h2 : c ≤ 599) :
    ∃ first, (Itoa c).data.head? = some first ∧ (first = '5' ↔ 500 ≤ c) := by
  have hc : c = ((c.toNat : Nat) : Int) := (Int.toNat_of_nonneg (by omega)).symm
  have hn1 : 100 ≤ c.toNat := by omega
  have hn2 : c.toNat ≤ 599 := by omega
  refine ⟨Nat.digitChar (c.toNat / 100), ?_, ?_⟩
  · rw [hc]
    exact Itoa_head c.toNat hn1 hn2
  · have h5 := Itoa_head_five c.toNat hn1 hn2
    rw [Itoa_head c.toNat hn1 hn2] at h5
    constructor
    · intro h
      have := h5.mp (by rw [h])
      omega
    · intro h
      have := h5.mpr (by omega)
      exact Option.some.inj this

theorem recordAfterNext_status (out : Metrics × Int) (method fullPath : String)
    (duration : ℚ) (h1 : 100 ≤ out.2) (h2 : out.2 ≤ 599) :
    ∃ after, recordAfterNext out method fullPath duration = some after ∧
      (Itoa out.2).data.head? ≠ none ∧
      after.HTTPRequestsTotal
        = out.1.HTTPRequestsTotal ++ [⟨method, normalizeEndpoint fullPath, Itoa out.2⟩] ∧
      after.HTTPRequestDuration
        = out.1.HTTPRequestDuration
          ++ [(⟨method, normalizeEndpoint fullPath, Itoa out.2⟩, duration)] ∧
      after.HTTPRequestErrors
        = out.1.HTTPRequestErrors
          ++ (if 400 ≤ out.2 then
                [(⟨method, normalizeEndpoint fullPath, Itoa out.2⟩,
                  if 500 ≤ out.2 then "server_error" else "client_error")]
              else []) ∧
      after.InFlightRequests = out.1.InFlightRequests - 1 := by
  obtain ⟨first, hfirst, hfive⟩ := Itoa_status _ h1 h2
  unfold recordAfterNext
  by_cases herr : 400 ≤ out.2
  · have hdec : decide (out.2 ≥ 400) = true := by simpa using herr
    simp only [Metrics.RecordHTTPRequest, hdec, if_true, hfirst]
    refine ⟨_, rfl, by simp, rfl, rfl, ?_, rfl⟩
    rw [if_pos herr]
    by_cases h5 : 500 ≤ out.2
    · rw [if_pos h5, if_pos (hfive.mpr h5)]
    · rw [if_neg h5, if_neg (fun h => h5 (hfive.mp h))]
  · have hdec : decide (out.2 ≥ 400) = false := by simpa using herr
    simp only [Metrics.RecordHTTPRequest, hdec]
    refine ⟨_, rfl, by rw [hfirst]; simp, rfl, rfl, ?_, rfl⟩
    rw [if_neg herr]
    simp

/-! ## Claim on the middleware -/

/-- C27: for every request whose chain writes a status `c` between 100 and
599, the middleware records it with the status label the decimal rendering of
`c`, which is never empty, so that the index `status[0]` is in range: the
request counter gets one increment and the histogram one observation under the
labels of the request, the error counter gets one increment when `c >= 400` and
none otherwise, labelled "server_error" exactly when `500 <= c` and
"client_error" when `400 <= c <= 499`; and the gauge of requests in flight is
back at its value. -/
theorem middleware_records_request (m : Metrics) (method fullPath : String) (duration : ℚ)
    (next : Metrics → Metrics × Int)
    (h1 : 100 ≤ (next { m with InFlightRequests := m.InFlightRequests + 1 }).2)
    (h2 : (next { m with InFlightRequests := m.InFlightRequests + 1 }).2 ≤ 599) :
    ∃ after, PrometheusMiddleware m method fullPath duration next = some after ∧
      (Itoa (next { m with InFlightRequests := m.InFlightRequests + 1 }).2).data.head? ≠ none ∧
      after.HTTPRequestsTotal
        = (next { m with InFlightRequests := m.InFlightRequests + 1 }).1.HTTPRequestsTotal
          ++ [⟨method, normalizeEndpoint fullPath,
                Itoa (next { m with InFlightRequests := m.InFlightRequests + 1 }).2⟩] ∧
      after.HTTPRequestDuration
        = (next { m with InFlightRequests := m.InFlightRequests + 1 }).1.HTTPRequestDuration
          ++ [(⟨method, normalizeEndpoint fullPath,
                Itoa (next { m with InFlightRequests := m.InFlightRequests + 1 }).2⟩, duration)] ∧
      after.HTTPRequestErrors
        = (next { m with InFlightRequests := m.InFlightRequests + 1 }).1.HTTPRequestErrors
          ++ (if 400 ≤ (next { m with InFlightRequests := m.InFlightRequests + 1 }).2 then
                [(⟨method, normalizeEndpoint fullPath,
                    Itoa (next { m with InFlightRequests := m.InFlightRequests + 1 }).2⟩,
                  if 500 ≤ (next { m with InFlightRequests := m.InFlightRequests + 1 }).2
                  then "server_error" else "client_error")]
              else []) ∧
      after.InFlightRequests
        = (next { m with InFlightRequests := m.InFlightRequests + 1 }).1.InFlightRequests - 1 :=
  recordAfterNext_status (next { m with InFlightRequests := m.InFlightRequests + 1 }) method
    fullPath duration h1 h2

/-- A request answered 404: one increment of the error counter, as a client error. -/
theorem middleware_records_request_witness :
    ∃ after, PrometheusMiddleware emptyMetrics "GET" "/api/v1/products/:name" 1
        sampleNotFoundChain = some after ∧
      after.HTTPRequestErrors
        = [(⟨"GET", "/api/v1/products/\x7bname\x7d", "404"⟩, "client_error")] := by
  obtain ⟨after, h, _, _, _, herrors, _⟩ :=
    middleware_records_request emptyMetrics "GET" "/api/v1/products/:name" 1
      sampleNotFoundChain (by decide) (by decide)
  refine ⟨after, h, ?_⟩
  rw [herrors]
  decide

/-! # The handlers -/

/-! ### Facts about `NewProduct`, `Create` and the gauges -/

theorem NewProduct_cases {D : Type} (name : String) (sku : Int) (categories : List String)
    (price : Int) (dispatcher : Option D) :
    (∃ msg, NewProduct name sku categories price dispatcher = (none, none, some msg)) ∨
      NewProduct name sku categories price dispatcher
        = (some ⟨name, sku, categories, price⟩,
            some (NewProductCreatedEvent name sku categories price), none) := by
  unfold NewProduct Validate
  split_ifs <;> simp_all

/-- The product built from a body. -/
def CreateProductInput.toProduct (input : CreateProductInput) : Product :=
  ⟨input.Name, input.Sku, input.Categories, input.Price⟩

theorem Create_of_invalid {σ D : Type} (h : ProductHandler σ D) (st : HandlerState σ)
    (input : CreateProductInput) (msg : String)
    (hn : (NewProduct input.Name input.Sku input.Categories input.Price h.dispatcher).2.2
      = some msg) :
    h.Create st (Except.ok input) = ⟨st, ⟨400, ResponseBody.error msg⟩, []⟩ := by
  rcases NewProduct_cases input.Name input.Sku input.Categories input.Price h.dispatcher
    with ⟨msg', h'⟩ | h'
  · rw [h'] at hn
    have hmsg : msg' = msg := Option.some.inj hn
    subst hmsg
    simp only [ProductHandler.Create, h']
  · rw [h'] at hn
    exact absurd hn (by simp)

theorem Create_of_valid {σ D : Type} (h : ProductHandler σ D) (st : HandlerState σ)
    (input : CreateProductInput)
    (hn : (NewProduct input.Name input.Sku input.Categories input.Price h.dispatcher).2.2
      = none) :
    h.Create st (Except.ok input)
      = match h.repo.Add st.repo input.toProduct with
        | (repo, some err) =>
          ⟨⟨repo, st.metrics⟩, ⟨409, ResponseBody.error err⟩, [RepoCall.add input.toProduct]⟩
        | (repo, none) =>
          ⟨⟨repo, h.updateBusinessMetrics repo st.metrics.IncrementProductsCreated⟩,
            ⟨201, ResponseBody.product input.toProduct⟩,
            [RepoCall.add input.toProduct, RepoCall.getMetrics]⟩ := by
  rcases NewProduct_cases input.Name input.Sku input.Categories input.Price h.dispatcher
    with ⟨msg', h'⟩ | h'
  · rw [h'] at hn
    exact absurd hn (by simp)
  · simp only [ProductHandler.Create, h', CreateProductInput.toProduct]

theorem Create_of_add_error {σ D : Type} (h : ProductHandler σ D) (st : HandlerState σ)
    (input : CreateProductInput) (err : String)
    (hn : (NewProduct input.Name input.Sku input.Categories input.Price h.dispatcher).2.2
      = none)
    (hadd : (h.repo.Add st.repo input.toProduct).2 = some err) :
    h.Create st (Except.ok input)
      = ⟨⟨(h.repo.Add st.repo input.toProduct).1, st.metrics⟩,
          ⟨409, ResponseBody.error err⟩, [RepoCall.add input.toProduct]⟩ := by
  rw [Create_of_valid h st input hn]
  rcases hres : h.repo.Add st.repo input.toProduct with ⟨repo, e⟩
  rw [hres] at hadd
  simp only at hadd
  subst hadd
  rfl

theorem Create_of_added {σ D : Type} (h : ProductHandler σ D) (st : HandlerState σ)
    (input : CreateProductInput)
    (hn : (NewProduct input.Name input.Sku input.Categories input.Price h.dispatcher).2.2
      = none)
    (hadd : (h.repo.Add st.repo input.toProduct).2 = none) :
    h.Create st (Except.ok input)
      = ⟨⟨(h.repo.Add st.repo input.toProduct).1,
            h.updateBusinessMetrics (h.repo.Add st.repo input.toProduct).1
              st.metrics.IncrementProductsCreated⟩,
          ⟨201, ResponseBody.product input.toProduct⟩,
          [RepoCall.add input.toProduct, RepoCall.getMetrics]⟩ := by
  rw [Create_of_valid h st input hn]
  rcases hres : h.repo.Add st.repo input.toProduct with ⟨repo, e⟩
  rw [hres] at hadd
  simp only at hadd
  subst hadd
  rfl

/-- The four ways `Create` can end. -/
theorem Create_cases {σ D : Type} (h : ProductHandler σ D) (st : HandlerState σ)
    (bound : Except String CreateProductInput) :
    (∃ msg, h.Create st bound = ⟨st, ⟨400, ResponseBody.error msg⟩, []⟩) ∨
    (∃ input err, bound = Except.ok input ∧
      (h.repo.Add st.repo input.toProduct).2 = some err ∧
      h.Create st bound
        = ⟨⟨(h.repo.Add st.repo input.toProduct).1, st.metrics⟩,
            ⟨409, ResponseBody.error err⟩, [RepoCall.add input.toProduct]⟩) ∨
    (∃ input, bound = Except.ok input ∧
      (h.repo.Add st.repo input.toProduct).2 = none ∧
      h.Create st bound
        = ⟨⟨(h.repo.Add st.repo input.toProduct).1,
              h.updateBusinessMetrics (h.repo.Add st.repo input.toProduct).1
                st.metrics.IncrementProductsCreated⟩,
            ⟨201, ResponseBody.product input.toProduct⟩,
            [RepoCall.add input.toProduct, RepoCall.getMetrics]⟩) := by
  cases bound with
  | error msg => exact Or.inl ⟨msg, rfl⟩
  | ok input =>
    cases hn : (NewProduct input.Name input.Sku input.Categories input.Price h.dispatcher).2.2
      with
    | some msg => exact Or.inl ⟨msg, Create_of_invalid h st input msg hn⟩
    | none =>
      cases hadd : (h.repo.Add st.repo input.toProduct).2 with
      | some err =>
        exact Or.inr (Or.inl ⟨input, err, rfl, hadd, Create_of_add_error h st input err hn hadd⟩)
      | none => exact Or.inr (Or.inr ⟨input, rfl, hadd, Create_of_added h st input hn hadd⟩)

theorem assocGet_map_values {V W : Type} (f : V → W) (k : String) :
    ∀ es : List (String × V),
      assocGet k (es.map (fun e => (e.1, f e.2))) = (assocGet k es).map f
  | [] => rfl
  | e :: es => by
    by_cases hk : e.1 = k
    · simp [assocGet, hk]
    · simp [assocGet, hk, assocGet_map_values f k es]

theorem foldl_set_of_distinct {V W : Type} (f : V → W) :
    ∀ (es : List (String × V)) (g : GoMap W), (es.map Prod.fst).Nodup →
      (∀ e ∈ es, g.get? e.1 = none) →
      (es.foldl (fun acc e => acc.set e.1 (f e.2)) g).entries
        = g.entries ++ es.map (fun e => (e.1, f e.2))
  | [], g, _, _ => by simp
  | (c, n) :: es, g, hnd, hfresh => by
    have hc : g.get? c = none := hfresh (c, n) (List.mem_cons_self _ _)
    have hnotin : c ∉ es.map Prod.fst := (List.nodup_cons.mp hnd).1
    have hnd2 : (es.map Prod.fst).Nodup := (List.nodup_cons.mp hnd).2
    have hset : (g.set c (f n)).entries = g.entries ++ [(c, f n)] :=
      assocSet_of_get_none c (f n) g.entries hc
    have hfresh2 : ∀ e ∈ es, (g.set c (f n)).get? e.1 = none := by
      intro e he
      have hne : e.1 ≠ c := fun h => hnotin (h ▸ List.mem_map_of_mem Prod.fst he)
      show assocGet e.1 (assocSet c (f n) g.entries) = none
      rw [assocGet_assocSet_ne c e.1 (f n) hne g.entries]
      exact hfresh e (List.mem_cons_of_mem _ he)
    have ih := foldl_set_of_distinct f es (g.set c (f n)) hnd2 hfresh2
    simp only [List.foldl_cons, List.map_cons, ih, hset, List.append_assoc,
      List.singleton_append]

theorem updateCategoryGauges_eq :
    ∀ (es : List (String × Int)) (m : Metrics),
      ProductHandler.updateCategoryGauges m es
        = { m with
            ProductsByCategory :=
              es.foldl (fun acc e => acc.set e.1 (float64OfInt e.2)) m.ProductsByCategory }
  | [], _ => rfl
  | e :: es, m =>
    updateCategoryGauges_eq es (m.UpdateProductsByCategory e.1 (float64OfInt e.2))

/-- What `updateBusinessMetrics` leaves in the metrics. -/
theorem updateBusinessMetrics_eq {σ D : Type} (h : ProductHandler σ D) (repo : σ)
    (m : Metrics) :
    (h.updateBusinessMetrics repo m).ProductsCreated = m.ProductsCreated ∧
    (h.updateBusinessMetrics repo m).ProductsTotal
      = float64OfInt (h.repo.GetMetrics repo).TotalProducts ∧
    (h.updateBusinessMetrics repo m).ProductsTotalValue = (h.repo.GetMetrics repo).TotalValue ∧
    (h.updateBusinessMetrics repo m).ProductsAveragePrice
      = (h.repo.GetMetrics repo).AveragePrice ∧
    (h.updateBusinessMetrics repo m).ProductsByCategory.entries
      = (h.repo.GetMetrics repo).ProductsByCategory.entries.map
          (fun e => (e.1, float64OfInt e.2)) ∧
    (h.updateBusinessMetrics repo m).HTTPRequestDuration = m.HTTPRequestDuration ∧
    (h.updateBusinessMetrics repo m).HTTPRequestsTotal = m.HTTPRequestsTotal ∧
    (h.updateBusinessMetrics repo m).HTTPRequestErrors = m.HTTPRequestErrors ∧
    (h.updateBusinessMetrics repo m).InFlightRequests = m.InFlightRequests := by
  unfold ProductHandler.updateBusinessMetrics
  rw [updateCategoryGauges_eq]
  refine ⟨rfl, rfl, rfl, rfl, ?_, rfl, rfl, rfl, rfl⟩
  show (((h.repo.GetMetrics repo).ProductsByCategory.entries.foldl
    (fun acc e => acc.set e.1 (float64OfInt e.2)) GoMap.empty).entries) = _
  rw [foldl_set_of_distinct float64OfInt _ GoMap.empty
    (h.repo.GetMetrics repo).ProductsByCategory.nodup (fun _ _ => rfl)]
  rfl

theorem NewProduct_error_of_invalid {D : Type} (name : String) (sku : Int)
    (categories : List String) (price : Int) (dispatcher : Option D)
    (hv : (Validate name sku categories price).1 = false) :
    ∃ msg, (NewProduct name sku categories price dispatcher).2.2 = some msg := by
  rcases NewProduct_cases name sku categories price dispatcher with ⟨msg, h'⟩ | h'
  · exact ⟨msg, by rw [h']⟩
  · exfalso
    unfold NewProduct at h'
    rw [hv] at h'
    simp at h'

theorem NewProduct_error_of_valid {D : Type} (name : String) (sku : Int)
    (categories : List String) (price : Int) (dispatcher : Option D)
    (hv : (Validate name sku categories price).1 = true) :
    (NewProduct name sku categories price dispatcher).2.2 = none := by
  unfold NewProduct
  rw [hv]
  rfl

/-! ## Claims on the handlers -/

/-- C24: for every body and repository, `Create` answers 400 with the error of
the binding when the body does not bind, 400 with the error of `NewProduct`
when the validation of the product fails, and in both cases calls no method of
the repository; with a valid product it calls `repo.Add` and answers 409 with
the error of `Add` when there is one, and 201 with the created product
otherwise. It answers nothing else than 400, 409 or 201, an answer 400 never
comes with a call of the repository, and over the in-memory repository a valid
product whose name is already stored is answered 409 "product already exists",
the state left as it was. -/
theorem create_answers_by_outcome {σ D : Type} (h : ProductHandler σ D) (st : HandlerState σ) :
    (∀ msg, h.Create st (Except.error msg) = ⟨st, ⟨400, ResponseBody.error msg⟩, []⟩) ∧
    (∀ input msg,
      (NewProduct input.Name input.Sku input.Categories input.Price h.dispatcher).2.2
          = some msg →
        h.Create st (Except.ok input) = ⟨st, ⟨400, ResponseBody.error msg⟩, []⟩) ∧
    (∀ input, (Validate input.Name input.Sku input.Categories input.Price).1 = false →
      (h.Create st (Except.ok input)).response.status = 400 ∧
        (h.Create st (Except.ok input)).calls = []) ∧
    (∀ input err, (Validate input.Name input.Sku input.Categories input.Price).1 = true →
      (h.repo.Add st.repo input.toProduct).2 = some err →
        (h.Create st (Except.ok input)).response = ⟨409, ResponseBody.error err⟩ ∧
          (h.Create st (Except.ok input)).calls = [RepoCall.add input.toProduct]) ∧
    (∀ input, (Validate input.Name input.Sku input.Categories input.Price).1 = true →
      (h.repo.Add st.repo input.toProduct).2 = none →
        (h.Create st (Except.ok input)).response
            = ⟨201, ResponseBody.product input.toProduct⟩ ∧
          (h.Create st (Except.ok input)).state.repo
            = (h.repo.Add st.repo input.toProduct).1 ∧
          (h.Create st (Except.ok input)).calls
            = [RepoCall.add input.toProduct, RepoCall.getMetrics]) ∧
    (∀ bound, (h.Create st bound).response.status = 400 ∨
      (h.Create st bound).response.status = 409 ∨
      (h.Create st bound).response.status = 201) ∧
    (∀ bound, (h.Create st bound).response.status = 400 →
      (h.Create st bound).calls = [] ∧ (h.Create st bound).state = st) ∧
    (∀ (hm : ProductHandler ProductRepository D) (stm : HandlerState ProductRepository)
      (input : CreateProductInput), hm.repo = inMemoryRepository →
      (Validate input.Name input.Sku input.Categories input.Price).1 = true →
      stm.repo.data.get? input.Name ≠ none →
        hm.Create stm (Except.ok input)
          = ⟨stm, ⟨409, ResponseBody.error "product already exists"⟩,
              [RepoCall.add input.toProduct]⟩) := by
  refine ⟨fun _ => rfl, fun input msg hn => Create_of_invalid h st input msg hn, ?_, ?_, ?_, ?_,
    ?_, ?_⟩
  · intro input hv
    obtain ⟨msg, hn⟩ :=
      NewProduct_error_of_invalid input.Name input.Sku input.Categories input.Price
        h.dispatcher hv
    rw [Create_of_invalid h st input msg hn]
    exact ⟨rfl, rfl⟩
  · intro input err hv hadd
    rw [Create_of_add_error h st input err (NewProduct_error_of_valid _ _ _ _ _ hv) hadd]
    exact ⟨rfl, rfl⟩
  · intro input hv hadd
    rw [Create_of_added h st input (NewProduct_error_of_valid _ _ _ _ _ hv) hadd]
    exact ⟨rfl, rfl, rfl⟩
  · intro bound
    rcases Create_cases h st bound with ⟨msg, hc⟩ | ⟨input, err, _, _, hc⟩ | ⟨input, _, _, hc⟩
    · exact Or.inl (by rw [hc])
    · exact Or.inr (Or.inl (by rw [hc]))
    · exact Or.inr (Or.inr (by rw [hc]))
  · intro bound hstatus
    rcases Create_cases h st bound with ⟨msg, hc⟩ | ⟨input, err, _, _, hc⟩ | ⟨input, _, _, hc⟩
    · rw [hc]
      exact ⟨rfl, rfl⟩
    · rw [hc] at hstatus
      exact absurd hstatus (show ¬ ((409 : Nat) = 400) by decide)
    · rw [hc] at hstatus
      exact absurd hstatus (show ¬ ((201 : Nat) = 400) by decide)
  · intro hm stm input hrepo hv hstored
    have hadd : (hm.repo.Add stm.repo input.toProduct).2 = some "product already exists" := by
      rw [hrepo]
      exact (Add_error_eq_exists_iff stm.repo input.toProduct).mpr hstored
    have hstate : (hm.repo.Add stm.repo input.toProduct).1 = stm.repo := by
      rw [hrepo]
      exact Add_state_of_stored stm.repo input.toProduct hstored
    rw [Create_of_add_error hm stm input _ (NewProduct_error_of_valid _ _ _ _ _ hv) hadd,
      hstate]

/-- The body of "create product successfully" on the empty in-memory
repository: answered 201 with the product, after `Add` and `GetMetrics`. -/
theorem create_answers_by_outcome_witness :
    (sampleHandler.Create ⟨NewRepository, emptyMetrics⟩ (Except.ok sampleCreateInput)).response
        = ⟨201, ResponseBody.product ⟨"Notebook", 12345, ["Electronics", "Computers"], 3500⟩⟩ ∧
      (sampleHandler.Create ⟨NewRepository, emptyMetrics⟩ (Except.ok sampleCreateInput)).calls
        = [RepoCall.add sampleCreateInput.toProduct, RepoCall.getMetrics] :=
  ⟨((create_answers_by_outcome sampleHandler ⟨NewRepository, emptyMetrics⟩).2.2.2.2.1
      sampleCreateInput (by decide) (by decide)).1,
    ((create_answers_by_outcome sampleHandler ⟨NewRepository, emptyMetrics⟩).2.2.2.2.1
      sampleCreateInput (by decide) (by decide)).2.2⟩

/-- C25: for every name and repository, the handler `FindOne` answers 200 with
the product returned by `repo.FindOne` when that call returns no error, and 404
with the body error "product not found" whenever it returns an error, whatever
the error is; the handler `FindAll` answers 200 with the products returned by
`repo.Find`, whether or not `repo.Find` reports an error. Neither changes the
state. -/
theorem handler_find_answers {σ D : Type} (h : ProductHandler σ D) (st : HandlerState σ) :
    (∀ name, (h.repo.FindOne st.repo name).2 = none →
      h.FindOne st name
        = ⟨st, ⟨200, ResponseBody.product (h.repo.FindOne st.repo name).1⟩,
            [RepoCall.findOne name]⟩) ∧
    (∀ name err, (h.repo.FindOne st.repo name).2 = some err →
      h.FindOne st name
        = ⟨st, ⟨404, ResponseBody.error "product not found"⟩, [RepoCall.findOne name]⟩) ∧
    (∀ err : GoError, (h.repo.Find st.repo).2 = err →
      h.FindAll st
        = ⟨st, ⟨200, ResponseBody.products (h.repo.Find st.repo).1⟩, [RepoCall.find]⟩) := by
  refine ⟨?_, ?_, fun _ _ => rfl⟩
  · intro name hnone
    unfold ProductHandler.FindOne
    rcases hres : h.repo.FindOne st.repo name with ⟨product, e⟩
    rw [hres] at hnone
    simp only at hnone
    subst hnone
    rfl
  · intro name err hsome
    unfold ProductHandler.FindOne
    rcases hres : h.repo.FindOne st.repo name with ⟨product, e⟩
    rw [hres] at hsome
    simp only at hsome
    subst hsome
    rfl

/-- C30: for every repository and prior metrics, a `Create` that answers 201
adds exactly 1 to `ProductsCreated` and leaves the business gauges equal to the
metrics of the repository read after the `Add`: `ProductsTotal` is
`float64(TotalProducts)`, which is `TotalProducts` itself up to magnitude 2^53
(the increment made by `IncrementProductsCreated` is overwritten),
`ProductsTotalValue` is `TotalValue`, `ProductsAveragePrice` is `AveragePrice`,
and the gauges per category are exactly the entries of `ProductsByCategory`,
each count converted with `float64` (nothing of the former gauges is left); a
`Create` that answers 400 or 409 leaves the metrics as they were. -/
theorem create_updates_business_metrics {σ D : Type} (h : ProductHandler σ D)
    (st : HandlerState σ) (bound : Except String CreateProductInput) :
    ((h.Create st bound).response.status = 201 →
      (∃ input, bound = Except.ok input ∧
        (h.Create st bound).state.repo = (h.repo.Add st.repo input.toProduct).1) ∧
      (h.Create st bound).state.metrics.ProductsCreated = st.metrics.ProductsCreated + 1 ∧
      (h.Create st bound).state.metrics.ProductsTotal
        = float64OfInt (h.repo.GetMetrics (h.Create st bound).state.repo).TotalProducts ∧
      (|(h.repo.GetMetrics (h.Create st bound).state.repo).TotalProducts| ≤ 9007199254740992 →
        (h.Create st bound).state.metrics.ProductsTotal
          = (h.repo.GetMetrics (h.Create st bound).state.repo).TotalProducts) ∧
      (h.Create st bound).state.metrics.ProductsTotalValue
        = (h.repo.GetMetrics (h.Create st bound).state.repo).TotalValue ∧
      (h.Create st bound).state.metrics.ProductsAveragePrice
        = (h.repo.GetMetrics (h.Create st bound).state.repo).AveragePrice ∧
      (h.Create st bound).state.metrics.ProductsByCategory.entries
        = (h.repo.GetMetrics (h.Create st bound).state.repo).ProductsByCategory.entries.map
            (fun e => (e.1, float64OfInt e.2)) ∧
      (∀ c, (h.Create st bound).state.metrics.ProductsByCategory.get? c
        = ((h.repo.GetMetrics (h.Create st bound).state.repo).ProductsByCategory.get? c).map
            float64OfInt)) ∧
    ((h.Create st bound).response.status = 400 ∨ (h.Create st bound).response.status = 409 →
      (h.Create st bound).state.metrics = st.metrics) := by
  rcases Create_cases h st bound with ⟨msg, hc⟩ | ⟨input, err, _, _, hc⟩ | ⟨input, hb, _, hc⟩
  · rw [hc]
    exact ⟨fun hs => absurd hs (show ¬ ((400 : Nat) = 201) by decide), fun _ => rfl⟩
  · rw [hc]
    exact ⟨fun hs => absurd hs (show ¬ ((409 : Nat) = 201) by decide), fun _ => rfl⟩
  · rw [hc]
    refine ⟨fun _ => ?_, fun hs => ?_⟩
    · obtain ⟨h1, h2, h3, h4, h5, _⟩ :=
        updateBusinessMetrics_eq h (h.repo.Add st.repo input.toProduct).1
          st.metrics.IncrementProductsCreated
      refine ⟨⟨input, hb, rfl⟩, h1, h2, fun hsmall => ?_, h3, h4, h5, fun c => ?_⟩
      · exact h2.trans (roundFloat64_intCast _ hsmall)
      · show assocGet c _ = (assocGet c _).map float64OfInt
        rw [← assocGet_map_values float64OfInt c]
        exact congrArg (assocGet c) h5
    · rcases hs with hs | hs
      · exact absurd hs (show ¬ ((201 : Nat) = 400) by decide)
      · exact absurd hs (show ¬ ((201 : Nat) = 409) by decide)

/-- The body of "create product successfully" on the empty in-memory
repository: the counter of created products goes from 0 to 1 and the gauge of
the total is the one stored product. -/
theorem create_updates_business_metrics_witness :
    (sampleHandler.Create ⟨NewRepository, emptyMetrics⟩
        (Except.ok sampleCreateInput)).state.metrics.ProductsCreated
      = emptyMetrics.ProductsCreated + 1 :=
  ((create_updates_business_metrics sampleHandler ⟨NewRepository, emptyMetrics⟩
    (Except.ok sampleCreateInput)).1 (by decide)).2.1

end Alderaan
